import Mathlib

/-!
Medusa semantic expressions and execution engine: a shallow embedding of
`src/core/expression.cpp` and of `Execution::Execute` of `src/core/execution.cpp`.

Expression nodes live in a heap and are referred to by handles, the way the C++
code refers to them through `std::shared_ptr`.  Handle equality is pointer
equality, a null handle is `none`, and the in-place assignments of
`UpdateChild` are heap updates.  Calling a member function through a null
handle is a fault.  Recursive member functions take a fuel argument, one unit
per virtual call, so that they are total on heaps that contain cycles.  The
engine is run against the document, architecture, CPU context and emulator as
parameters, and a run records the calls it makes on them.
-/

namespace Medusa

deriving instance DecidableEq for Except

/-- Address of the document: the pair (base, offset). -/
structure Address where
  m_Base : Nat
  m_Offset : Nat
deriving DecidableEq, Repr

/-- BitVector value: a width in bits and an unsigned value. -/
structure BitVector where
  m_BitSize : Nat
  m_Value : Nat
deriving DecidableEq, Repr

/-- Getter `BitVector::GetUnsignedValue`. -/
def BitVector.GetUnsignedValue (v : BitVector) : Nat := v.m_Value

/-- Result of `Expression::Compare` (`Expression::CompareType`). -/
inductive CompareType
  | CmpUnknown
  | CmpDifferent
  | CmpSameExpression
  | CmpIdentical
deriving DecidableEq, Repr

/-- Operation codes named by the `switch` of `OperationExpression::ToString`. -/
inductive OpType
  | OpUnk
  | OpNot | OpNeg | OpSwap | OpBsf | OpBsr
  | OpXchg | OpAnd | OpOr | OpXor | OpLls | OpLrs | OpArs | OpRol | OpRor
  | OpAdd | OpAddFloat | OpSub | OpMul | OpSDiv | OpUDiv | OpSMod | OpUMod
  | OpSext | OpZext | OpInsertBits | OpExtractBits | OpBcast
deriving DecidableEq, Repr

/-- Action of a variable expression (`VariableExpression::ActionType`). -/
inductive ActionType
  | Alloc | Free | Use
deriving DecidableEq, Repr

/-- Identity of an expression object: what a non-null `shared_ptr` points to. -/
abbrev Handle := Nat

/-- An `Expression::SPType`: `none` is `nullptr`. -/
abbrev SPType := Option Handle

/-- The concrete expression classes of `expression.cpp` with their data members.
Child members are handles, not sub-terms: two nodes may hold the same handle.
`ConditionExpression::Type` and `SymbolicExpression::Type` are kept as the
integer the enumerators stand for; a `CpuInformation const*` is kept as the
pointer value. -/
inductive Expression
  | System (m_Name : String) (m_Address : Address)
  | Bind (m_Expressions : List SPType)
  | TernaryCondition (m_Type : Nat) (m_spRefExpr m_spTestExpr m_spTrueExpr m_spFalseExpr : SPType)
  | IfElseCondition (m_Type : Nat) (m_spRefExpr m_spTestExpr m_spThenExpr m_spElseExpr : SPType)
  | WhileCondition (m_Type : Nat) (m_spRefExpr m_spTestExpr m_spBodyExpr : SPType)
  | Assignment (m_spDstExpr m_spSrcExpr : SPType)
  | UnaryOperation (m_OpType : OpType) (m_spExpr : SPType)
  | BinaryOperation (m_OpType : OpType) (m_spLeftExpr m_spRightExpr : SPType)
  | BitVector (m_Value : BitVector)
  | Identifier (m_Id : Nat) (m_pCpuInfo : Nat)
  | VectorIdentifier (m_VecId : List Nat) (m_pCpuInfo : Nat)
  | Track (m_spTrkExpr : SPType) (m_CurAddr : Address) (m_Pos : Nat)
  | Variable (m_Name : String) (m_Action : ActionType) (m_BitSize : Nat)
  | Memory (m_AccessSizeInBit : Nat) (m_spBaseExpr m_spOffExpr : SPType) (m_Dereference : Bool)
  | Symbolic (m_Type : Nat) (m_Value : String) (m_Address : Address) (m_spExpr : SPType)
deriving DecidableEq, Repr

/-- The store of expression objects; the handle of an object is its index. -/
abbrev Heap := List Expression

/-- Why a call did not return: a member call through a null (or unallocated)
handle, the fuel of the model ran out, or `front()` was taken of an empty
container. -/
inductive Fault
  | NullDereference
  | OutOfFuel
  | EmptyContainer
deriving DecidableEq, Repr

/-- The object a handle points to, `none` for `nullptr` and for a handle that
was never allocated. -/
def deref (heap : Heap) (sp : SPType) : Option Expression :=
  match sp with
  | none => none
  | some h => heap[h]?

/-- Allocation `std::make_shared<T>(...)`: the new object gets a fresh handle. -/
def make_shared (heap : Heap) (node : Expression) : SPType × Heap :=
  (some heap.length, heap ++ [node])

/-- Expression kinds (`Expression::Kind`), one per class, the two abstract
bases `ConditionExpression` and `OperationExpression` included. -/
inductive Kind
  | Sys | Bind | Cond | TernaryCond | IfElseCond | WhileCond | Assign | Op | UnOp | BinOp
  | BitVector | Id | VecId | Track | Var | Mem | Sym
deriving DecidableEq, Repr

/-- Kind of the dynamic class of a node (`GetClassKind`). -/
def Expression.GetClassKind : Expression → Kind
  | .System _ _ => .Sys
  | .Bind _ => .Bind
  | .TernaryCondition _ _ _ _ _ => .TernaryCond
  | .IfElseCondition _ _ _ _ _ => .IfElseCond
  | .WhileCondition _ _ _ _ => .WhileCond
  | .Assignment _ _ => .Assign
  | .UnaryOperation _ _ => .UnOp
  | .BinaryOperation _ _ _ => .BinOp
  | .BitVector _ => .BitVector
  | .Identifier _ _ => .Id
  | .VectorIdentifier _ _ => .VecId
  | .Track _ _ _ => .Track
  | .Variable _ _ _ => .Var
  | .Memory _ _ _ _ => .Mem
  | .Symbolic _ _ _ _ => .Sym

/-- Modelled from the spec: `IsKindOf` is declared in `medusa/expression.hpp`,
which is not among the sources.  A node is of kind `k` when `k` is the kind of
its class or of a base class; the class hierarchy is the one the constructors
of `expression.cpp` show (the three conditions derive from
`ConditionExpression`, the two operations from `OperationExpression`). -/
def Expression.IsKindOf (node : Expression) (k : Kind) : Bool :=
  k = node.GetClassKind ||
  (k = Kind.Cond &&
    (node.GetClassKind = Kind.TernaryCond || node.GetClassKind = Kind.IfElseCond ||
      node.GetClassKind = Kind.WhileCond)) ||
  (k = Kind.Op && (node.GetClassKind = Kind.UnOp || node.GetClassKind = Kind.BinOp))

/-- Modelled from the spec: `expr_cast<T>` is declared in
`medusa/expression.hpp`, which is not among the sources.  The spec says that
`Different` means a different variant, and every `Compare` returns
`CmpDifferent` exactly when the cast yields `nullptr`: the cast yields the
object when the handle is non-null and the object is of kind `T`, and
`nullptr` otherwise. -/
def expr_cast (heap : Heap) (k : Kind) (spExpr : SPType) : Option Expression :=
  match deref heap spExpr with
  | none => none
  | some node => if node.IsKindOf k then some node else none

/-- The statement `if (r != CmpIdentical) return CmpSameExpression;` followed by
the rest `k` of the function body. -/
def requireIdentical (r : Except Fault CompareType) (k : Except Fault CompareType) :
    Except Fault CompareType :=
  match r with
  | .error f => .error f
  | .ok c => if c ≠ CompareType.CmpIdentical then .ok CompareType.CmpSameExpression else k

/-- The type of the virtual call `a->Compare(b)` as the class bodies use it. -/
abbrev CompareCall := SPType → SPType → Except Fault CompareType

/-- Member `SystemExpression::Compare` (lines 50-60). -/
def SystemExpression.Compare (heap : Heap) (m_Name : String) (m_Address : Address)
    (spExpr : SPType) : Except Fault CompareType :=
  match expr_cast heap Kind.Sys spExpr with
  | some (.System cmpName cmpAddress) =>
    if m_Name ≠ cmpName then .ok CompareType.CmpSameExpression
    else if m_Address ≠ cmpAddress then .ok CompareType.CmpSameExpression
    else .ok CompareType.CmpIdentical
  | _ => .ok CompareType.CmpDifferent

/-- The loop of `BindExpression::Compare` (lines 133-139): every element of
`m_Expressions` is compared with `*itCmpExpr`, and `itCmpExpr` is never
advanced. -/
def BindExpression.CompareLoop (cmp : CompareCall) (itCmpExpr : SPType) :
    List SPType → Except Fault CompareType
  | [] => .ok CompareType.CmpIdentical
  | rspExpr :: rest =>
    requireIdentical (cmp rspExpr itCmpExpr) (BindExpression.CompareLoop cmp itCmpExpr rest)

/-- Member `BindExpression::Compare` (lines 123-140).  The iterator `itCmpExpr`
is `begin()` of the other list, which has the length of `m_Expressions` when
the loop is reached, so it points to the first element whenever the loop body
runs. -/
def BindExpression.Compare (heap : Heap) (cmp : CompareCall) (m_Expressions : List SPType)
    (spExpr : SPType) : Except Fault CompareType :=
  match expr_cast heap Kind.Bind spExpr with
  | some (.Bind rCmpBoundExprs) =>
    if m_Expressions.length ≠ rCmpBoundExprs.length then .ok CompareType.CmpSameExpression
    else BindExpression.CompareLoop cmp (rCmpBoundExprs.head?.join) m_Expressions
  | _ => .ok CompareType.CmpDifferent

/-- Member `ConditionExpression::Compare` (lines 162-175), which the three
condition classes call non-virtually. -/
def ConditionExpression.Compare (heap : Heap) (cmp : CompareCall)
    (m_Type : Nat) (m_spRefExpr m_spTestExpr : SPType) (spExpr : SPType) :
    Except Fault CompareType :=
  match expr_cast heap Kind.Cond spExpr with
  | some (.TernaryCondition cmpType cmpRef cmpTest _ _)
  | some (.IfElseCondition cmpType cmpRef cmpTest _ _)
  | some (.WhileCondition cmpType cmpRef cmpTest _) =>
    if m_Type ≠ cmpType then .ok CompareType.CmpSameExpression
    else requireIdentical (cmp m_spRefExpr cmpRef)
      (requireIdentical (cmp m_spTestExpr cmpTest) (.ok CompareType.CmpIdentical))
  | _ => .ok CompareType.CmpDifferent

/-- Member `TernaryConditionExpression::Compare` (lines 256-268). -/
def TernaryConditionExpression.Compare (heap : Heap) (cmp : CompareCall) (m_Type : Nat)
    (m_spRefExpr m_spTestExpr m_spTrueExpr m_spFalseExpr : SPType) (spExpr : SPType) :
    Except Fault CompareType :=
  match expr_cast heap Kind.TernaryCond spExpr with
  | some (.TernaryCondition _ _ _ cmpTrue cmpFalse) =>
    requireIdentical (ConditionExpression.Compare heap cmp m_Type m_spRefExpr m_spTestExpr spExpr)
      (requireIdentical (cmp m_spTrueExpr cmpTrue)
        (requireIdentical (cmp m_spFalseExpr cmpFalse) (.ok CompareType.CmpIdentical)))
  | _ => .ok CompareType.CmpDifferent

/-- Member `IfElseConditionExpression::Compare` (lines 342-354): `m_spElseExpr`
is dereferenced without a null test. -/
def IfElseConditionExpression.Compare (heap : Heap) (cmp : CompareCall) (m_Type : Nat)
    (m_spRefExpr m_spTestExpr m_spThenExpr m_spElseExpr : SPType) (spExpr : SPType) :
    Except Fault CompareType :=
  match expr_cast heap Kind.IfElseCond spExpr with
  | some (.IfElseCondition _ _ _ cmpThen cmpElse) =>
    requireIdentical (ConditionExpression.Compare heap cmp m_Type m_spRefExpr m_spTestExpr spExpr)
      (requireIdentical (cmp m_spThenExpr cmpThen)
        (requireIdentical (cmp m_spElseExpr cmpElse) (.ok CompareType.CmpIdentical)))
  | _ => .ok CompareType.CmpDifferent

/-- Member `WhileConditionExpression::Compare` (lines 412-422). -/
def WhileConditionExpression.Compare (heap : Heap) (cmp : CompareCall) (m_Type : Nat)
    (m_spRefExpr m_spTestExpr m_spBodyExpr : SPType) (spExpr : SPType) :
    Except Fault CompareType :=
  match expr_cast heap Kind.WhileCond spExpr with
  | some (.WhileCondition _ _ _ cmpBody) =>
    requireIdentical (ConditionExpression.Compare heap cmp m_Type m_spRefExpr m_spTestExpr spExpr)
      (requireIdentical (cmp m_spBodyExpr cmpBody) (.ok CompareType.CmpIdentical))
  | _ => .ok CompareType.CmpDifferent

/-- Member `AssignmentExpression::Compare` (lines 475-485). -/
def AssignmentExpression.Compare (heap : Heap) (cmp : CompareCall)
    (m_spDstExpr m_spSrcExpr : SPType) (spExpr : SPType) : Except Fault CompareType :=
  match expr_cast heap Kind.Assign spExpr with
  | some (.Assignment cmpDst cmpSrc) =>
    requireIdentical (cmp m_spDstExpr cmpDst)
      (requireIdentical (cmp m_spSrcExpr cmpSrc) (.ok CompareType.CmpIdentical))
  | _ => .ok CompareType.CmpDifferent

/-- Member `UnaryOperationExpression::Compare` (lines 592-602). -/
def UnaryOperationExpression.Compare (heap : Heap) (cmp : CompareCall) (m_OpType : OpType)
    (m_spExpr : SPType) (spExpr : SPType) : Except Fault CompareType :=
  match expr_cast heap Kind.UnOp spExpr with
  | some (.UnaryOperation cmpOp cmpExpr) =>
    if m_OpType ≠ cmpOp then .ok CompareType.CmpSameExpression
    else requireIdentical (cmp m_spExpr cmpExpr) (.ok CompareType.CmpIdentical)
  | _ => .ok CompareType.CmpDifferent

/-- Member `BinaryOperationExpression::Compare` (lines 668-680). -/
def BinaryOperationExpression.Compare (heap : Heap) (cmp : CompareCall) (m_OpType : OpType)
    (m_spLeftExpr m_spRightExpr : SPType) (spExpr : SPType) : Except Fault CompareType :=
  match expr_cast heap Kind.BinOp spExpr with
  | some (.BinaryOperation cmpOp cmpLeft cmpRight) =>
    if m_OpType ≠ cmpOp then .ok CompareType.CmpSameExpression
    else requireIdentical (cmp m_spLeftExpr cmpLeft)
      (requireIdentical (cmp m_spRightExpr cmpRight) (.ok CompareType.CmpIdentical))
  | _ => .ok CompareType.CmpDifferent

/-- Member `BitVectorExpression::Compare` (lines 723-731): only the unsigned
values are compared. -/
def BitVectorExpression.Compare (heap : Heap) (m_Value : BitVector) (spExpr : SPType) :
    Except Fault CompareType :=
  match expr_cast heap Kind.BitVector spExpr with
  | some (.BitVector cmpValue) =>
    if m_Value.GetUnsignedValue ≠ cmpValue.GetUnsignedValue then
      .ok CompareType.CmpSameExpression
    else .ok CompareType.CmpIdentical
  | _ => .ok CompareType.CmpDifferent

/-- Member `IdentifierExpression::Compare` (lines 947-957). -/
def IdentifierExpression.Compare (heap : Heap) (m_Id m_pCpuInfo : Nat) (spExpr : SPType) :
    Except Fault CompareType :=
  match expr_cast heap Kind.Id spExpr with
  | some (.Identifier cmpId cmpCpuInfo) =>
    if m_Id ≠ cmpId then .ok CompareType.CmpSameExpression
    else if m_pCpuInfo ≠ cmpCpuInfo then .ok CompareType.CmpSameExpression
    else .ok CompareType.CmpIdentical
  | _ => .ok CompareType.CmpDifferent

/-- Member `VectorIdentifierExpression::Compare` (lines 1034-1047); `std::equal`
over two ranges of one length is equality of the lists. -/
def VectorIdentifierExpression.Compare (heap : Heap) (m_VecId : List Nat) (m_pCpuInfo : Nat)
    (spExpr : SPType) : Except Fault CompareType :=
  match expr_cast heap Kind.VecId spExpr with
  | some (.VectorIdentifier CmpVecId cmpCpuInfo) =>
    if m_pCpuInfo ≠ cmpCpuInfo then .ok CompareType.CmpSameExpression
    else if m_VecId.length ≠ CmpVecId.length then .ok CompareType.CmpSameExpression
    else if m_VecId ≠ CmpVecId then .ok CompareType.CmpSameExpression
    else .ok CompareType.CmpIdentical
  | _ => .ok CompareType.CmpDifferent

/-- Member `TrackExpression::Compare` (lines 1118-1128): the tracked expression
is not compared. -/
def TrackExpression.Compare (heap : Heap) (m_CurAddr : Address) (m_Pos : Nat)
    (spExpr : SPType) : Except Fault CompareType :=
  match expr_cast heap Kind.Track spExpr with
  | some (.Track _ cmpAddr cmpPos) =>
    if m_CurAddr ≠ cmpAddr then .ok CompareType.CmpSameExpression
    else if m_Pos ≠ cmpPos then .ok CompareType.CmpSameExpression
    else .ok CompareType.CmpIdentical
  | _ => .ok CompareType.CmpDifferent

/-- Member `VariableExpression::Compare` (lines 1175-1185): the bit size is not
compared. -/
def VariableExpression.Compare (heap : Heap) (m_Name : String) (m_Action : ActionType)
    (spExpr : SPType) : Except Fault CompareType :=
  match expr_cast heap Kind.Var spExpr with
  | some (.Variable cmpName cmpAction _) =>
    if m_Action ≠ cmpAction then .ok CompareType.CmpSameExpression
    else if m_Name ≠ cmpName then .ok CompareType.CmpSameExpression
    else .ok CompareType.CmpIdentical
  | _ => .ok CompareType.CmpDifferent

/-- Member `MemoryExpression::Compare` (lines 1347-1364). -/
def MemoryExpression.Compare (heap : Heap) (cmp : CompareCall) (m_AccessSizeInBit : Nat)
    (m_spBaseExpr m_spOffExpr : SPType) (m_Dereference : Bool) (spExpr : SPType) :
    Except Fault CompareType :=
  match expr_cast heap Kind.Mem spExpr with
  | some (.Memory cmpSize spCmpBaseExpr cmpOff cmpDeref) =>
    if m_AccessSizeInBit ≠ cmpSize then .ok CompareType.CmpSameExpression
    else if m_spBaseExpr = none ∧ spCmpBaseExpr ≠ none then .ok CompareType.CmpSameExpression
    else
      requireIdentical
        (if m_spBaseExpr ≠ none then cmp m_spBaseExpr spCmpBaseExpr
         else .ok CompareType.CmpIdentical)
        (requireIdentical (cmp m_spOffExpr cmpOff)
          (if m_Dereference ≠ cmpDeref then .ok CompareType.CmpSameExpression
           else .ok CompareType.CmpIdentical))
  | _ => .ok CompareType.CmpDifferent

/-- Member `SymbolicExpression::Compare` (lines 1407-1421): `m_spExpr` is
dereferenced without a null test. -/
def SymbolicExpression.Compare (heap : Heap) (cmp : CompareCall) (m_Type : Nat)
    (m_Value : String) (m_Address : Address) (m_spExpr : SPType) (spExpr : SPType) :
    Except Fault CompareType :=
  match expr_cast heap Kind.Sym spExpr with
  | some (.Symbolic cmpType cmpValue cmpAddress cmpExpr) =>
    if m_Address ≠ cmpAddress then .ok CompareType.CmpSameExpression
    else if m_Value ≠ cmpValue then .ok CompareType.CmpSameExpression
    else if m_Type ≠ cmpType then .ok CompareType.CmpSameExpression
    else requireIdentical (cmp m_spExpr cmpExpr) (.ok CompareType.CmpIdentical)
  | _ => .ok CompareType.CmpDifferent

/-- Virtual dispatch of `node.Compare(spExpr)` to the member of the node's
class; `cmp` is the virtual call the member bodies make on the children. -/
def Expression.Compare (heap : Heap) (cmp : CompareCall) (node : Expression)
    (spExpr : SPType) : Except Fault CompareType :=
  match node with
  | .System m_Name m_Address => SystemExpression.Compare heap m_Name m_Address spExpr
  | .Bind m_Expressions => BindExpression.Compare heap cmp m_Expressions spExpr
  | .TernaryCondition m_Type m_spRefExpr m_spTestExpr m_spTrueExpr m_spFalseExpr =>
    TernaryConditionExpression.Compare heap cmp m_Type m_spRefExpr m_spTestExpr
      m_spTrueExpr m_spFalseExpr spExpr
  | .IfElseCondition m_Type m_spRefExpr m_spTestExpr m_spThenExpr m_spElseExpr =>
    IfElseConditionExpression.Compare heap cmp m_Type m_spRefExpr m_spTestExpr
      m_spThenExpr m_spElseExpr spExpr
  | .WhileCondition m_Type m_spRefExpr m_spTestExpr m_spBodyExpr =>
    WhileConditionExpression.Compare heap cmp m_Type m_spRefExpr m_spTestExpr m_spBodyExpr spExpr
  | .Assignment m_spDstExpr m_spSrcExpr =>
    AssignmentExpression.Compare heap cmp m_spDstExpr m_spSrcExpr spExpr
  | .UnaryOperation m_OpType m_spExpr =>
    UnaryOperationExpression.Compare heap cmp m_OpType m_spExpr spExpr
  | .BinaryOperation m_OpType m_spLeftExpr m_spRightExpr =>
    BinaryOperationExpression.Compare heap cmp m_OpType m_spLeftExpr m_spRightExpr spExpr
  | .BitVector m_Value => BitVectorExpression.Compare heap m_Value spExpr
  | .Identifier m_Id m_pCpuInfo => IdentifierExpression.Compare heap m_Id m_pCpuInfo spExpr
  | .VectorIdentifier m_VecId m_pCpuInfo =>
    VectorIdentifierExpression.Compare heap m_VecId m_pCpuInfo spExpr
  | .Track _ m_CurAddr m_Pos => TrackExpression.Compare heap m_CurAddr m_Pos spExpr
  | .Variable m_Name m_Action _ => VariableExpression.Compare heap m_Name m_Action spExpr
  | .Memory m_AccessSizeInBit m_spBaseExpr m_spOffExpr m_Dereference =>
    MemoryExpression.Compare heap cmp m_AccessSizeInBit m_spBaseExpr m_spOffExpr
      m_Dereference spExpr
  | .Symbolic m_Type m_Value m_Address m_spExpr =>
    SymbolicExpression.Compare heap cmp m_Type m_Value m_Address m_spExpr spExpr

/-- The call `this->Compare(spExpr)` through a handle: a fault on a null
handle, one unit of fuel per virtual call. -/
def Compare (heap : Heap) : Nat → SPType → SPType → Except Fault CompareType
  | 0, _, _ => .error Fault.OutOfFuel
  | fuel + 1, this, spExpr =>
    match deref heap this with
    | none => .error Fault.NullDereference
    | some node => Expression.Compare heap (Compare heap fuel) node spExpr

/-- The statement `if (c->UpdateChild(spOldExpr, spNewExpr)) return true;`
followed by the rest `k` of the function body, run on the heap the call left. -/
def returnIfUpdated (r : Except Fault (Bool × Heap)) (k : Heap → Except Fault (Bool × Heap)) :
    Except Fault (Bool × Heap) :=
  match r with
  | .error f => .error f
  | .ok (true, heap1) => .ok (true, heap1)
  | .ok (false, heap1) => k heap1

/-- The type of the virtual call `c->UpdateChild(spOldExpr, spNewExpr)` on a
heap, as the class bodies use it (the two arguments are passed on unchanged). -/
abbrev UpdateCall := Heap → SPType → Except Fault (Bool × Heap)

/-- The loop of `BindExpression::UpdateChild` (lines 114-118): the first element
whose `UpdateChild` returns true ends the search. -/
def BindExpression.UpdateLoop (upd : UpdateCall) : Heap → List SPType → Except Fault (Bool × Heap)
  | heap, [] => .ok (false, heap)
  | heap, spExpr :: rest =>
    returnIfUpdated (upd heap spExpr) (fun heap1 => BindExpression.UpdateLoop upd heap1 rest)

/-- Member `BindExpression::UpdateChild` (lines 103-121) of the object at handle
`h`: `std::find` followed by `erase` of the found position is `List.erase`, and
the new expression is pushed to the back. -/
def BindExpression.UpdateChild (upd : UpdateCall) (heap : Heap) (h : Handle)
    (m_Expressions : List SPType) (spOldExpr spNewExpr : SPType) : Except Fault (Bool × Heap) :=
  if spOldExpr ∈ m_Expressions then
    .ok (true, heap.set h (.Bind (m_Expressions.erase spOldExpr ++ [spNewExpr])))
  else BindExpression.UpdateLoop upd heap m_Expressions

/-- Member `TernaryConditionExpression::UpdateChild` (lines 215-254). -/
def TernaryConditionExpression.UpdateChild (upd : UpdateCall) (heap : Heap) (h : Handle)
    (m_Type : Nat) (m_spRefExpr m_spTestExpr m_spTrueExpr m_spFalseExpr : SPType)
    (spOldExpr spNewExpr : SPType) : Except Fault (Bool × Heap) :=
  if m_spRefExpr = spOldExpr then
    .ok (true, heap.set h
      (.TernaryCondition m_Type spNewExpr m_spTestExpr m_spTrueExpr m_spFalseExpr))
  else if m_spTestExpr = spOldExpr then
    .ok (true, heap.set h
      (.TernaryCondition m_Type m_spRefExpr spNewExpr m_spTrueExpr m_spFalseExpr))
  else if m_spTrueExpr = spOldExpr then
    .ok (true, heap.set h
      (.TernaryCondition m_Type m_spRefExpr m_spTestExpr spNewExpr m_spFalseExpr))
  else if m_spFalseExpr = spOldExpr then
    .ok (true, heap.set h
      (.TernaryCondition m_Type m_spRefExpr m_spTestExpr m_spTrueExpr spNewExpr))
  else
    returnIfUpdated (upd heap m_spRefExpr) fun heap1 =>
    returnIfUpdated (upd heap1 m_spTestExpr) fun heap2 =>
    returnIfUpdated (upd heap2 m_spTrueExpr) fun heap3 =>
    returnIfUpdated (upd heap3 m_spFalseExpr) fun heap4 =>
    .ok (false, heap4)

/-- Member `IfElseConditionExpression::UpdateChild` (lines 299-340). -/
def IfElseConditionExpression.UpdateChild (upd : UpdateCall) (heap : Heap) (h : Handle)
    (m_Type : Nat) (m_spRefExpr m_spTestExpr m_spThenExpr m_spElseExpr : SPType)
    (spOldExpr spNewExpr : SPType) : Except Fault (Bool × Heap) :=
  if m_spRefExpr = spOldExpr then
    .ok (true, heap.set h
      (.IfElseCondition m_Type spNewExpr m_spTestExpr m_spThenExpr m_spElseExpr))
  else if m_spTestExpr = spOldExpr then
    .ok (true, heap.set h
      (.IfElseCondition m_Type m_spRefExpr spNewExpr m_spThenExpr m_spElseExpr))
  else if m_spThenExpr = spOldExpr then
    .ok (true, heap.set h
      (.IfElseCondition m_Type m_spRefExpr m_spTestExpr spNewExpr m_spElseExpr))
  else if m_spElseExpr = spOldExpr then
    .ok (true, heap.set h
      (.IfElseCondition m_Type m_spRefExpr m_spTestExpr m_spThenExpr spNewExpr))
  else
    returnIfUpdated (upd heap m_spRefExpr) fun heap1 =>
    returnIfUpdated (upd heap1 m_spTestExpr) fun heap2 =>
    returnIfUpdated (upd heap2 m_spThenExpr) fun heap3 =>
    returnIfUpdated
      (if m_spElseExpr ≠ none then upd heap3 m_spElseExpr else .ok (false, heap3)) fun heap4 =>
    .ok (false, heap4)

/-- Member `WhileConditionExpression::UpdateChild` (lines 380-410). -/
def WhileConditionExpression.UpdateChild (upd : UpdateCall) (heap : Heap) (h : Handle)
    (m_Type : Nat) (m_spRefExpr m_spTestExpr m_spBodyExpr : SPType)
    (spOldExpr spNewExpr : SPType) : Except Fault (Bool × Heap) :=
  if m_spRefExpr = spOldExpr then
    .ok (true, heap.set h (.WhileCondition m_Type spNewExpr m_spTestExpr m_spBodyExpr))
  else if m_spTestExpr = spOldExpr then
    .ok (true, heap.set h (.WhileCondition m_Type m_spRefExpr spNewExpr m_spBodyExpr))
  else if m_spBodyExpr = spOldExpr then
    .ok (true, heap.set h (.WhileCondition m_Type m_spRefExpr m_spTestExpr spNewExpr))
  else
    returnIfUpdated (upd heap m_spRefExpr) fun heap1 =>
    returnIfUpdated (upd heap1 m_spTestExpr) fun heap2 =>
    returnIfUpdated (upd heap2 m_spBodyExpr) fun heap3 =>
    .ok (false, heap3)

/-- Member `AssignmentExpression::UpdateChild` (lines 452-473). -/
def AssignmentExpression.UpdateChild (upd : UpdateCall) (heap : Heap) (h : Handle)
    (m_spDstExpr m_spSrcExpr : SPType) (spOldExpr spNewExpr : SPType) :
    Except Fault (Bool × Heap) :=
  if m_spDstExpr = spOldExpr then
    .ok (true, heap.set h (.Assignment spNewExpr m_spSrcExpr))
  else if m_spSrcExpr = spOldExpr then
    .ok (true, heap.set h (.Assignment m_spDstExpr spNewExpr))
  else
    returnIfUpdated (upd heap m_spDstExpr) fun heap1 =>
    returnIfUpdated (upd heap1 m_spSrcExpr) fun heap2 =>
    .ok (false, heap2)

/-- Member `UnaryOperationExpression::UpdateChild` (lines 583-590): the child is
tested, and not searched. -/
def UnaryOperationExpression.UpdateChild (heap : Heap) (h : Handle) (m_OpType : OpType)
    (m_spExpr : SPType) (spOldExpr spNewExpr : SPType) : Except Fault (Bool × Heap) :=
  if m_spExpr ≠ spOldExpr then .ok (false, heap)
  else .ok (true, heap.set h (.UnaryOperation m_OpType spNewExpr))

/-- Member `BinaryOperationExpression::UpdateChild` (lines 644-666). -/
def BinaryOperationExpression.UpdateChild (upd : UpdateCall) (heap : Heap) (h : Handle)
    (m_OpType : OpType) (m_spLeftExpr m_spRightExpr : SPType) (spOldExpr spNewExpr : SPType) :
    Except Fault (Bool × Heap) :=
  if m_spLeftExpr = spOldExpr then
    .ok (true, heap.set h (.BinaryOperation m_OpType spNewExpr m_spRightExpr))
  else if m_spRightExpr = spOldExpr then
    .ok (true, heap.set h (.BinaryOperation m_OpType m_spLeftExpr spNewExpr))
  else
    returnIfUpdated (upd heap m_spLeftExpr) fun heap1 =>
    returnIfUpdated (upd heap1 m_spRightExpr) fun heap2 =>
    .ok (false, heap2)

/-- Member `MemoryExpression::UpdateChild` (lines 1324-1345). -/
def MemoryExpression.UpdateChild (upd : UpdateCall) (heap : Heap) (h : Handle)
    (m_AccessSizeInBit : Nat) (m_spBaseExpr m_spOffExpr : SPType) (m_Dereference : Bool)
    (spOldExpr spNewExpr : SPType) : Except Fault (Bool × Heap) :=
  if m_spBaseExpr = spOldExpr then
    .ok (true, heap.set h (.Memory m_AccessSizeInBit spNewExpr m_spOffExpr m_Dereference))
  else if m_spOffExpr = spOldExpr then
    .ok (true, heap.set h (.Memory m_AccessSizeInBit m_spBaseExpr spNewExpr m_Dereference))
  else
    returnIfUpdated
      (if m_spBaseExpr ≠ none then upd heap m_spBaseExpr else .ok (false, heap)) fun heap1 =>
    returnIfUpdated (upd heap1 m_spOffExpr) fun heap2 =>
    .ok (false, heap2)

/-- Member `SymbolicExpression::UpdateChild` (lines 1396-1405): the child is
matched with `Compare`, and `m_spExpr` is dereferenced without a null test. -/
def SymbolicExpression.UpdateChild (cmp : CompareCall) (upd : UpdateCall) (heap : Heap)
    (h : Handle) (m_Type : Nat) (m_Value : String) (m_Address : Address) (m_spExpr : SPType)
    (spOldExpr spNewExpr : SPType) : Except Fault (Bool × Heap) :=
  match cmp m_spExpr spOldExpr with
  | .error f => .error f
  | .ok c =>
    if c = CompareType.CmpIdentical then
      .ok (true, heap.set h (.Symbolic m_Type m_Value m_Address spNewExpr))
    else upd heap m_spExpr

/-- Modelled from the spec: the inherited `Expression::UpdateChild` is defined
in `medusa/expression.hpp`, which is not among the sources.  It is what the
classes without an override run; by the contract of the spec a node substitutes
among its own child pointers only, and the base class has none: it returns
false and changes nothing. -/
def Expression.UpdateChildDefault (heap : Heap) : Except Fault (Bool × Heap) :=
  .ok (false, heap)

/-- Virtual dispatch of `UpdateChild` on the object `node` at handle `h`.  The
classes System, BitVector, Identifier, VectorIdentifier, Track and Variable have
no override in `expression.cpp`. -/
def Expression.UpdateChild (cmp : CompareCall) (upd : UpdateCall) (heap : Heap) (h : Handle)
    (node : Expression) (spOldExpr spNewExpr : SPType) : Except Fault (Bool × Heap) :=
  match node with
  | .Bind m_Expressions =>
    BindExpression.UpdateChild upd heap h m_Expressions spOldExpr spNewExpr
  | .TernaryCondition m_Type m_spRefExpr m_spTestExpr m_spTrueExpr m_spFalseExpr =>
    TernaryConditionExpression.UpdateChild upd heap h m_Type m_spRefExpr m_spTestExpr
      m_spTrueExpr m_spFalseExpr spOldExpr spNewExpr
  | .IfElseCondition m_Type m_spRefExpr m_spTestExpr m_spThenExpr m_spElseExpr =>
    IfElseConditionExpression.UpdateChild upd heap h m_Type m_spRefExpr m_spTestExpr
      m_spThenExpr m_spElseExpr spOldExpr spNewExpr
  | .WhileCondition m_Type m_spRefExpr m_spTestExpr m_spBodyExpr =>
    WhileConditionExpression.UpdateChild upd heap h m_Type m_spRefExpr m_spTestExpr
      m_spBodyExpr spOldExpr spNewExpr
  | .Assignment m_spDstExpr m_spSrcExpr =>
    AssignmentExpression.UpdateChild upd heap h m_spDstExpr m_spSrcExpr spOldExpr spNewExpr
  | .UnaryOperation m_OpType m_spExpr =>
    UnaryOperationExpression.UpdateChild heap h m_OpType m_spExpr spOldExpr spNewExpr
  | .BinaryOperation m_OpType m_spLeftExpr m_spRightExpr =>
    BinaryOperationExpression.UpdateChild upd heap h m_OpType m_spLeftExpr m_spRightExpr
      spOldExpr spNewExpr
  | .Memory m_AccessSizeInBit m_spBaseExpr m_spOffExpr m_Dereference =>
    MemoryExpression.UpdateChild upd heap h m_AccessSizeInBit m_spBaseExpr m_spOffExpr
      m_Dereference spOldExpr spNewExpr
  | .Symbolic m_Type m_Value m_Address m_spExpr =>
    SymbolicExpression.UpdateChild cmp upd heap h m_Type m_Value m_Address m_spExpr
      spOldExpr spNewExpr
  | .System _ _ => Expression.UpdateChildDefault heap
  | .BitVector _ => Expression.UpdateChildDefault heap
  | .Identifier _ _ => Expression.UpdateChildDefault heap
  | .VectorIdentifier _ _ => Expression.UpdateChildDefault heap
  | .Track _ _ _ => Expression.UpdateChildDefault heap
  | .Variable _ _ _ => Expression.UpdateChildDefault heap

/-- The call `this->UpdateChild(spOldExpr, spNewExpr)` through a handle: the
returned flag and the heap after the in-place assignments.  A fault on a null
handle, one unit of fuel per virtual call. -/
def UpdateChild : Nat → Heap → SPType → SPType → SPType → Except Fault (Bool × Heap)
  | 0, _, _, _, _ => .error Fault.OutOfFuel
  | fuel + 1, heap, this, spOldExpr, spNewExpr =>
    match this with
    | none => .error Fault.NullDereference
    | some h =>
      match heap[h]? with
      | none => .error Fault.NullDereference
      | some node =>
        Expression.UpdateChild (Compare heap fuel)
          (fun heap1 c => UpdateChild fuel heap1 c spOldExpr spNewExpr)
          heap h node spOldExpr spNewExpr

/-- The type of the virtual call `c->Clone()` on a heap. -/
abbrev CloneCall := Heap → SPType → Except Fault (SPType × Heap)

/-- One argument `c->Clone()` of a constructor call, followed by the rest `k`
of the body, run with the clone and the heap the call left. -/
def withClone (r : Except Fault (SPType × Heap)) (k : SPType → Heap → Except Fault (SPType × Heap)) :
    Except Fault (SPType × Heap) :=
  match r with
  | .error f => .error f
  | .ok (c, heap1) => k c heap1

/-- The loop of `BindExpression::Clone` (lines 90-93): each element is cloned in
order and pushed to the back of the new list. -/
def BindExpression.CloneLoop (clone : CloneCall) :
    Heap → List SPType → Except Fault (List SPType × Heap)
  | heap, [] => .ok ([], heap)
  | heap, spExpr :: rest =>
    match clone heap spExpr with
    | .error f => .error f
    | .ok (c, heap1) =>
      match BindExpression.CloneLoop clone heap1 rest with
      | .error f => .error f
      | .ok (cs, heap2) => .ok (c :: cs, heap2)

/-- Virtual dispatch of `Clone` on the object `node`: the handle of the copy and
the heap with the objects the call allocated.  The `Make…` factories are
`make_shared` (lines 1425-1508).  Where several children are cloned in one
argument list the C++ evaluation order is unspecified; the clones are taken
left to right.  `TrackExpression::Clone` (line 1105) and
`SymbolicExpression::Clone` (line 1383) pass the child handle itself.
`VariableExpression::Clone` (line 1162) passes the `u32` bit size through the
`u16` parameter of `Expr::MakeVar` (line 1460). -/
def Expression.Clone (clone : CloneCall) (heap : Heap) (node : Expression) :
    Except Fault (SPType × Heap) :=
  match node with
  | .System m_Name m_Address => .ok (make_shared heap (.System m_Name m_Address))
  | .Bind m_Expressions =>
    match BindExpression.CloneLoop clone heap m_Expressions with
    | .error f => .error f
    | .ok (ExprListCloned, heap1) => .ok (make_shared heap1 (.Bind ExprListCloned))
  | .TernaryCondition m_Type m_spRefExpr m_spTestExpr m_spTrueExpr m_spFalseExpr =>
    withClone (clone heap m_spRefExpr) fun ref heap1 =>
    withClone (clone heap1 m_spTestExpr) fun test heap2 =>
    withClone (clone heap2 m_spTrueExpr) fun tr heap3 =>
    withClone (clone heap3 m_spFalseExpr) fun fl heap4 =>
    .ok (make_shared heap4 (.TernaryCondition m_Type ref test tr fl))
  | .IfElseCondition m_Type m_spRefExpr m_spTestExpr m_spThenExpr m_spElseExpr =>
    withClone (clone heap m_spRefExpr) fun ref heap1 =>
    withClone (clone heap1 m_spTestExpr) fun test heap2 =>
    withClone (clone heap2 m_spThenExpr) fun thn heap3 =>
    withClone (if m_spElseExpr ≠ none then clone heap3 m_spElseExpr
               else .ok (none, heap3)) fun els heap4 =>
    .ok (make_shared heap4 (.IfElseCondition m_Type ref test thn els))
  | .WhileCondition m_Type m_spRefExpr m_spTestExpr m_spBodyExpr =>
    withClone (clone heap m_spRefExpr) fun ref heap1 =>
    withClone (clone heap1 m_spTestExpr) fun test heap2 =>
    withClone (clone heap2 m_spBodyExpr) fun body heap3 =>
    .ok (make_shared heap3 (.WhileCondition m_Type ref test body))
  | .Assignment m_spDstExpr m_spSrcExpr =>
    withClone (clone heap m_spDstExpr) fun dst heap1 =>
    withClone (clone heap1 m_spSrcExpr) fun src heap2 =>
    .ok (make_shared heap2 (.Assignment dst src))
  | .UnaryOperation m_OpType m_spExpr =>
    withClone (clone heap m_spExpr) fun e heap1 =>
    .ok (make_shared heap1 (.UnaryOperation m_OpType e))
  | .BinaryOperation m_OpType m_spLeftExpr m_spRightExpr =>
    withClone (clone heap m_spLeftExpr) fun l heap1 =>
    withClone (clone heap1 m_spRightExpr) fun r heap2 =>
    .ok (make_shared heap2 (.BinaryOperation m_OpType l r))
  | .BitVector m_Value => .ok (make_shared heap (.BitVector m_Value))
  | .Identifier m_Id m_pCpuInfo => .ok (make_shared heap (.Identifier m_Id m_pCpuInfo))
  | .VectorIdentifier m_VecId m_pCpuInfo =>
    .ok (make_shared heap (.VectorIdentifier m_VecId m_pCpuInfo))
  | .Track m_spTrkExpr m_CurAddr m_Pos =>
    .ok (make_shared heap (.Track m_spTrkExpr m_CurAddr m_Pos))
  | .Variable m_Name m_Action m_BitSize =>
    .ok (make_shared heap (.Variable m_Name m_Action (m_BitSize % 2 ^ 16)))
  | .Memory m_AccessSizeInBit m_spBaseExpr m_spOffExpr m_Dereference =>
    if m_spBaseExpr = none then
      withClone (clone heap m_spOffExpr) fun off heap1 =>
      .ok (make_shared heap1 (.Memory m_AccessSizeInBit none off m_Dereference))
    else
      withClone (clone heap m_spBaseExpr) fun base heap1 =>
      withClone (clone heap1 m_spOffExpr) fun off heap2 =>
      .ok (make_shared heap2 (.Memory m_AccessSizeInBit base off m_Dereference))
  | .Symbolic m_Type m_Value m_Address m_spExpr =>
    .ok (make_shared heap (.Symbolic m_Type m_Value m_Address m_spExpr))

/-- The call `this->Clone()` through a handle.  A fault on a null handle, one
unit of fuel per virtual call. -/
def Clone : Nat → Heap → SPType → Except Fault (SPType × Heap)
  | 0, _, _ => .error Fault.OutOfFuel
  | fuel + 1, heap, this =>
    match deref heap this with
    | none => .error Fault.NullDereference
    | some node => Expression.Clone (Clone fuel) heap node

/-! ## The search order of the UpdateChild contract -/

/-- The child pointers of a node, in construction order. -/
def Expression.children : Expression → List SPType
  | .Bind m_Expressions => m_Expressions
  | .TernaryCondition _ ref test tr fl => [ref, test, tr, fl]
  | .IfElseCondition _ ref test thn els => [ref, test, thn, els]
  | .WhileCondition _ ref test body => [ref, test, body]
  | .Assignment dst src => [dst, src]
  | .UnaryOperation _ e => [e]
  | .BinaryOperation _ l r => [l, r]
  | .Track e _ _ => [e]
  | .Memory _ base off _ => [base, off]
  | .Symbolic _ _ _ e => [e]
  | .System _ _ => []
  | .BitVector _ => []
  | .Identifier _ _ => []
  | .VectorIdentifier _ _ => []
  | .Variable _ _ _ => []

/-- The node with the child pointer at index `i` of its child list set to `c`. -/
def Expression.setChild (node : Expression) (i : Nat) (c : SPType) : Expression :=
  match node, i with
  | .Bind es, i => .Bind (es.set i c)
  | .TernaryCondition ty _ test tr fl, 0 => .TernaryCondition ty c test tr fl
  | .TernaryCondition ty ref _ tr fl, 1 => .TernaryCondition ty ref c tr fl
  | .TernaryCondition ty ref test _ fl, 2 => .TernaryCondition ty ref test c fl
  | .TernaryCondition ty ref test tr _, 3 => .TernaryCondition ty ref test tr c
  | .IfElseCondition ty _ test thn els, 0 => .IfElseCondition ty c test thn els
  | .IfElseCondition ty ref _ thn els, 1 => .IfElseCondition ty ref c thn els
  | .IfElseCondition ty ref test _ els, 2 => .IfElseCondition ty ref test c els
  | .IfElseCondition ty ref test thn _, 3 => .IfElseCondition ty ref test thn c
  | .WhileCondition ty _ test body, 0 => .WhileCondition ty c test body
  | .WhileCondition ty ref _ body, 1 => .WhileCondition ty ref c body
  | .WhileCondition ty ref test _, 2 => .WhileCondition ty ref test c
  | .Assignment _ src, 0 => .Assignment c src
  | .Assignment dst _, 1 => .Assignment dst c
  | .UnaryOperation op _, 0 => .UnaryOperation op c
  | .BinaryOperation op _ r, 0 => .BinaryOperation op c r
  | .BinaryOperation op l _, 1 => .BinaryOperation op l c
  | .Track _ a p, 0 => .Track c a p
  | .Memory s _ off d, 0 => .Memory s c off d
  | .Memory s base _ d, 1 => .Memory s base c d
  | .Symbolic ty v a _, 0 => .Symbolic ty v a c
  | node, _ => node

/-- The children a search descends into: the child pointers without an absent
optional child (the else branch of an IfElse, the base of a Memory). -/
def Expression.presentChildren : Expression → List SPType
  | .IfElseCondition _ ref test thn els => [ref, test, thn] ++ (if els ≠ none then [els] else [])
  | .Memory _ base off _ => (if base ≠ none then [base] else []) ++ [off]
  | node => node.children

/-- Index of the first pointer of a child list that is identical to `spOldExpr`. -/
def firstIndex (spOldExpr : SPType) : List SPType → Nat
  | [] => 0
  | c :: rest => if c = spOldExpr then 0 else firstIndex spOldExpr rest + 1

/-- A child slot: the handle of the parent and the index in its child list. -/
abbrev Slot := Handle × Nat

/-- The heap after the child pointer in a slot is set to `spNewExpr`; every
other slot of every object is as before. -/
def substitute (heap : Heap) (slot : Slot) (spNewExpr : SPType) : Heap :=
  match heap[slot.1]? with
  | none => heap
  | some node => heap.set slot.1 (node.setChild slot.2 spNewExpr)

/-- The first result of a search over a list of children, in order. -/
def firstFound (search : SPType → Except Fault (Option Slot)) :
    List SPType → Except Fault (Option Slot)
  | [] => .ok none
  | c :: rest =>
    match search c with
    | .error f => .error f
    | .ok (some s) => .ok (some s)
    | .ok none => firstFound search rest

/-- The slot the UpdateChild contract of the spec selects: "for every direct
child pointer C of the current node, if C is object-identical to old, replace
it with new and return true; otherwise, for each C in construction order,
recurse; return true on the first successful recursion".  The direct children
are all tested before any of them is searched. -/
def contractSlot (heap : Heap) : Nat → SPType → SPType → Except Fault (Option Slot)
  | 0, _, _ => .error Fault.OutOfFuel
  | fuel + 1, this, spOldExpr =>
    match this with
    | none => .error Fault.NullDereference
    | some h =>
      match heap[h]? with
      | none => .error Fault.NullDereference
      | some node =>
        if spOldExpr ∈ node.children then .ok (some (h, firstIndex spOldExpr node.children))
        else firstFound (fun c => contractSlot heap fuel c spOldExpr) node.presentChildren

/-- What the contract returns for a search result: false and the heap as it
was, or true and the heap with the one slot substituted. -/
def contractResult (heap : Heap) (spNewExpr : SPType) :
    Except Fault (Option Slot) → Except Fault (Bool × Heap)
  | .error f => .error f
  | .ok none => .ok (false, heap)
  | .ok (some slot) => .ok (true, substitute heap slot spNewExpr)

/-- The classes whose `UpdateChild` in `expression.cpp` tests every child pointer
by handle and then descends into every present child, and the classes without
children.  Bind (reorders), UnaryOperation (does not descend), Symbolic
(matches with Compare) and Track (no override) are left out. -/
def Expression.searchesByHandle : Expression → Bool
  | .Bind _ => false
  | .UnaryOperation _ _ => false
  | .Track _ _ _ => false
  | .Symbolic _ _ _ _ => false
  | _ => true

/-- The pre-order scan of the children of the object at `h`, from index `i`:
a child is tested, then its subtree is searched fully, then the next sibling. -/
def preorderChildren (search : SPType → Except Fault (Option Slot)) (h : Handle)
    (spOldExpr : SPType) : Nat → List SPType → Except Fault (Option Slot)
  | _, [] => .ok none
  | i, c :: rest =>
    if c = spOldExpr then .ok (some (h, i))
    else
      match (if c = none then .ok none else search c) with
      | .error f => .error f
      | .ok (some s) => .ok (some s)
      | .ok none => preorderChildren search h spOldExpr (i + 1) rest

/-- The slot of the first occurrence of `spOldExpr` in a pre-order traversal of
the tree at `this`: the node, then its children left to right in construction
order, each subtree fully before the next sibling. -/
def preorderSlot (heap : Heap) : Nat → SPType → SPType → Except Fault (Option Slot)
  | 0, _, _ => .error Fault.OutOfFuel
  | fuel + 1, this, spOldExpr =>
    match this with
    | none => .error Fault.NullDereference
    | some h =>
      match heap[h]? with
      | none => .error Fault.NullDereference
      | some node =>
        preorderChildren (fun c => preorderSlot heap fuel c spOldExpr) h spOldExpr 0 node.children

/-- Rank of a handle in allocation order: 0 for `nullptr`. -/
def rank : SPType → Nat
  | none => 0
  | some h => h + 1

/-- Every child pointer of every object was allocated before the object, as in
a heap that only the `Make…` factories and `Clone` have written. -/
abbrev allocationOrdered (heap : Heap) : Prop :=
  ∀ p ∈ heap.enum, ∀ c ∈ p.2.children, rank c ≤ p.1

/-! ## Concrete expressions -/

/-- Literal `Expr::MakeBitVector(BitSize, Value)`. -/
def bitVector (BitSize Value : Nat) : Expression := .BitVector ⟨BitSize, Value⟩

/-- Heap after `MakeIfElseCond(1, MakeBoolean(false), MakeBoolean(true),
MakeBitVector(32, 7), nullptr)`: the IfElse without else branch is handle 3. -/
def ifElseWithoutElse : Heap :=
  [bitVector 1 0, bitVector 1 1, bitVector 32 7,
    .IfElseCondition 1 (some 0) (some 1) (some 2) none]

/-- Heap `ifElseWithoutElse` after `Clone` of handle 3: the copy is handle 7. -/
def ifElseWithoutElseCloned : Heap :=
  ifElseWithoutElse ++
    [bitVector 1 0, bitVector 1 1, bitVector 32 7,
      .IfElseCondition 1 (some 4) (some 5) (some 6) none]

/-- Two Binds over three literals: handle 3 is `MakeBind([a, a2])` with two
literals of value 1, handle 4 is `MakeBind([a, b])` with `b` of value 2. -/
def twoBinds : Heap :=
  [bitVector 8 1, bitVector 8 1, bitVector 8 2, .Bind [some 0, some 1], .Bind [some 0, some 2]]

/-- Two Binds that agree on the first element only: handle 3 is
`MakeBind([a, a])`, handle 4 is `MakeBind([a, b])`. -/
def bindsSharingFirst : Heap :=
  [bitVector 16 5, bitVector 16 5, bitVector 16 9, .Bind [some 0, some 0],
    .Bind [some 0, some 2]]

/-- Heap after `MakeSym(0, "arg", Address(0, 4096), nullptr)`: a Symbolic without
sub-expression at handle 0. -/
def symbolicWithoutChild : Heap := [.Symbolic 0 "arg" ⟨0, 4096⟩ none]

/-- Heap with `MakeSym(0, "arg", Address(0, 4096), MakeBinOp(OpAdd, x, y))` at
handle 3 (its child, the BinaryOperation, at handle 2) and a further literal at
handle 4. -/
def symbolicOverBinOp : Heap :=
  [bitVector 32 1, bitVector 32 2, .BinaryOperation OpType.OpAdd (some 0) (some 1),
    .Symbolic 0 "arg" ⟨0, 4096⟩ (some 2), bitVector 32 3]

/-- Heap with `MakeUnOp(OpNot, MakeBinOp(OpAdd, x, y))` at handle 3 and a further
literal at handle 4; `x` is handle 0. -/
def unaryOverBinOp : Heap :=
  [bitVector 32 1, bitVector 32 2, .BinaryOperation OpType.OpAdd (some 0) (some 1),
    .UnaryOperation OpType.OpNot (some 2), bitVector 32 3]

/-- Heap with `MakeBind([old, x])` at handle 3: `old` is handle 0, `x` handle 1,
and the literal at handle 2 is the replacement. -/
def bindOldFirst : Heap :=
  [bitVector 32 1, bitVector 32 2, bitVector 32 3, .Bind [some 0, some 1]]

/-- Heap with `MakeBinOp(OpAdd, MakeBinOp(OpAdd, x, old), old)` at handle 4: `x`
is handle 0, `old` handle 1, the inner operation handle 3, and the literal at
handle 2 is the replacement. -/
def nestedBinOp : Heap :=
  [bitVector 32 1, bitVector 32 2, bitVector 32 3,
    .BinaryOperation OpType.OpAdd (some 0) (some 1),
    .BinaryOperation OpType.OpAdd (some 3) (some 1)]

/-- Heap with `MakeSym(0, "arg", Address(0, 4096), c)` at handle 3, where the
child `c` (handle 1) and `old` (handle 0) are two literals of the same value;
the literal at handle 2 is the replacement. -/
def symbolicOverTwin : Heap :=
  [bitVector 32 1, bitVector 32 1, bitVector 32 3, .Symbolic 0 "arg" ⟨0, 4096⟩ (some 1)]

/-- Heap with `MakeAssign(MakeSym(0, "arg", Address(0, 4096), c), MakeUnOp(OpNot,
old))` at handle 5: `old` is handle 0, the child `c` of the Symbolic (handle 3)
is handle 1, a literal of the same value as `old`, and the literal at handle 2
is the replacement. -/
def assignSymbolicUnary : Heap :=
  [bitVector 32 1, bitVector 32 1, bitVector 32 3, .Symbolic 0 "arg" ⟨0, 4096⟩ (some 1),
    .UnaryOperation OpType.OpNot (some 0), .Assignment (some 3) (some 4)]

/-- Heap with a BinaryOperation at handle 2 and a UnaryOperation at handle 3
over the same literals. -/
def binaryAndUnary : Heap :=
  [bitVector 32 1, bitVector 32 2, .BinaryOperation OpType.OpAdd (some 0) (some 1),
    .UnaryOperation OpType.OpNeg (some 0)]

/-! ## Reading and writing against the runtime contexts -/

/-- Modelled from the spec: the constructor `BitVector(BitSize, Value)` of the
`BitVector` class, which is declared in a header that is not among the sources.
By §3.1 a bit-vector of width `w` carries an unsigned value in `[0, 2^w)`: the
value is reduced modulo `2^BitSize`. -/
def BitVector.construct (BitSize Value : Nat) : BitVector :=
  ⟨BitSize, Value % 2 ^ BitSize⟩

/-- Modelled from the spec: the default constructor `BitVector()`, of the same
absent header; the container constructor `DataContainerType(1)` fills its slot
with it.  It is the empty vector, of value 0. -/
def BitVector.empty : BitVector := ⟨0, 0⟩

/-- Getter `BitVector::GetBitSize`. -/
def BitVector.GetBitSize (v : BitVector) : Nat := v.m_BitSize

/-- Modelled from the spec: `BitVector::ConvertTo<T>()` for an unsigned integer
type `T` of `bits` bits, of the same absent header.  By §3.1 the conversion to a
fixed machine integer truncates. -/
def BitVector.ConvertTo (bits : Nat) (v : BitVector) : Nat :=
  v.m_Value % 2 ^ bits

/-- Modelled from the spec: the width in bits of `TBase`, the type of
`Address::m_Base`, whose declaration is not among the sources.  By §3.2 both
parts of an address are unsigned 64-bit integers. -/
def TBaseBits : Nat := 64

/-- Modelled from the spec: the width in bits of `TOffset`, the type of
`Address::m_Offset` (see `TBaseBits`). -/
def TOffsetBits : Nat := 64

/-- Getter `Address::GetOffset`. -/
def Address.GetOffset (a : Address) : Nat := a.m_Offset

/-- The container `Expression::DataContainerType` of `Read` and `Write`: a
sequence of bit-vectors with `front`, `push_front` and `pop_front`. -/
abbrev DataContainerType := List BitVector

/-- The interface `CpuInformation` as the expressions use it: the width in bits
of a register id.  The class is declared in a header that is not among the
sources; its behaviour is a parameter. -/
structure CpuInformation where
  GetSizeOfRegisterInBit : Nat → Nat

/-- The interface `CpuContext` as the expressions use it, over the type `σ` of
its states; the class is abstract and its declaration is not among the sources,
so its behaviour is a parameter.  `ReadRegister` and `Translate` are `const`
members: they yield the `u64` the caller finds behind the output pointer after
the call, or `none` for a false return.  `WriteRegister` takes the register id, the 64-bit buffer the
pointer refers to and the width in bits, and yields the returned flag with the
state after the call. -/
structure CpuContext (σ : Type) where
  ReadRegister : σ → Nat → Nat → Option Nat
  WriteRegister : σ → Nat → Nat → Nat → Bool × σ
  Translate : σ → Address → Option Nat

/-- The interface `MemoryContext` as the expressions use it, over the type `μ` of
its states; abstract like `CpuContext`.  `ReadMemory` takes the linear address
and the number of bytes and yields the `u64` the caller finds behind the output
pointer after the call, or `none` for a false return; `WriteMemory` takes the linear address, the 64-bit
buffer and the number of bytes, and yields the returned flag with the state
after the call. -/
structure MemoryContext (μ : Type) where
  ReadMemory : μ → Nat → Nat → Option Nat
  WriteMemory : μ → Nat → Nat → Nat → Bool × μ

/-- What the `Read`, `Write` and `GetAddress` members are run against: the
`CpuInformation` object each pointer value `m_pCpuInfo` refers to, and the
implementations behind `pCpuCtxt` and `pMemCtxt`. -/
structure Runtime (σ μ : Type) where
  CpuInfo : Nat → CpuInformation
  Cpu : CpuContext σ
  Mem : MemoryContext μ

/-- The type of the virtual call `c->Read(pCpuCtxt, pMemCtxt, rData)` with the
contexts fixed: the returned flag and the container after the call. -/
abbrev ReadCall := SPType → DataContainerType → Except Fault (Bool × DataContainerType)

/-- Member `BitVectorExpression::Read` (lines 733-740). -/
def BitVectorExpression.Read (m_Value : BitVector) (rData : DataContainerType) :
    Bool × DataContainerType :=
  if rData.length ≠ 1 then (false, rData)
  else (true, rData.set 0 m_Value)

/-- Member `BitVectorExpression::Write` (lines 742-745). -/
def BitVectorExpression.Write : Bool := false

/-- Member `BitVectorExpression::GetAddress` (lines 747-750). -/
def BitVectorExpression.GetAddress : Bool := false

/-- Member `IdentifierExpression::Read` (lines 959-972). -/
def IdentifierExpression.Read {σ μ : Type} (rt : Runtime σ μ) (cpu : σ) (m_Id m_pCpuInfo : Nat)
    (rData : DataContainerType) : Bool × DataContainerType :=
  if rData.length ≠ 1 then (false, rData)
  else
    let RegSize := (rt.CpuInfo m_pCpuInfo).GetSizeOfRegisterInBit m_Id
    match rt.Cpu.ReadRegister cpu m_Id RegSize with
    | none => (false, rData)
    | some Value => (true, rData.set 0 (BitVector.construct RegSize Value))

/-- Member `IdentifierExpression::Write` (lines 974-988): the flag, the CPU state
and the container after the call.  `rData.front()` of an empty container is
undefined and modelled as a fault.  The width test of line 979 only logs. -/
def IdentifierExpression.Write {σ μ : Type} (rt : Runtime σ μ) (cpu : σ) (m_Id m_pCpuInfo : Nat)
    (rData : DataContainerType) : Except Fault (Bool × σ × DataContainerType) :=
  match rData with
  | [] => .error Fault.EmptyContainer
  | DataValue :: rest =>
    let RegSize := (rt.CpuInfo m_pCpuInfo).GetSizeOfRegisterInBit m_Id
    let RegVal := DataValue.ConvertTo 64
    match rt.Cpu.WriteRegister cpu m_Id RegVal RegSize with
    | (false, cpu1) => .ok (false, cpu1, DataValue :: rest)
    | (true, cpu1) => .ok (true, cpu1, rest)

/-- The loop of `VectorIdentifierExpression::Read` (lines 1059-1066): each
register value is pushed to the front. -/
def VectorIdentifierExpression.ReadLoop {σ μ : Type} (rt : Runtime σ μ) (cpu : σ)
    (m_pCpuInfo : Nat) : List Nat → DataContainerType → Bool × DataContainerType
  | [], rData => (true, rData)
  | Id :: rest, rData =>
    match rt.Cpu.ReadRegister cpu Id ((rt.CpuInfo m_pCpuInfo).GetSizeOfRegisterInBit Id) with
    | none => (false, rData)
    | some RegValue =>
      VectorIdentifierExpression.ReadLoop rt cpu m_pCpuInfo rest
        (BitVector.construct ((rt.CpuInfo m_pCpuInfo).GetSizeOfRegisterInBit Id) RegValue ::
          rData)

/-- Member `VectorIdentifierExpression::Read` (lines 1054-1068): the container is
cleared first. -/
def VectorIdentifierExpression.Read {σ μ : Type} (rt : Runtime σ μ) (cpu : σ)
    (m_VecId : List Nat) (m_pCpuInfo : Nat) (_rData : DataContainerType) :
    Bool × DataContainerType :=
  VectorIdentifierExpression.ReadLoop rt cpu m_pCpuInfo m_VecId []

/-- Member `MemoryExpression::GetAddress` (lines 1298-1314): `none` is the false
return, which leaves `rAddress` as it was.  `BaseData` and `OffsetData` start as
containers of one default bit-vector. -/
def MemoryExpression.GetAddress (read : ReadCall) (m_spBaseExpr m_spOffExpr : SPType) :
    Except Fault (Option Address) :=
  match (if m_spBaseExpr ≠ none then read m_spBaseExpr [BitVector.empty]
         else .ok (true, [BitVector.empty])) with
  | .error f => .error f
  | .ok (false, _) => .ok none
  | .ok (true, BaseData) =>
    match read m_spOffExpr [BitVector.empty] with
    | .error f => .error f
    | .ok (false, _) => .ok none
    | .ok (true, OffsetData) =>
      let Base :=
        match BaseData with
        | [front] => front.ConvertTo TBaseBits
        | _ => 0
      match OffsetData with
      | [front] => .ok (some ⟨Base, front.ConvertTo TOffsetBits⟩)
      | _ => .ok none

/-- The linear address of lines 1232-1234 and 1264-1266: the translation, or the
offset when `Translate` returns false. -/
def MemoryExpression.LinearAddress {σ μ : Type} (rt : Runtime σ μ) (cpu : σ)
    (DstAddr : Address) : Nat :=
  match rt.Cpu.Translate cpu DstAddr with
  | none => DstAddr.GetOffset
  | some LinAddr => LinAddr

/-- The loop of `MemoryExpression::Read` (lines 1238-1244) over the slots of the
container: every slot is read at `LinAddr`, which the loop does not change. -/
def MemoryExpression.ReadLoop {σ μ : Type} (rt : Runtime σ μ) (mem : μ)
    (m_AccessSizeInBit LinAddr : Nat) : DataContainerType → Bool × DataContainerType
  | [] => (true, [])
  | rDataValue :: rest =>
    match rt.Mem.ReadMemory mem LinAddr (m_AccessSizeInBit / 8) with
    | none => (false, rDataValue :: rest)
    | some MemVal =>
      match MemoryExpression.ReadLoop rt mem m_AccessSizeInBit LinAddr rest with
      | (flag, rest1) => (flag, BitVector.construct m_AccessSizeInBit MemVal :: rest1)

/-- Member `MemoryExpression::Read` (lines 1226-1254). -/
def MemoryExpression.Read {σ μ : Type} (rt : Runtime σ μ) (cpu : σ) (mem : μ) (read : ReadCall)
    (m_AccessSizeInBit : Nat) (m_spBaseExpr m_spOffExpr : SPType) (m_Dereference : Bool)
    (rData : DataContainerType) : Except Fault (Bool × DataContainerType) :=
  match MemoryExpression.GetAddress read m_spBaseExpr m_spOffExpr with
  | .error f => .error f
  | .ok none => .ok (false, rData)
  | .ok (some DstAddr) =>
    let LinAddr := MemoryExpression.LinearAddress rt cpu DstAddr
    if m_Dereference = true then
      .ok (MemoryExpression.ReadLoop rt mem m_AccessSizeInBit LinAddr rData)
    else if rData.length ≠ 1 then .ok (false, rData)
    else .ok (true, rData.set 0 (BitVector.construct m_AccessSizeInBit LinAddr))

/-- The loop of `MemoryExpression::Write` (lines 1268-1274): each datum is stored
at `LinAddr`, which then advances by the byte count of the datum; `LinAddr` is a
`u64`. -/
def MemoryExpression.WriteLoop {σ μ : Type} (rt : Runtime σ μ) :
    μ → Nat → DataContainerType → Bool × μ
  | mem, _, [] => (true, mem)
  | mem, LinAddr, rDataValue :: rest =>
    match rt.Mem.WriteMemory mem LinAddr (rDataValue.ConvertTo 64)
        (rDataValue.GetBitSize / 8) with
    | (false, mem1) => (false, mem1)
    | (true, mem1) =>
      MemoryExpression.WriteLoop rt mem1 ((LinAddr + rDataValue.GetBitSize / 8) % 2 ^ 64) rest

/-- Member `MemoryExpression::Write` (lines 1256-1296): the flag and the CPU and
memory states after the call; the container is not changed. -/
def MemoryExpression.Write {σ μ : Type} (rt : Runtime σ μ) (heap : Heap) (cpu : σ) (mem : μ)
    (read : ReadCall) (m_spBaseExpr m_spOffExpr : SPType) (m_Dereference : Bool)
    (rData : DataContainerType) : Except Fault (Bool × σ × μ) :=
  if m_Dereference = true then
    match MemoryExpression.GetAddress read m_spBaseExpr m_spOffExpr with
    | .error f => .error f
    | .ok none => .ok (false, cpu, mem)
    | .ok (some DstAddr) =>
      match MemoryExpression.WriteLoop rt mem (MemoryExpression.LinearAddress rt cpu DstAddr)
          rData with
      | (flag, mem1) => .ok (flag, cpu, mem1)
  else if rData.length ≠ 1 then .ok (false, cpu, mem)
  else
    match expr_cast heap Kind.Id m_spOffExpr, rData with
    | some (.Identifier spRegOffId spRegOffCpuInfo), front :: _ =>
      match rt.Cpu.WriteRegister cpu spRegOffId (front.ConvertTo 64)
          ((rt.CpuInfo spRegOffCpuInfo).GetSizeOfRegisterInBit spRegOffId) with
      | (false, cpu1) => .ok (false, cpu1, mem)
      | (true, cpu1) => .ok (true, cpu1, mem)
    | _, _ => .ok (false, cpu, mem)

/-- Modelled from the spec: the inherited `Expression::Read` is defined in
`medusa/expression.hpp`, which is not among the sources.  It is what the classes
without a `Read` in `expression.cpp` run; by §4.2 only location-typed
expressions are read, and the inherited member is taken to return false and to
leave the container as it was. -/
def Expression.ReadDefault (rData : DataContainerType) : Except Fault (Bool × DataContainerType) :=
  .ok (false, rData)

/-- Virtual dispatch of `Read` on the object `node`; `read` is the virtual call
the member bodies make on the children. -/
def Expression.Read {σ μ : Type} (rt : Runtime σ μ) (cpu : σ) (mem : μ) (read : ReadCall)
    (node : Expression) (rData : DataContainerType) : Except Fault (Bool × DataContainerType) :=
  match node with
  | .BitVector m_Value => .ok (BitVectorExpression.Read m_Value rData)
  | .Identifier m_Id m_pCpuInfo => .ok (IdentifierExpression.Read rt cpu m_Id m_pCpuInfo rData)
  | .VectorIdentifier m_VecId m_pCpuInfo =>
    .ok (VectorIdentifierExpression.Read rt cpu m_VecId m_pCpuInfo rData)
  | .Memory m_AccessSizeInBit m_spBaseExpr m_spOffExpr m_Dereference =>
    MemoryExpression.Read rt cpu mem read m_AccessSizeInBit m_spBaseExpr m_spOffExpr
      m_Dereference rData
  | _ => Expression.ReadDefault rData

/-- The call `this->Read(pCpuCtxt, pMemCtxt, rData)` through a handle.  A fault
on a null handle, one unit of fuel per virtual call. -/
def Read {σ μ : Type} (rt : Runtime σ μ) (cpu : σ) (mem : μ) (heap : Heap) :
    Nat → SPType → DataContainerType → Except Fault (Bool × DataContainerType)
  | 0, _, _ => .error Fault.OutOfFuel
  | fuel + 1, this, rData =>
    match deref heap this with
    | none => .error Fault.NullDereference
    | some node => Expression.Read rt cpu mem (Read rt cpu mem heap fuel) node rData

/-! ## The stores of a dereferencing write, in closed form -/

/-- Number of bytes the first `i` data of a list take: the sum of their
`width / 8`. -/
def bytesBefore (rData : DataContainerType) (i : Nat) : Nat :=
  ((rData.take i).map fun d => d.GetBitSize / 8).sum

/-- One call of `WriteMemory`: the linear address, the 64-bit buffer and the
number of bytes. -/
abbrev Store := Nat × Nat × Nat

/-- The store of each datum of a list written from `LinAddr`: datum `i` goes to
`LinAddr` plus the bytes of the data before it (in `u64` arithmetic), with its
value truncated to 64 bits and `width / 8` bytes. -/
def consecutiveStores (LinAddr : Nat) (rData : DataContainerType) : List Store :=
  rData.mapIdx fun i d =>
    ((LinAddr + bytesBefore rData i) % 2 ^ 64, d.ConvertTo 64, d.GetBitSize / 8)

/-- The stores of a list done in list order, up to and including the first
`WriteMemory` that returns false: the flag and the memory state reached. -/
def storeInOrder {σ μ : Type} (rt : Runtime σ μ) : μ → List Store → Bool × μ
  | mem, [] => (true, mem)
  | mem, st :: rest =>
    match rt.Mem.WriteMemory mem st.1 st.2.1 st.2.2 with
    | (false, mem1) => (false, mem1)
    | (true, mem1) => storeInOrder rt mem1 rest

/-! ## A concrete runtime -/

/-- Value of a list of bytes, least significant byte first. -/
def littleEndian : List Nat → Nat
  | [] => 0
  | b :: rest => b % 256 + 256 * littleEndian rest

/-- The `n` low bytes of a value, least significant byte first. -/
def toBytes (val : Nat) : Nat → List Nat
  | 0 => []
  | n + 1 => val % 256 :: toBytes (val / 256) n

/-- A runtime with a register file and a flat memory: register `id` is cell `id`
of a list and holds `width id` bits, memory is a list of bytes in which the
linear address is the index, and no address translation is set up.  Reads and
writes outside the lists return false. -/
def listRuntime (width : Nat → Nat) : Runtime (List Nat) (List Nat) where
  CpuInfo := fun _ => ⟨width⟩
  Cpu :=
    { ReadRegister := fun regs id size => (regs[id]?).map fun v => v % 2 ^ size
      WriteRegister := fun regs id val size =>
        if id < regs.length then (true, regs.set id (val % 2 ^ size)) else (false, regs)
      Translate := fun _ _ => none }
  Mem :=
    { ReadMemory := fun bytes addr n =>
        if addr + n ≤ bytes.length then some (littleEndian ((bytes.drop addr).take n)) else none
      WriteMemory := fun bytes addr val n =>
        if addr + n ≤ bytes.length then
          (true, bytes.take addr ++ toBytes val n ++ bytes.drop (addr + n))
        else (false, bytes) }

/-- Heap with `MakeBind([a, old, b])` at handle 4: `a` is handle 0, `old` handle
1, `b` handle 2, and the literal at handle 3 is the replacement. -/
def bindOldMiddle : Heap :=
  [bitVector 32 1, bitVector 32 2, bitVector 32 3, bitVector 32 4,
    .Bind [some 0, some 1, some 2]]

/-- Heap with `e = MakeBind([a, c])` at handle 3, where `a` (handle 0) has value
1 and `c` (handle 1) value 2; the literal at handle 2 has the value of `a`. -/
def bindBeforeUpdate : Heap :=
  [bitVector 8 1, bitVector 8 2, bitVector 8 1, .Bind [some 0, some 1]]

/-- Heap `bindBeforeUpdate` after `e.Clone()`: the clone `e_before` is handle 6. -/
def bindCloned : Heap :=
  bindBeforeUpdate ++ [bitVector 8 1, bitVector 8 2, .Bind [some 4, some 5]]

/-- Heap `bindCloned` after `e.UpdateChild(c, c2)` with `c2` the literal at
handle 2. -/
def bindUpdated : Heap :=
  [bitVector 8 1, bitVector 8 2, bitVector 8 1, .Bind [some 0, some 2],
    bitVector 8 1, bitVector 8 2, .Bind [some 4, some 5]]

/-- Heap with `MakeMem(32, nullptr, MakeBitVector(32, 8), true)` at handle 1: a
dereferencing 32-bit access at offset 8. -/
def memoryAtEight : Heap :=
  [bitVector 32 8, .Memory 32 none (some 0) true]

/-- Sixteen bytes of memory: the 32-bit word at address 8 is `0x11111111`, the
one at address 12 is `0x22222222`. -/
def sixteenBytes : List Nat :=
  [0, 0, 0, 0, 0, 0, 0, 0, 17, 17, 17, 17, 34, 34, 34, 34]

/-- Heap with `MakeMem(32, nullptr, MakeVecId([0, 1], info), false)` at handle 1:
the offset sub-expression is a VectorIdentifier of two registers. -/
def memoryOverVector : Heap :=
  [.VectorIdentifier [0, 1] 0, .Memory 32 none (some 0) false]

/-- Heap with `MakeMem(32, nullptr, MakeId(1, info), false)` at handle 1: the
address of a 32-bit access whose offset is register 1. -/
def memoryOverIdentifier : Heap :=
  [.Identifier 1 0, .Memory 32 none (some 0) false]

/-! ## Writing a vector of registers -/

/-- The loop of `VectorIdentifierExpression::Write` (lines 1072-1081) over the ids
in the order the loop visits them: the flag, the CPU state and the container
after the call.  The front datum is converted to `u64`, written with the width
of the register, and popped when the write succeeded. -/
def VectorIdentifierExpression.WriteLoop {σ μ : Type} (rt : Runtime σ μ) (m_pCpuInfo : Nat) :
    σ → List Nat → DataContainerType → Bool × σ × DataContainerType
  | cpu, [], rData => (true, cpu, rData)
  | cpu, Id :: ids, rData =>
    match rData with
    | [] => (false, cpu, [])
    | front :: rest =>
      match rt.Cpu.WriteRegister cpu Id (front.ConvertTo 64)
          ((rt.CpuInfo m_pCpuInfo).GetSizeOfRegisterInBit Id) with
      | (false, cpu1) => (false, cpu1, front :: rest)
      | (true, cpu1) => VectorIdentifierExpression.WriteLoop rt m_pCpuInfo cpu1 ids rest

/-- Member `VectorIdentifierExpression::Write` (lines 1070-1083): the loop runs
over `boost::adaptors::reverse(m_VecId)`. -/
def VectorIdentifierExpression.Write {σ μ : Type} (rt : Runtime σ μ) (cpu : σ)
    (m_VecId : List Nat) (m_pCpuInfo : Nat) (rData : DataContainerType) :
    Bool × σ × DataContainerType :=
  VectorIdentifierExpression.WriteLoop rt m_pCpuInfo cpu m_VecId.reverse rData

/-- One register write: the register id, the 64-bit value and the width in bits. -/
abbrev RegisterStore := Nat × Nat × Nat

/-- The register writes of a vector write as the contract words them: the `k`-th
datum from the front goes to the `k`-th id from the back, for as many data as
there are ids. -/
def reversedStores {σ μ : Type} (rt : Runtime σ μ) (m_pCpuInfo : Nat) (m_VecId : List Nat)
    (rData : DataContainerType) : List RegisterStore :=
  List.zipWith
    (fun Id d => (Id, d.ConvertTo 64, (rt.CpuInfo m_pCpuInfo).GetSizeOfRegisterInBit Id))
    m_VecId.reverse rData

/-- Register writes performed one after the other until one fails: whether all
succeeded, and the CPU state after the last write performed. -/
def writeInOrder {σ μ : Type} (rt : Runtime σ μ) : σ → List RegisterStore → Bool × σ
  | cpu, [] => (true, cpu)
  | cpu, (Id, Value, Size) :: rest =>
    match rt.Cpu.WriteRegister cpu Id Value Size with
    | (false, cpu1) => (false, cpu1)
    | (true, cpu1) => writeInOrder rt cpu1 rest

/-! ## Bit sizes -/

/-- The type of the virtual call `c->GetBitSize()`. -/
abbrev BitSizeCall := SPType → Except Fault Nat

/-- Member `OperationExpression::GetBitSize` (lines 536-539), which both
operation classes override. -/
def OperationExpression.GetBitSize : Nat := 0

/-- Member `UnaryOperationExpression::GetBitSize` (lines 573-576). -/
def UnaryOperationExpression.GetBitSize (size : BitSizeCall) (m_spExpr : SPType) :
    Except Fault Nat :=
  size m_spExpr

/-- Member `BinaryOperationExpression::GetBitSize` (lines 634-637): `std::max` of
the two `u32` sizes; the left call is taken first. -/
def BinaryOperationExpression.GetBitSize (size : BitSizeCall) (m_spLeftExpr m_spRightExpr : SPType) :
    Except Fault Nat :=
  match size m_spLeftExpr with
  | .error f => .error f
  | .ok l =>
    match size m_spRightExpr with
    | .error f => .error f
    | .ok r => .ok (max l r)

/-- Modelled from the spec: `BitVectorExpression::GetBitSize` is defined in
`medusa/expression.hpp`, which is not among the sources.  By scenario S1 a
literal reports the width of its value. -/
def BitVectorExpression.GetBitSize (m_Value : BitVector) : Nat := m_Value.GetBitSize

/-- Member `IdentifierExpression::GetBitSize` (lines 937-940). -/
def IdentifierExpression.GetBitSize (info : Nat → CpuInformation) (m_Id m_pCpuInfo : Nat) : Nat :=
  (info m_pCpuInfo).GetSizeOfRegisterInBit m_Id

/-- Member `VectorIdentifierExpression::GetBitSize` (lines 1019-1027): the widths
are added up in a `u32`. -/
def VectorIdentifierExpression.GetBitSize (info : Nat → CpuInformation) (m_VecId : List Nat)
    (m_pCpuInfo : Nat) : Nat :=
  m_VecId.foldl
    (fun SizeInBit Id => (SizeInBit + (info m_pCpuInfo).GetSizeOfRegisterInBit Id) % 2 ^ 32) 0

/-- Member `TrackExpression::GetBitSize` (lines 1108-1111). -/
def TrackExpression.GetBitSize (size : BitSizeCall) (m_spTrkExpr : SPType) : Except Fault Nat :=
  size m_spTrkExpr

/-- Member `VariableExpression::GetBitSize` (lines 1165-1168). -/
def VariableExpression.GetBitSize (m_BitSize : Nat) : Nat := m_BitSize

/-- Member `MemoryExpression::GetBitSize` (lines 1216-1219). -/
def MemoryExpression.GetBitSize (m_AccessSizeInBit : Nat) : Nat := m_AccessSizeInBit

/-- Member `SymbolicExpression::GetBitSize` (lines 1386-1389). -/
def SymbolicExpression.GetBitSize : Nat := 0

/-- Virtual dispatch of `GetBitSize` on the object `node`.  The classes System,
Bind, Assignment and the three conditions have no `GetBitSize` in
`expression.cpp`: what they run is declared in `medusa/expression.hpp`, which is
not among the sources, and is the parameter `inHeader`, which may call
`GetBitSize` on other objects. -/
def Expression.GetBitSize (info : Nat → CpuInformation)
    (inHeader : BitSizeCall → Expression → Except Fault Nat) (size : BitSizeCall)
    (node : Expression) : Except Fault Nat :=
  match node with
  | .UnaryOperation _ m_spExpr => UnaryOperationExpression.GetBitSize size m_spExpr
  | .BinaryOperation _ m_spLeftExpr m_spRightExpr =>
    BinaryOperationExpression.GetBitSize size m_spLeftExpr m_spRightExpr
  | .BitVector m_Value => .ok (BitVectorExpression.GetBitSize m_Value)
  | .Identifier m_Id m_pCpuInfo => .ok (IdentifierExpression.GetBitSize info m_Id m_pCpuInfo)
  | .VectorIdentifier m_VecId m_pCpuInfo =>
    .ok (VectorIdentifierExpression.GetBitSize info m_VecId m_pCpuInfo)
  | .Track m_spTrkExpr _ _ => TrackExpression.GetBitSize size m_spTrkExpr
  | .Variable _ _ m_BitSize => .ok (VariableExpression.GetBitSize m_BitSize)
  | .Memory m_AccessSizeInBit _ _ _ => .ok (MemoryExpression.GetBitSize m_AccessSizeInBit)
  | .Symbolic _ _ _ _ => .ok SymbolicExpression.GetBitSize
  | .System m_Name m_Address => inHeader size (.System m_Name m_Address)
  | .Bind m_Expressions => inHeader size (.Bind m_Expressions)
  | .TernaryCondition m_Type m_spRefExpr m_spTestExpr m_spTrueExpr m_spFalseExpr =>
    inHeader size (.TernaryCondition m_Type m_spRefExpr m_spTestExpr m_spTrueExpr m_spFalseExpr)
  | .IfElseCondition m_Type m_spRefExpr m_spTestExpr m_spThenExpr m_spElseExpr =>
    inHeader size (.IfElseCondition m_Type m_spRefExpr m_spTestExpr m_spThenExpr m_spElseExpr)
  | .WhileCondition m_Type m_spRefExpr m_spTestExpr m_spBodyExpr =>
    inHeader size (.WhileCondition m_Type m_spRefExpr m_spTestExpr m_spBodyExpr)
  | .Assignment m_spDstExpr m_spSrcExpr => inHeader size (.Assignment m_spDstExpr m_spSrcExpr)

/-- The call `this->GetBitSize()` through a handle.  A fault on a null handle,
one unit of fuel per virtual call. -/
def GetBitSize (info : Nat → CpuInformation)
    (inHeader : BitSizeCall → Expression → Except Fault Nat) (heap : Heap) :
    Nat → SPType → Except Fault Nat
  | 0, _ => .error Fault.OutOfFuel
  | fuel + 1, this =>
    match deref heap this with
    | none => .error Fault.NullDereference
    | some node => Expression.GetBitSize info inHeader (GetBitSize info inHeader heap fuel) node

/-- A choice for the members of the absent header: size 0 for the classes it
covers. -/
def zeroInHeader : BitSizeCall → Expression → Except Fault Nat := fun _ _ => .ok 0

/-- Heap with `MakeBinOp(Add, id(eax), MakeBitVector(32, 1))` at handle 2, the
expression of scenario S2; register 0 stands for `eax`. -/
def addOneToRegister : Heap :=
  [.Identifier 0 0, bitVector 32 1, .BinaryOperation OpType.OpAdd (some 0) (some 1)]

/-- Heap with `MakeSym(Unknown, "arg", addr, MakeId(0, info))` at handle 1: a
symbolic expression over a register. -/
def symbolicOverIdentifier : Heap :=
  [.Identifier 0 0, .Symbolic 0 "arg" ⟨0, 4096⟩ (some 0)]

/-- Heap with a unary operation (handle 1), a tracked expression (handle 2), a
vector of registers (handle 3), a memory access (handle 4) and a variable
(handle 5), all over register 0 at handle 0. -/
def sizedNodes : Heap :=
  [.Identifier 0 0, .UnaryOperation OpType.OpNot (some 0), .Track (some 0) ⟨0, 4096⟩ 0,
    .VectorIdentifier [0, 1] 0, .Memory 16 none (some 0) true,
    .Variable "tmp" ActionType.Alloc 8]

/-! ## The destination of an assignment -/

/-- The location-typed expressions of the data model: Identifier,
VectorIdentifier, Memory with the dereference flag set, and Variable. -/
def Expression.isLocation : Expression → Bool
  | .Identifier _ _ => true
  | .VectorIdentifier _ _ => true
  | .Memory _ _ _ m_Dereference => m_Dereference
  | .Variable _ _ _ => true
  | _ => false

/-- Whether a handle refers to a location-typed expression. -/
def locationTyped (heap : Heap) (sp : SPType) : Bool :=
  match deref heap sp with
  | some node => node.isLocation
  | none => false

/-- The invariant on destinations: every Assignment object of the heap has a
location-typed destination. -/
def destinationsLocated (heap : Heap) : Bool :=
  heap.all fun node =>
    match node with
    | .Assignment m_spDstExpr _ => locationTyped heap m_spDstExpr
    | _ => true

/-- A sequence of calls `this->UpdateChild(old, new)`, given as the triples
`(this, old, new)`, each run on the heap the previous one left. -/
def UpdateChildren (fuel : Nat) : Heap → List (SPType × SPType × SPType) → Except Fault Heap
  | heap, [] => .ok heap
  | heap, (this, spOldExpr, spNewExpr) :: rest =>
    match UpdateChild fuel heap this spOldExpr spNewExpr with
    | .error f => .error f
    | .ok (_, heap1) => UpdateChildren fuel heap1 rest

/-- What one `UpdateChild(old, new)` call may do to an object: its being
location-typed is kept, and the destination of an Assignment is kept or becomes
`new`. -/
def nodeStep (spNewExpr : SPType) (node node1 : Expression) : Prop :=
  node1.isLocation = node.isLocation ∧
  ∀ dst1 src1, node1 = .Assignment dst1 src1 →
    ∃ dst src, node = .Assignment dst src ∧ (dst1 = dst ∨ dst1 = spNewExpr)

/-- What `UpdateChild(old, new)` calls may do to a heap: no object is added or
removed, and every object changes by `nodeStep`. -/
def heapStep (spNewExpr : SPType) (heap heap1 : Heap) : Prop :=
  heap1.length = heap.length ∧
  ∀ (i : Nat) (node1 : Expression), heap1[i]? = some node1 →
    ∃ node, heap[i]? = some node ∧ nodeStep spNewExpr node node1

/-- Every heap a call returns is a `heapStep` from `heap0`. -/
def stepsFrom (spNewExpr : SPType) (heap0 : Heap) (r : Except Fault (Bool × Heap)) : Prop :=
  ∀ b heap1, r = .ok (b, heap1) → heapStep spNewExpr heap0 heap1

/-- Whether the Assignment object at handle `i` of `heap1` has the destination
it has in `heap`; true when `heap1` has no Assignment object there. -/
def keptDestination (heap heap1 : Heap) (i : Nat) : Bool :=
  match heap1[i]? with
  | some (.Assignment dst1 _) =>
    match heap[i]? with
    | some (.Assignment dst _) => decide (dst = dst1)
    | _ => false
  | _ => true

/-- A call `UpdateChild(old, new)` that took `heap` to `heap1` replaced no
destination by an expression that is not location-typed: `new` is
location-typed, or every Assignment object has the destination it had. -/
def replacedByLocation (heap heap1 : Heap) (spNewExpr : SPType) : Bool :=
  locationTyped heap spNewExpr || (List.range heap1.length).all (keptDestination heap heap1)

/-- No call of the sequence that returns replaces a destination by an expression
that is not location-typed; the calls are run as in `UpdateChildren`, up to the
first that faults. -/
def replaceByLocations (fuel : Nat) : Heap → List (SPType × SPType × SPType) → Bool
  | _, [] => true
  | heap, (this, spOldExpr, spNewExpr) :: rest =>
    match UpdateChild fuel heap this spOldExpr spNewExpr with
    | .error _ => true
    | .ok (_, heap1) =>
      replacedByLocation heap heap1 spNewExpr && replaceByLocations fuel heap1 rest

/-- The invariant on destinations holds after each call of the sequence that
returns; the calls are run as in `UpdateChildren`, up to the first that faults. -/
def locatedAfterEach (fuel : Nat) : Heap → List (SPType × SPType × SPType) → Bool
  | _, [] => true
  | heap, (this, spOldExpr, spNewExpr) :: rest =>
    match UpdateChild fuel heap this spOldExpr spNewExpr with
    | .error _ => true
    | .ok (_, heap1) => destinationsLocated heap1 && locatedAfterEach fuel heap1 rest

/-- Heap with `MakeAssign(MakeId(0, info), MakeBitVector(32, 1))` at handle 2 and
a further literal at handle 3. -/
def assignRegister : Heap :=
  [.Identifier 0 0, bitVector 32 1, .Assignment (some 0) (some 1), bitVector 32 2]

/-- Heap `assignRegister` after the destination was replaced by the literal at
handle 3. -/
def assignLiteral : Heap :=
  [.Identifier 0 0, bitVector 32 1, .Assignment (some 3) (some 1), bitVector 32 2]

/-- Heap with `MakeAssign(MakeId(0, info), MakeBinOp(Add, a, b))` at handle 4 and
a variable at handle 5. -/
def assignSum : Heap :=
  [.Identifier 0 0, bitVector 32 1, bitVector 32 2,
    .BinaryOperation OpType.OpAdd (some 1) (some 2), .Assignment (some 0) (some 3),
    .Variable "tmp" ActionType.Use 0]

/-! ## Textual form -/

/-- The type of the virtual call `c->ToString()`. -/
abbrev ToStringCall := SPType → Except Fault String

/-- The text of a sub-expression followed by the rest `k` of the function body. -/
def withText (r : Except Fault String) (k : String → Except Fault String) : Except Fault String :=
  match r with
  | .error f => .error f
  | .ok s => k s

/-- What `ToString` takes from classes that are not among the sources:
`Address::ToString`, `BitVector::ToString`, and
`CpuInformation::ConvertIdentifierToName` of the object a pointer value
`m_pCpuInfo` refers to (`none` is the null name). -/
structure Printing where
  AddressToString : Address → String
  BitVectorToString : BitVector → String
  ConvertIdentifierToName : Nat → Nat → Option String

/-- Member `SystemExpression::ToString` (lines 35-38). -/
def SystemExpression.ToString (pr : Printing) (m_Name : String) (m_Address : Address) : String :=
  pr.AddressToString m_Address ++ " " ++ m_Name

/-- The loop of `BindExpression::ToString` (lines 78-82): the texts of the
non-null elements, in order. -/
def BindExpression.ToStringLoop (str : ToStringCall) : List SPType → Except Fault (List String)
  | [] => .ok []
  | spExpr :: rest =>
    if spExpr ≠ none then
      match str spExpr with
      | .error f => .error f
      | .ok s =>
        match BindExpression.ToStringLoop str rest with
        | .error f => .error f
        | .ok ExprsStrList => .ok (s :: ExprsStrList)
    else BindExpression.ToStringLoop str rest

/-- Member `BindExpression::ToString` (lines 74-85). -/
def BindExpression.ToString (str : ToStringCall) (m_Expressions : List SPType) :
    Except Fault String :=
  match BindExpression.ToStringLoop str m_Expressions with
  | .error f => .error f
  | .ok ExprsStrList => .ok ("; ".intercalate ExprsStrList)

/-- The table `s_StrCond` of `ConditionExpression::ToString` (line 155). -/
def s_StrCond : List String :=
  ["???", "==", "!=", "u>", "u>=", "u<", "u<=", "s>", "s>=", "s<", "s<="]

/-- Member `ConditionExpression::ToString` (lines 153-160).  The operands of a
`boost::format` chain are evaluated in an unspecified order; here and below the
texts are taken left to right. -/
def ConditionExpression.ToString (str : ToStringCall) (m_Type : Nat)
    (m_spRefExpr m_spTestExpr : SPType) : Except Fault String :=
  if m_spRefExpr = none ∨ m_spTestExpr = none ∨ m_Type ≥ s_StrCond.length then .ok ""
  else
    withText (str m_spRefExpr) fun ref =>
    withText (str m_spTestExpr) fun test =>
    .ok ("(" ++ ref ++ " " ++ s_StrCond.getD m_Type "" ++ " " ++ test ++ ")")

/-- Member `TernaryConditionExpression::ToString` (lines 186-198). -/
def TernaryConditionExpression.ToString (str : ToStringCall) (m_Type : Nat)
    (m_spRefExpr m_spTestExpr m_spTrueExpr m_spFalseExpr : SPType) : Except Fault String :=
  withText (ConditionExpression.ToString str m_Type m_spRefExpr m_spTestExpr) fun Result =>
  withText (str m_spTrueExpr) fun tr =>
  withText (str m_spFalseExpr) fun fl =>
  .ok (Result ++ " ? (" ++ tr ++ ") : " ++ fl ++ ")")

/-- Member `IfElseConditionExpression::ToString` (lines 279-284). -/
def IfElseConditionExpression.ToString (str : ToStringCall) (m_Type : Nat)
    (m_spRefExpr m_spTestExpr m_spThenExpr m_spElseExpr : SPType) : Except Fault String :=
  if m_spElseExpr = none then
    withText (ConditionExpression.ToString str m_Type m_spRefExpr m_spTestExpr) fun cond =>
    withText (str m_spThenExpr) fun thn =>
    .ok ("if " ++ cond ++ " \x7b " ++ thn ++ " \x7d")
  else
    withText (ConditionExpression.ToString str m_Type m_spRefExpr m_spTestExpr) fun cond =>
    withText (str m_spThenExpr) fun thn =>
    withText (str m_spElseExpr) fun els =>
    .ok ("if " ++ cond ++ " \x7b " ++ thn ++ " \x7d else \x7b " ++ els ++ " \x7d")

/-- Member `WhileConditionExpression::ToString` (lines 365-368). -/
def WhileConditionExpression.ToString (str : ToStringCall) (m_Type : Nat)
    (m_spRefExpr m_spTestExpr m_spBodyExpr : SPType) : Except Fault String :=
  withText (ConditionExpression.ToString str m_Type m_spRefExpr m_spTestExpr) fun cond =>
  withText (str m_spBodyExpr) fun body =>
  .ok ("while " ++ cond ++ " \x7b " ++ body ++ " \x7d")

/-- Member `AssignmentExpression::ToString` (lines 437-440). -/
def AssignmentExpression.ToString (str : ToStringCall) (m_spDstExpr m_spSrcExpr : SPType) :
    Except Fault String :=
  withText (str m_spDstExpr) fun dst =>
  withText (str m_spSrcExpr) fun src =>
  .ok ("(" ++ dst ++ " = " ++ src ++ ")")

/-- Member `OperationExpression::ToString` (lines 496-534): the symbol of the
operation code. -/
def OperationExpression.ToString : OpType → String
  | .OpUnk => "???"
  | .OpNot => "~"
  | .OpNeg => "-"
  | .OpSwap => "⇄"
  | .OpBsf => "bsf"
  | .OpBsr => "bsr"
  | .OpXchg => "↔"
  | .OpAnd => "&"
  | .OpOr => "|"
  | .OpXor => "^"
  | .OpLls => "<<"
  | .OpLrs => ">>\x7bu\x7d"
  | .OpArs => ">>\x7bs\x7d"
  | .OpRol => "rol"
  | .OpRor => "ror"
  | .OpAdd => "+"
  | .OpAddFloat => "+\x7bf\x7d"
  | .OpSub => "-"
  | .OpMul => "*"
  | .OpSDiv => "/\x7bs\x7d"
  | .OpUDiv => "/\x7bu\x7d"
  | .OpSMod => "%\x7bs\x7d"
  | .OpUMod => "%\x7bu\x7d"
  | .OpSext => "↗\x7bs\x7d"
  | .OpZext => "↗\x7bz\x7d"
  | .OpInsertBits => "<insert_bits>"
  | .OpExtractBits => "<extract_bits>"
  | .OpBcast => "<bcast>"

/-- Member `UnaryOperationExpression::ToString` (lines 562-565). -/
def UnaryOperationExpression.ToString (str : ToStringCall) (m_OpType : OpType)
    (m_spExpr : SPType) : Except Fault String :=
  withText (str m_spExpr) fun e =>
  .ok (OperationExpression.ToString m_OpType ++ "(" ++ e ++ ")")

/-- Member `BinaryOperationExpression::ToString` (lines 615-626). -/
def BinaryOperationExpression.ToString (str : ToStringCall) (m_OpType : OpType)
    (m_spLeftExpr m_spRightExpr : SPType) : Except Fault String :=
  withText (str m_spLeftExpr) fun l =>
  withText (str m_spRightExpr) fun r =>
  .ok ("(" ++ l ++ " " ++ OperationExpression.ToString m_OpType ++ " " ++ r ++ ")")

/-- Member `BitVectorExpression::ToString` (lines 702-711). -/
def BitVectorExpression.ToString (pr : Printing) (m_Value : BitVector) : String :=
  "int" ++ toString m_Value.GetBitSize ++ "(" ++ pr.BitVectorToString m_Value ++ ")"

/-- Member `IdentifierExpression::ToString` (lines 923-930). -/
def IdentifierExpression.ToString (pr : Printing) (info : Nat → CpuInformation)
    (m_Id m_pCpuInfo : Nat) : String :=
  match pr.ConvertIdentifierToName m_pCpuInfo m_Id with
  | none => ""
  | some pIdName =>
    "Id" ++ toString ((info m_pCpuInfo).GetSizeOfRegisterInBit m_Id) ++ "(" ++ pIdName ++ ")"

/-- The loop of `VectorIdentifierExpression::ToString` (lines 1004-1010): the
names of the ids, or `none` when one of them has no name. -/
def VectorIdentifierExpression.ToStringLoop (pr : Printing) (m_pCpuInfo : Nat) :
    List Nat → Option (List String)
  | [] => some []
  | Id :: rest =>
    match pr.ConvertIdentifierToName m_pCpuInfo Id with
    | none => none
    | some pCurIdStr =>
      match VectorIdentifierExpression.ToStringLoop pr m_pCpuInfo rest with
      | none => none
      | some VecStr => some (pCurIdStr :: VecStr)

/-- Member `VectorIdentifierExpression::ToString` (lines 1000-1012). -/
def VectorIdentifierExpression.ToString (pr : Printing) (m_VecId : List Nat) (m_pCpuInfo : Nat) :
    String :=
  match VectorIdentifierExpression.ToStringLoop pr m_pCpuInfo m_VecId with
  | none => ""
  | some VecStr => "\x7b " ++ ", ".intercalate VecStr ++ " \x7d"

/-- Member `TrackExpression::ToString` (lines 1098-1101). -/
def TrackExpression.ToString (pr : Printing) (str : ToStringCall) (m_spTrkExpr : SPType)
    (m_CurAddr : Address) (m_Pos : Nat) : Except Fault String :=
  withText (str m_spTrkExpr) fun trk =>
  .ok ("Trk(" ++ pr.AddressToString m_CurAddr ++ ", " ++ toString m_Pos ++ ", " ++ trk ++ ")")

/-- Member `VariableExpression::ToString` (lines 1145-1158); the three actions
are all the enumerators, so the `default` branch is not reached. -/
def VariableExpression.ToString (m_Name : String) (m_Action : ActionType) (m_BitSize : Nat) :
    String :=
  let ActStr :=
    match m_Action with
    | .Alloc => "alloc"
    | .Free => "free"
    | .Use => "use"
  "Var" ++ toString m_BitSize ++ "[" ++ ActStr ++ "] " ++ m_Name

/-- Member `MemoryExpression::ToString` (lines 1199-1206). -/
def MemoryExpression.ToString (str : ToStringCall) (m_AccessSizeInBit : Nat)
    (m_spBaseExpr m_spOffExpr : SPType) (m_Dereference : Bool) : Except Fault String :=
  let pMemType := if m_Dereference then "Mem" else "Addr"
  if m_spBaseExpr = none then
    withText (str m_spOffExpr) fun off =>
    .ok (pMemType ++ toString m_AccessSizeInBit ++ "(" ++ off ++ ")")
  else
    withText (str m_spBaseExpr) fun base =>
    withText (str m_spOffExpr) fun off =>
    .ok (pMemType ++ toString m_AccessSizeInBit ++ "(" ++ base ++ ":" ++ off ++ ")")

/-- The table `TypeToStr` of `SymbolicExpression::ToString` (line 1373). -/
def TypeToStr : List String := ["unknown", "retval", "parm", "undef"]

/-- Member `SymbolicExpression::ToString` (lines 1371-1379); `Undefined` is the
last of the four enumerators. -/
def SymbolicExpression.ToString (pr : Printing) (str : ToStringCall) (m_Type : Nat)
    (m_Value : String) (m_Address : Address) (m_spExpr : SPType) : Except Fault String :=
  if m_Type > 3 then .ok "<invalid symbolic expression>"
  else if m_spExpr = none then
    .ok ("Sym(" ++ TypeToStr.getD m_Type "" ++ ", \x22" ++ m_Value ++ "\x22, " ++
      pr.AddressToString m_Address ++ ")")
  else
    withText (str m_spExpr) fun e =>
    .ok ("Sym(" ++ TypeToStr.getD m_Type "" ++ ", \x22" ++ m_Value ++ "\x22, " ++
      pr.AddressToString m_Address ++ ", " ++ e ++ ")")

/-- Virtual dispatch of `ToString` on the object `node`. -/
def Expression.ToString (pr : Printing) (info : Nat → CpuInformation) (str : ToStringCall)
    (node : Expression) : Except Fault String :=
  match node with
  | .System m_Name m_Address => .ok (SystemExpression.ToString pr m_Name m_Address)
  | .Bind m_Expressions => BindExpression.ToString str m_Expressions
  | .TernaryCondition m_Type m_spRefExpr m_spTestExpr m_spTrueExpr m_spFalseExpr =>
    TernaryConditionExpression.ToString str m_Type m_spRefExpr m_spTestExpr m_spTrueExpr
      m_spFalseExpr
  | .IfElseCondition m_Type m_spRefExpr m_spTestExpr m_spThenExpr m_spElseExpr =>
    IfElseConditionExpression.ToString str m_Type m_spRefExpr m_spTestExpr m_spThenExpr
      m_spElseExpr
  | .WhileCondition m_Type m_spRefExpr m_spTestExpr m_spBodyExpr =>
    WhileConditionExpression.ToString str m_Type m_spRefExpr m_spTestExpr m_spBodyExpr
  | .Assignment m_spDstExpr m_spSrcExpr =>
    AssignmentExpression.ToString str m_spDstExpr m_spSrcExpr
  | .UnaryOperation m_OpType m_spExpr => UnaryOperationExpression.ToString str m_OpType m_spExpr
  | .BinaryOperation m_OpType m_spLeftExpr m_spRightExpr =>
    BinaryOperationExpression.ToString str m_OpType m_spLeftExpr m_spRightExpr
  | .BitVector m_Value => .ok (BitVectorExpression.ToString pr m_Value)
  | .Identifier m_Id m_pCpuInfo => .ok (IdentifierExpression.ToString pr info m_Id m_pCpuInfo)
  | .VectorIdentifier m_VecId m_pCpuInfo =>
    .ok (VectorIdentifierExpression.ToString pr m_VecId m_pCpuInfo)
  | .Track m_spTrkExpr m_CurAddr m_Pos =>
    TrackExpression.ToString pr str m_spTrkExpr m_CurAddr m_Pos
  | .Variable m_Name m_Action m_BitSize =>
    .ok (VariableExpression.ToString m_Name m_Action m_BitSize)
  | .Memory m_AccessSizeInBit m_spBaseExpr m_spOffExpr m_Dereference =>
    MemoryExpression.ToString str m_AccessSizeInBit m_spBaseExpr m_spOffExpr m_Dereference
  | .Symbolic m_Type m_Value m_Address m_spExpr =>
    SymbolicExpression.ToString pr str m_Type m_Value m_Address m_spExpr

/-- The call `this->ToString()` through a handle.  A fault on a null handle, one
unit of fuel per virtual call. -/
def ToString (pr : Printing) (info : Nat → CpuInformation) (heap : Heap) :
    Nat → SPType → Except Fault String
  | 0, _ => .error Fault.OutOfFuel
  | fuel + 1, this =>
    match deref heap this with
    | none => .error Fault.NullDereference
    | some node => Expression.ToString pr info (ToString pr info heap fuel) node

/-- The 22 binary operation codes of the data model (§3.3). -/
def binaryOps : List OpType :=
  [.OpXchg, .OpAnd, .OpOr, .OpXor, .OpLls, .OpLrs, .OpArs, .OpRol, .OpRor, .OpAdd, .OpAddFloat,
    .OpSub, .OpMul, .OpSDiv, .OpUDiv, .OpSMod, .OpUMod, .OpSext, .OpZext, .OpInsertBits,
    .OpExtractBits, .OpBcast]

/-- The symbol set the textual form documents for binary operations (§6.2). -/
def documentedSymbols : List String :=
  ["&", "|", "^", "<<", ">>\x7bu\x7d", ">>\x7bs\x7d", "rol", "ror", "+", "+\x7bf\x7d", "-", "*",
    "/\x7bs\x7d", "/\x7bu\x7d", "%\x7bs\x7d", "%\x7bu\x7d", "↗\x7bs\x7d", "↗\x7bz\x7d",
    "<insert_bits>", "<extract_bits>", "<bcast>"]

/-- The symbols of the ten comparison kinds as §6.2 lists them, in the order of
the kinds. -/
def comparisonSymbols : List String :=
  ["==", "!=", "u>", "u>=", "u<", "u<=", "s>", "s>=", "s<", "s<="]

/-- A rendering for examples: registers 0 and 1 are `eax` and `ebx`, an address
is rendered as `base:offset` and a value as `0x` with its decimal digits. -/
def examplePrinting : Printing where
  AddressToString := fun a => toString a.m_Base ++ ":" ++ toString a.m_Offset
  BitVectorToString := fun v => "0x" ++ toString v.m_Value
  ConvertIdentifierToName := fun _ Id =>
    if Id = 0 then some "eax" else if Id = 1 then some "ebx" else none

/-- Heap with `MakeBinOp(Xchg, id(eax), id(ebx))` at handle 2. -/
def exchangeRegisters : Heap :=
  [.Identifier 0 0, .Identifier 1 0, .BinaryOperation OpType.OpXchg (some 0) (some 1)]

/-- Heap with `MakeIfElseCond(Equal, id(eax), MakeBitVector(32, 1), thenE, elseE)`
at handle 4 and the same condition without an else branch at handle 5; `thenE`
and `elseE` are the registers `eax` and `ebx` (handles 0 and 2). -/
def branches : Heap :=
  [.Identifier 0 0, bitVector 32 1, .Identifier 1 0, bitVector 1 1,
    .IfElseCondition 1 (some 0) (some 1) (some 0) (some 2),
    .IfElseCondition 1 (some 0) (some 1) (some 0) none]

/-! ## The execution engine -/

/-- Modelled from the spec: the setter `Address::SetOffset`, of a header that is
not among the sources.  By §4.3 it assigns the offset of the address and keeps
its base. -/
def Address.SetOffset (a : Address) (Offset : Nat) : Address := ⟨a.m_Base, Offset⟩

/-- Modelled from the spec: the default constructor `Address()`, of a header
that is not among the sources: the address with base 0 and offset 0. -/
def Address.empty : Address := ⟨0, 0⟩

/-- An instruction cell as `Execution::Execute` uses it: its length in bytes, its
semantic (a list of expression handles) and its sub-type.  The class is declared
in a header that is not among the sources. -/
structure Instruction where
  GetLength : Nat
  GetSemantic : List SPType
  GetSubType : Nat
deriving DecidableEq, Repr

/-- Modelled from the spec: the sub-type `Instruction::NoneType` of an
instruction that is no branch, return or call; its value is not among the
sources and is taken as 0. -/
def Instruction.NoneType : Nat := 0

/-- The interface `Document` as `execution.cpp` uses it, over the type `ω` of the
states of everything outside the engine; the class is not among the sources, so
its behaviour is a parameter.  `GetCell` yields the result of the
`dynamic_pointer_cast<Instruction>` of the cell, `none` for `nullptr`;
`ConvertAddressToFileOffset` yields the offset, `none` for a false return;
`SetCell` is the call with `Force = true`; `GetLabelType` is
`GetLabelFromAddress(addr).GetType()`. -/
structure Document (ω : Type) where
  GetCell : ω → Address → Option Instruction
  ConvertAddressToFileOffset : ω → Address → Option Nat
  SetCell : ω → Address → Instruction → Bool × ω
  GetAddressFromLabelName : ω → String → Address
  GetLabelType : ω → Address → Nat
  GetMode : ω → Address → Nat

/-- The interface `Architecture` as `execution.cpp` uses it.  `Disassemble` takes
the file offset and the mode and reads the binary stream of the document; it
yields the instruction (`none` for a false return) and may allocate the
expressions of its semantic. -/
structure Architecture (ω : Type) where
  Disassemble : ω → Heap → Nat → Nat → Option Instruction × ω × Heap
  CurrentAddress : Address → Instruction → Address

/-- The interface `Emulator` as `execution.cpp` uses it.  `Execute` takes the
block address and the list of semantic expressions; `WriteMemory` takes the
address, the 64-bit buffer and the number of bytes; `AddHook` takes the address
to hook. -/
structure Emulator (ω : Type) where
  Execute : ω → Heap → Address → List SPType → Bool × ω × Heap
  WriteMemory : ω → Address → Nat → Nat → Bool × ω
  AddHook : ω → Nat → Bool × ω

/-- The members of an `Execution` object with what they refer to.  `GetMode` is
`m_pCpuCtxt->GetMode()`; `CpuInfo` is the object `m_pCpuInfo` points to,
`ProgramPointerRegister mode` its
`GetRegisterByType(CpuInformation::ProgramPointerRegister, mode)` and
`InvalidRegister` the constant `CpuInformation::InvalidRegister`; `GetOffsetSize`
is `Address::GetOffsetSize`, which the addresses of this model do not carry;
`m_spEmul` is `none` while no emulator is set. -/
structure Execution (ω : Type) where
  m_rDoc : Document ω
  m_spArch : Architecture ω
  m_pCpuCtxt : CpuContext ω
  GetMode : ω → Nat
  m_pCpuInfo : Nat
  CpuInfo : CpuInformation
  ProgramPointerRegister : Nat → Nat
  InvalidRegister : Nat
  GetOffsetSize : Address → Nat
  m_spEmul : Option (Emulator ω)

/-- Factory `Expr::MakeSys` (lines 1505-1508). -/
def Expr.MakeSys (heap : Heap) (rName : String) (rAddr : Address) : SPType × Heap :=
  make_shared heap (.System rName rAddr)

/-- Factory `Expr::MakeId` (lines 1440-1443). -/
def Expr.MakeId (heap : Heap) (Id : Nat) (pCpuInfo : Nat) : SPType × Heap :=
  make_shared heap (.Identifier Id pCpuInfo)

/-- Modelled from the spec: the factory `Expr::MakeConst(BitSize, Value)` is not
in `expression.cpp`; by §4.3 the program pointer is assigned the offset "sized by"
the offset size: a literal of that width and value. -/
def Expr.MakeConst (heap : Heap) (BitSize Value : Nat) : SPType × Heap :=
  make_shared heap (.BitVector (BitVector.construct BitSize Value))

/-- Factory `Expr::MakeAssign` (lines 1480-1483). -/
def Expr.MakeAssign (heap : Heap) (spDstExpr spSrcExpr : SPType) : SPType × Heap :=
  make_shared heap (.Assignment spDstExpr spSrcExpr)

/-- A call the engine makes on the document, the architecture, the CPU context
or the emulator, with its arguments; `Disassemble` also records the address
being lifted. -/
inductive Call
  | WriteRegister (Id Value Size : Nat)
  | ReadRegister (Id Size : Nat)
  | GetCell (a : Address)
  | ConvertAddressToFileOffset (a : Address)
  | Disassemble (a : Address) (Offset Mode : Nat)
  | SetCell (a : Address) (insn : Instruction)
  | EmulatorExecute (BlkAddr : Address) (Sems : List SPType)
deriving DecidableEq, Repr

/-- One step of a run: the state and the heap in which the call was made. -/
structure Step (ω : Type) where
  world : ω
  heap : Heap
  call : Call

/-- How a run of `Execute` ended: the function returned, the fuel of the model
ran out, or a null handle was dereferenced. -/
inductive Ending
  | Returned
  | OutOfFuel
  | Faulted (f : Fault)
deriving DecidableEq, Repr

/-- A run of `Execute`: how it ended, the state and the heap it left, and the
calls it made in order. -/
structure Run (ω : Type) where
  ended : Ending
  world : ω
  heap : Heap
  trace : List (Step ω)

/-- The run `r` after the calls `steps` were made. -/
def Run.after {ω : Type} (steps : List (Step ω)) (r : Run ω) : Run ω :=
  ⟨r.ended, r.world, r.heap, steps ++ r.trace⟩

/-- Lines 80-114 of `Execution::Execute`: the instruction cell at `CurAddr`,
disassembled and stored first when the document has none; `none` when the
function returns. -/
def Execution.Fetch {ω : Type} (ex : Execution ω) (world : ω) (heap : Heap) (CurAddr : Address) :
    Option Instruction × ω × Heap × List (Step ω) :=
  match ex.m_rDoc.GetCell world CurAddr with
  | some _ =>
    (ex.m_rDoc.GetCell world CurAddr, world, heap,
      [⟨world, heap, .GetCell CurAddr⟩, ⟨world, heap, .GetCell CurAddr⟩])
  | none =>
    match ex.m_rDoc.ConvertAddressToFileOffset world CurAddr with
    | none =>
      (none, world, heap,
        [⟨world, heap, .GetCell CurAddr⟩, ⟨world, heap, .ConvertAddressToFileOffset CurAddr⟩])
    | some CurOff =>
      match ex.m_spArch.Disassemble world heap CurOff (ex.GetMode world) with
      | (none, world1, heap1) =>
        (none, world1, heap1,
          [⟨world, heap, .GetCell CurAddr⟩, ⟨world, heap, .ConvertAddressToFileOffset CurAddr⟩,
            ⟨world, heap, .Disassemble CurAddr CurOff (ex.GetMode world)⟩])
      | (some spInsn, world1, heap1) =>
        match ex.m_rDoc.SetCell world1 CurAddr spInsn with
        | (false, world2) =>
          (none, world2, heap1,
            [⟨world, heap, .GetCell CurAddr⟩, ⟨world, heap, .ConvertAddressToFileOffset CurAddr⟩,
              ⟨world, heap, .Disassemble CurAddr CurOff (ex.GetMode world)⟩,
              ⟨world1, heap1, .SetCell CurAddr spInsn⟩])
        | (true, world2) =>
          (ex.m_rDoc.GetCell world2 CurAddr, world2, heap1,
            [⟨world, heap, .GetCell CurAddr⟩, ⟨world, heap, .ConvertAddressToFileOffset CurAddr⟩,
              ⟨world, heap, .Disassemble CurAddr CurOff (ex.GetMode world)⟩,
              ⟨world1, heap1, .SetCell CurAddr spInsn⟩, ⟨world2, heap1, .GetCell CurAddr⟩])

/-- The loop of lines 133-136: each expression of the semantic is cloned in
order and pushed to the back. -/
def Execution.CloneSemantic (clone : CloneCall) :
    Heap → List SPType → Except Fault (List SPType × Heap)
  | heap, [] => .ok ([], heap)
  | heap, spExpr :: rest =>
    match clone heap spExpr with
    | .error f => .error f
    | .ok (c, heap1) =>
      match Execution.CloneSemantic clone heap1 rest with
      | .error f => .error f
      | .ok (cs, heap2) => .ok (c :: cs, heap2)

/-- Lines 116-138 of `Execution::Execute`: the expressions pushed to `Sems` for
the instruction `spCurInsn` at `CurAddr`.  In `MakeAssign(MakeId(..),
MakeConst(..))` the identifier is allocated first. -/
def Execution.Lift {ω : Type} (ex : Execution ω) (clone : CloneCall) (ProgPtrReg : Nat)
    (heap : Heap) (CurAddr : Address) (spCurInsn : Instruction) :
    Except Fault (List SPType × Heap) :=
  let PcAddr := ex.m_spArch.CurrentAddress CurAddr spCurInsn
  let (sys, heap1) := Expr.MakeSys heap "dump_insn" CurAddr
  let (id, heap2) := Expr.MakeId heap1 ProgPtrReg ex.m_pCpuInfo
  let (const, heap3) := Expr.MakeConst heap2 (ex.GetOffsetSize PcAddr) PcAddr.GetOffset
  let (asg, heap4) := Expr.MakeAssign heap3 id const
  match Execution.CloneSemantic clone heap4 spCurInsn.GetSemantic with
  | .error f => .error f
  | .ok (clones, heap5) =>
    let (hook, heap6) := Expr.MakeSys heap5 "check_exec_hook" Address.empty
    .ok ([sys, asg] ++ clones ++ [hook], heap6)

/-- The two loops of `Execution::Execute` (lines 75-157), entered at the top of
the inner loop with the expressions `Sems` of the current block; one unit of
fuel per instruction.  `BlkAddr` is assigned before the outer loop (line 74) and
not inside it.  The offset of `CurAddr` is advanced in `TOffset` arithmetic. -/
def Execution.Loop {ω : Type} (ex : Execution ω) (emul : Emulator ω) (clone : CloneCall)
    (ProgPtrReg ProgPtrRegSize : Nat) (BlkAddr : Address) :
    Nat → ω → Heap → Address → List SPType → Run ω
  | 0, world, heap, _, _ => ⟨.OutOfFuel, world, heap, []⟩
  | fuel + 1, world, heap, CurAddr, Sems =>
    match Execution.Fetch ex world heap CurAddr with
    | (none, world1, heap1, steps) => ⟨.Returned, world1, heap1, steps⟩
    | (some spCurInsn, world1, heap1, steps) =>
      match Execution.Lift ex clone ProgPtrReg heap1 CurAddr spCurInsn with
      | .error f => ⟨.Faulted f, world1, heap1, steps⟩
      | .ok (pushed, heap2) =>
        let CurAddr1 :=
          CurAddr.SetOffset ((CurAddr.GetOffset + spCurInsn.GetLength) % 2 ^ TOffsetBits)
        if spCurInsn.GetSubType ≠ Instruction.NoneType then
          match emul.Execute world1 heap2 BlkAddr (Sems ++ pushed) with
          | (false, world2, heap3) =>
            ⟨.Returned, world2, heap3,
              steps ++ [⟨world1, heap2, .EmulatorExecute BlkAddr (Sems ++ pushed)⟩]⟩
          | (true, world2, heap3) =>
            match ex.m_pCpuCtxt.ReadRegister world2 ProgPtrReg ProgPtrRegSize with
            | none =>
              ⟨.Returned, world2, heap3,
                steps ++ [⟨world1, heap2, .EmulatorExecute BlkAddr (Sems ++ pushed)⟩,
                  ⟨world2, heap3, .ReadRegister ProgPtrReg ProgPtrRegSize⟩]⟩
            | some NextInsn =>
              (Execution.Loop ex emul clone ProgPtrReg ProgPtrRegSize BlkAddr fuel world2 heap3
                (CurAddr1.SetOffset NextInsn) []).after
                (steps ++ [⟨world1, heap2, .EmulatorExecute BlkAddr (Sems ++ pushed)⟩,
                  ⟨world2, heap3, .ReadRegister ProgPtrReg ProgPtrRegSize⟩])
        else
          (Execution.Loop ex emul clone ProgPtrReg ProgPtrRegSize BlkAddr fuel world1 heap2
            CurAddr1 (Sems ++ pushed)).after steps

/-- Member `Execution::Execute` (lines 56-158) run in state `world` on heap
`heap`, with `clone` the virtual call `spExpr->Clone()`. -/
def Execution.Execute {ω : Type} (ex : Execution ω) (clone : CloneCall) (fuel : Nat) (world : ω)
    (heap : Heap) (rAddr : Address) : Run ω :=
  match ex.m_spEmul with
  | none => ⟨.Returned, world, heap, []⟩
  | some emul =>
    let CurAddr := rAddr
    let ProgPtrReg := ex.ProgramPointerRegister (ex.GetMode world)
    if ProgPtrReg = ex.InvalidRegister then ⟨.Returned, world, heap, []⟩
    else
      let ProgPtrRegSize := ex.CpuInfo.GetSizeOfRegisterInBit ProgPtrReg
      if ProgPtrRegSize < 8 then ⟨.Returned, world, heap, []⟩
      else
        let CurInsn := rAddr.GetOffset
        match ex.m_pCpuCtxt.WriteRegister world ProgPtrReg CurInsn ProgPtrRegSize with
        | (false, world1) =>
          ⟨.Returned, world1, heap, [⟨world, heap, .WriteRegister ProgPtrReg CurInsn ProgPtrRegSize⟩]⟩
        | (true, world1) =>
          (Execution.Loop ex emul clone ProgPtrReg ProgPtrRegSize CurAddr fuel world1 heap CurAddr
            []).after [⟨world, heap, .WriteRegister ProgPtrReg CurInsn ProgPtrRegSize⟩]

/-- The addresses for which a run called `Disassemble`, in order. -/
def disassembledAt {ω : Type} (trace : List (Step ω)) : List Address :=
  trace.filterMap fun step =>
    match step.call with
    | .Disassemble a _ _ => some a
    | _ => none

/-- Nothing removes an instruction cell: a cell the document holds before a call
of `SetCell`, of `Disassemble` or of the emulator is still held after it. -/
def keepsCells {ω : Type} (ex : Execution ω) (emul : Emulator ω) : Prop :=
  (∀ w a insn b w1 a1, ex.m_rDoc.SetCell w a insn = (b, w1) →
    ex.m_rDoc.GetCell w a1 ≠ none → ex.m_rDoc.GetCell w1 a1 ≠ none) ∧
  (∀ w heap CurOff Mode r w1 heap1 a1,
    ex.m_spArch.Disassemble w heap CurOff Mode = (r, w1, heap1) →
    ex.m_rDoc.GetCell w a1 ≠ none → ex.m_rDoc.GetCell w1 a1 ≠ none) ∧
  (∀ w heap BlkAddr Sems b w1 heap1 a1, emul.Execute w heap BlkAddr Sems = (b, w1, heap1) →
    ex.m_rDoc.GetCell w a1 ≠ none → ex.m_rDoc.GetCell w1 a1 ≠ none)

/-- One lifted instruction of a block: its address, the instruction, and the
expressions it contributed to the block. -/
structure Lifted where
  addr : Address
  insn : Instruction
  pushed : List SPType

/-- What an instruction contributes to a block, in the words of the contract and
read in `heap`: the `dump_insn` marker of its address, the assignment of the
constant `pc_after` to the program-pointer identifier, the clones of its
semantic in order, and the `check_exec_hook` marker.  The clones are the handles
the cloning of the semantic returned on a heap `heapA` that holds the
assignment, and `heap` starts with `heapA` and with the heap `heapB` the cloning
left: every object of `heapB`, so every object the cloning made, is in `heap`
at its handle as the cloning made it, and what was cloned is in `heap` as it was
cloned. -/
def liftedAs {ω : Type} (ex : Execution ω) (clone : CloneCall) (ProgPtrReg : Nat) (heap : Heap)
    (l : Lifted) : Prop :=
  ∃ sys asg hook dst src clones heapA heapB,
    l.pushed = [sys, asg] ++ clones ++ [hook] ∧
    deref heap sys = some (.System "dump_insn" l.addr) ∧
    deref heap asg = some (.Assignment dst src) ∧
    deref heap dst = some (.Identifier ProgPtrReg ex.m_pCpuInfo) ∧
    deref heap src = some (.BitVector (BitVector.construct
      (ex.GetOffsetSize (ex.m_spArch.CurrentAddress l.addr l.insn))
      (ex.m_spArch.CurrentAddress l.addr l.insn).GetOffset)) ∧
    Execution.CloneSemantic clone heapA l.insn.GetSemantic = .ok (clones, heapB) ∧
    deref heapA asg = some (.Assignment dst src) ∧
    heapA <+: heapB ∧
    heapB <+: heap ∧
    (∀ c ∈ clones, ∀ node, deref heapB c = some node → deref heap c = some node) ∧
    deref heap hook = some (.System "check_exec_hook" Address.empty)

/-- State of a small machine: the value of the program pointer and the
instruction cells of the document, keyed by offset. -/
structure ToyWorld where
  pc : Nat
  cells : List (Nat × Instruction)
deriving DecidableEq, Repr

/-- The file of the small machine, by offset: at 16 an instruction of length 1
with the expression at handle 2 as its semantic, at 17 a jump of length 2, at 32
a return of length 1. -/
def toyFile : List (Nat × Instruction) :=
  [(16, ⟨1, [some 2], 0⟩), (17, ⟨2, [], 1⟩), (32, ⟨1, [], 2⟩)]

/-- The emulator of the small machine: the block run with the program pointer at
16 jumps to 32, and any other block fails. -/
def toyEmulator : Emulator ToyWorld where
  Execute := fun w heap _ _ => if w.pc = 16 then (true, ⟨32, w.cells⟩, heap) else (false, w, heap)
  WriteMemory := fun w _ _ _ => (false, w)
  AddHook := fun w _ => (false, w)

/-- The engine of the small machine.  The document keeps the cells it is given
and maps an address to the file offset equal to its offset; the architecture
decodes `toyFile`; register 1, of 32 bits, is the program pointer. -/
def toyExecution : Execution ToyWorld where
  m_rDoc :=
    { GetCell := fun w a => w.cells.lookup a.m_Offset
      ConvertAddressToFileOffset := fun _ a => if a.m_Offset < 64 then some a.m_Offset else none
      SetCell := fun w a insn => (true, ⟨w.pc, (a.m_Offset, insn) :: w.cells⟩)
      GetAddressFromLabelName := fun _ _ => Address.empty
      GetLabelType := fun _ _ => 0
      GetMode := fun _ _ => 0 }
  m_spArch :=
    { Disassemble := fun w heap CurOff _ => (toyFile.lookup CurOff, w, heap)
      CurrentAddress := fun a insn => ⟨a.m_Base, a.m_Offset + insn.GetLength⟩ }
  m_pCpuCtxt :=
    { ReadRegister := fun w Id _ => if Id = 1 then some w.pc else none
      WriteRegister := fun w Id Value Size =>
        if Id = 1 then (true, ⟨Value % 2 ^ Size, w.cells⟩) else (false, w)
      Translate := fun _ _ => none }
  GetMode := fun _ => 0
  m_pCpuInfo := 0
  CpuInfo := ⟨fun _ => 32⟩
  ProgramPointerRegister := fun _ => 1
  InvalidRegister := 0
  GetOffsetSize := fun _ => 32
  m_spEmul := some toyEmulator

/-- The heap of the small machine when its first block is handed to the emulator:
`assignRegister` followed by what the instructions at 16 and 17 contributed. -/
def toyHeapAtJump : Heap :=
  assignRegister ++
    [.System "dump_insn" ⟨0, 16⟩, .Identifier 1 0, bitVector 32 17, .Assignment (some 5) (some 6),
      .Identifier 0 0, bitVector 32 1, .Assignment (some 8) (some 9),
      .System "check_exec_hook" Address.empty,
      .System "dump_insn" ⟨0, 17⟩, .Identifier 1 0, bitVector 32 19,
      .Assignment (some 13) (some 14), .System "check_exec_hook" Address.empty]

/-- The heap `toyHeapAtJump` with the three objects that the cloning of the
semantic of the instruction at 16 made, at handles 8, 9 and 10, overwritten. -/
def toyHeapOverwritten : Heap :=
  ((toyHeapAtJump.set 8 (.System "overwritten" Address.empty)).set 9
    (.System "overwritten" Address.empty)).set 10 (.System "overwritten" Address.empty)

/-- The block addresses of a run: for each call of the emulator, the block
address passed and the first expression of the block, read in the heap of the
call. -/
def blockStarts {ω : Type} (trace : List (Step ω)) : List (Address × Option Expression) :=
  trace.filterMap fun step =>
    match step.call with
    | .EmulatorExecute BlkAddr Sems => some (BlkAddr, deref step.heap Sems.head?.join)
    | _ => none


/-! ## Write and GetAddress through a handle -/

/-- Member `IdentifierExpression::GetAddress` (lines 990-993). -/
def IdentifierExpression.GetAddress : Bool := false

/-- Member `VectorIdentifierExpression::GetAddress` (lines 1085-1088). -/
def VectorIdentifierExpression.GetAddress : Bool := false

/-- Modelled from the spec: the inherited `Expression::Write` is defined in
`medusa/expression.hpp`, which is not among the sources.  It is what the classes
without a `Write` in `expression.cpp` run; by §4.2 only location-typed
expressions are written, and the inherited member is taken to return false. -/
def Expression.WriteDefault : Bool := false

/-- Modelled from the spec: the inherited `Expression::GetAddress`, of the same
absent header, taken to return false like `Expression.WriteDefault`. -/
def Expression.GetAddressDefault : Bool := false

/-- Virtual dispatch of `Write` on the object `node`: the flag, the CPU and
memory states and the container after the call.  No `Write` of
`expression.cpp` assigns to a data member, so the heap is not part of the
result. -/
def Expression.Write {σ μ : Type} (rt : Runtime σ μ) (heap : Heap) (cpu : σ) (mem : μ)
    (read : ReadCall) (node : Expression) (rData : DataContainerType) :
    Except Fault (Bool × σ × μ × DataContainerType) :=
  match node with
  | .BitVector _ => .ok (BitVectorExpression.Write, cpu, mem, rData)
  | .Identifier m_Id m_pCpuInfo =>
    match IdentifierExpression.Write rt cpu m_Id m_pCpuInfo rData with
    | .error f => .error f
    | .ok (flag, cpu1, rData1) => .ok (flag, cpu1, mem, rData1)
  | .VectorIdentifier m_VecId m_pCpuInfo =>
    match VectorIdentifierExpression.Write rt cpu m_VecId m_pCpuInfo rData with
    | (flag, cpu1, rData1) => .ok (flag, cpu1, mem, rData1)
  | .Memory _ m_spBaseExpr m_spOffExpr m_Dereference =>
    match MemoryExpression.Write rt heap cpu mem read m_spBaseExpr m_spOffExpr m_Dereference
        rData with
    | .error f => .error f
    | .ok (flag, cpu1, mem1) => .ok (flag, cpu1, mem1, rData)
  | _ => .ok (Expression.WriteDefault, cpu, mem, rData)

/-- The call `this->Write(pCpuCtxt, pMemCtxt, rData)` through a handle.  A fault
on a null handle; the reads of a Memory node get the fuel that is left. -/
def Write {σ μ : Type} (rt : Runtime σ μ) (heap : Heap) (cpu : σ) (mem : μ) :
    Nat → SPType → DataContainerType → Except Fault (Bool × σ × μ × DataContainerType)
  | 0, _, _ => .error Fault.OutOfFuel
  | fuel + 1, this, rData =>
    match deref heap this with
    | none => .error Fault.NullDereference
    | some node => Expression.Write rt heap cpu mem (Read rt cpu mem heap fuel) node rData

/-- Virtual dispatch of `GetAddress` on the object `node`: the flag and the
content of `rAddress` after the call. -/
def Expression.GetAddress (read : ReadCall) (node : Expression) (rAddress : Address) :
    Except Fault (Bool × Address) :=
  match node with
  | .BitVector _ => .ok (BitVectorExpression.GetAddress, rAddress)
  | .Identifier _ _ => .ok (IdentifierExpression.GetAddress, rAddress)
  | .VectorIdentifier _ _ => .ok (VectorIdentifierExpression.GetAddress, rAddress)
  | .Memory _ m_spBaseExpr m_spOffExpr _ =>
    match MemoryExpression.GetAddress read m_spBaseExpr m_spOffExpr with
    | .error f => .error f
    | .ok none => .ok (false, rAddress)
    | .ok (some a) => .ok (true, a)
  | _ => .ok (Expression.GetAddressDefault, rAddress)

/-- The call `this->GetAddress(pCpuCtxt, pMemCtxt, rAddress)` through a handle.
The contexts are only read. -/
def GetAddress {σ μ : Type} (rt : Runtime σ μ) (cpu : σ) (mem : μ) (heap : Heap) :
    Nat → SPType → Address → Except Fault (Bool × Address)
  | 0, _, _ => .error Fault.OutOfFuel
  | fuel + 1, this, rAddress =>
    match deref heap this with
    | none => .error Fault.NullDereference
    | some node => Expression.GetAddress (Read rt cpu mem heap fuel) node rAddress

/-! ## The end of a block -/

/-- What follows a call of the emulator in a run, in the words of the contract:
`post` are the calls after the call `step` of a run that ended as `ended`.
After a false return nothing follows.  After a true return the program pointer
is read back in the state the emulator left; when that fails nothing follows,
and otherwise the next call fetches the cell at the given base with the value
read as its offset, unless the fuel of the model ended the run there. -/
def afterBlock {ω : Type} (ex : Execution ω) (emul : Emulator ω)
    (ProgPtrReg ProgPtrRegSize : Nat) (base : Nat) (ended : Ending) (step : Step ω)
    (BlkAddr : Address) (Sems : List SPType) (post : List (Step ω)) : Prop :=
  ((emul.Execute step.world step.heap BlkAddr Sems).1 = false → post = []) ∧
  (∀ world2 heap3, emul.Execute step.world step.heap BlkAddr Sems = (true, world2, heap3) →
    ∃ post1, post = ⟨world2, heap3, .ReadRegister ProgPtrReg ProgPtrRegSize⟩ :: post1 ∧
      (ex.m_pCpuCtxt.ReadRegister world2 ProgPtrReg ProgPtrRegSize = none → post1 = []) ∧
      (∀ NextInsn, ex.m_pCpuCtxt.ReadRegister world2 ProgPtrReg ProgPtrRegSize = some NextInsn →
        (post1 = [] ∧ ended = Ending.OutOfFuel) ∨
        ∃ rest, post1 = ⟨world2, heap3, .GetCell ⟨base, NextInsn⟩⟩ :: rest))

/-! ## Function hooks -/

/-- A `CpuInformation` object with the lookup `HookFunction` and `GetHookName`
make on it: `ProgramPointerRegister mode` is
`GetRegisterByType(CpuInformation::ProgramPointerRegister, mode)`. -/
structure CpuDictionary where
  Info : CpuInformation
  ProgramPointerRegister : Nat → Nat

/-- What `HookFunction` and `GetHookName` reach besides the members `Execute`
uses: `ArchCpuInformation` is `m_spArch->GetCpuInformation()`, `none` for
`nullptr`; `ContextCpuInformation` is `m_pCpuCtxt->GetCpuInformation()`;
`Imported` and `Function` are the bits `Label::Imported` and `Label::Function`,
whose values are not among the sources. -/
structure HookSetting where
  ArchCpuInformation : Option CpuDictionary
  ContextCpuInformation : CpuDictionary
  Imported : Nat
  Function : Nat

/-- The state `HookFunction` changes: the table `m_HookName`, a map from `u64`
keys to names given by what `find` yields for a key, and the counter
`s_FakeAddr`, a `static u64`. -/
structure HookState where
  m_HookName : Nat → Option String
  s_FakeAddr : Nat

/-- The state before the first call: an empty table, and the counter at its
initializer `0xdead7700` (line 173). -/
def HookState.initial : HookState := ⟨fun _ => none, 0xdead7700⟩

/-- The assignment `m_HookName[key] = name`. -/
def assignHook (table : Nat → Option String) (key : Nat) (name : String) : Nat → Option String :=
  fun k => if k = key then some name else table k

/-- Member `Execution::HookFunction` (lines 168-202) run in state `world` with
the hook state `hooks`: the flag, and the states after the call.  The callback
is passed on to the emulator and is not modelled. -/
def Execution.HookFunction {ω : Type} (ex : Execution ω) (setting : HookSetting) (world : ω)
    (hooks : HookState) (rFuncName : String) : Bool × ω × HookState :=
  match ex.m_spEmul with
  | none => (false, world, hooks)
  | some emul =>
    let rAddr := ex.m_rDoc.GetAddressFromLabelName world rFuncName
    if ex.m_rDoc.GetLabelType world rAddr &&& (setting.Imported ||| setting.Function) = 0 then
      (false, world, hooks)
    else
      match setting.ArchCpuInformation with
      | none => (false, world, hooks)
      | some pCpuInfo =>
        let PcSize :=
          pCpuInfo.Info.GetSizeOfRegisterInBit
            (pCpuInfo.ProgramPointerRegister (ex.m_rDoc.GetMode world rAddr)) / 8
        if PcSize = 0 then (false, world, hooks)
        else
          match emul.WriteMemory world rAddr hooks.s_FakeAddr PcSize with
          | (false, world1) => (false, world1, hooks)
          | (true, world1) =>
            match emul.AddHook world1 hooks.s_FakeAddr with
            | (false, world2) =>
              (false, world2, ⟨assignHook hooks.m_HookName hooks.s_FakeAddr rFuncName,
                hooks.s_FakeAddr⟩)
            | (true, world2) =>
              (true, world2, ⟨assignHook hooks.m_HookName hooks.s_FakeAddr rFuncName,
                (hooks.s_FakeAddr + 4) % 2 ^ 64⟩)

/-- Member `Execution::GetHookName` (lines 204-221) in state `world` with the
hook state `hooks`: the name returned, and the hook state after the call. -/
def Execution.GetHookName {ω : Type} (ex : Execution ω) (setting : HookSetting) (world : ω)
    (hooks : HookState) : String × HookState :=
  let PrgReg := setting.ContextCpuInformation.ProgramPointerRegister (ex.GetMode world)
  if PrgReg = 0 then ("", hooks)
  else
    let PrgRegSize := setting.ContextCpuInformation.Info.GetSizeOfRegisterInBit PrgReg
    if PrgRegSize = 0 then ("", hooks)
    else
      match ex.m_pCpuCtxt.ReadRegister world PrgReg PrgRegSize with
      | none => ("", hooks)
      | some PrgRegVal =>
        match hooks.m_HookName PrgRegVal with
        | none => ("", hooks)
        | some name => (name, hooks)

/-- A sequence of `HookFunction` calls, given by the names, each run in the
states the previous one left: for each call the fake address it registered its
hook at, or `none` when it returned false, and the states after the last call. -/
def Execution.HookFunctions {ω : Type} (ex : Execution ω) (setting : HookSetting) :
    ω → HookState → List String → List (Option Nat) × ω × HookState
  | world, hooks, [] => ([], world, hooks)
  | world, hooks, rFuncName :: rest =>
    match Execution.HookFunction ex setting world hooks rFuncName with
    | (flag, world1, hooks1) =>
      match Execution.HookFunctions ex setting world1 hooks1 rest with
      | (log, world2, hooks2) =>
        ((if flag then some hooks.s_FakeAddr else none) :: log, world2, hooks2)

/-- State of a small emulator with hooks: the memory writes made, as triples of
offset, value and byte count, and the addresses hooked, both latest first, and
the value of the program pointer register. -/
structure HookWorld where
  written : List (Nat × Nat × Nat)
  hooked : List Nat
  pc : Nat
deriving DecidableEq, Repr

/-- The small emulator with hooks: a memory write is recorded and succeeds, and
a hook is recorded and accepted while fewer than `room` addresses are hooked. -/
def hookEmulator (room : Nat) : Emulator HookWorld where
  Execute := fun w heap _ _ => (false, w, heap)
  WriteMemory := fun w a Value Size =>
    (true, ⟨(a.m_Offset, Value, Size) :: w.written, w.hooked, w.pc⟩)
  AddHook := fun w a =>
    if w.hooked.length < room then (true, ⟨w.written, a :: w.hooked, w.pc⟩) else (false, w)

/-- An engine over the small emulator with hooks.  The document has the imported
label `puts` at offset 4096 and the function label `main` at offset 8192 (label
types 1 and 2), and no label elsewhere; there are no cells, and register 1 is
the only register. -/
def hookExecution (room : Nat) : Execution HookWorld where
  m_rDoc :=
    { GetCell := fun _ _ => none
      ConvertAddressToFileOffset := fun _ _ => none
      SetCell := fun w _ _ => (false, w)
      GetAddressFromLabelName := fun _ name =>
        if name = "puts" then ⟨0, 4096⟩ else if name = "main" then ⟨0, 8192⟩ else Address.empty
      GetLabelType := fun _ a =>
        if a.m_Offset = 4096 then 1 else if a.m_Offset = 8192 then 2 else 0
      GetMode := fun _ _ => 0 }
  m_spArch :=
    { Disassemble := fun w heap _ _ => (none, w, heap)
      CurrentAddress := fun a _ => a }
  m_pCpuCtxt :=
    { ReadRegister := fun w Reg _ => if Reg = 1 then some w.pc else none
      WriteRegister := fun w Reg Value _ =>
        if Reg = 1 then (true, ⟨w.written, w.hooked, Value⟩) else (false, w)
      Translate := fun _ _ => none }
  GetMode := fun _ => 0
  m_pCpuInfo := 1
  CpuInfo := ⟨fun _ => 32⟩
  ProgramPointerRegister := fun _ => 1
  InvalidRegister := 0
  GetOffsetSize := fun _ => 32
  m_spEmul := some (hookEmulator room)

/-- The setting of the small engine: one CPU information with 32-bit registers
and register 1 as program pointer; the label bits are 1 and 2. -/
def hookSetting : HookSetting where
  ArchCpuInformation := some ⟨⟨fun _ => 32⟩, fun _ => 1⟩
  ContextCpuInformation := ⟨⟨fun _ => 32⟩, fun _ => 1⟩
  Imported := 1
  Function := 2


/-! ## Lemmas on Compare -/

theorem requireIdentical_eq_different (r k : Except Fault CompareType) :
    requireIdentical r k = .ok CompareType.CmpDifferent ↔
      r = .ok CompareType.CmpIdentical ∧ k = .ok CompareType.CmpDifferent := by
  unfold requireIdentical
  split
  · simp
  · rename_i c
    by_cases hc : c = CompareType.CmpIdentical <;> simp [hc]

theorem CompareLoop_ne_different (cmp : CompareCall) (it : SPType) (es : List SPType) :
    BindExpression.CompareLoop cmp it es ≠ .ok CompareType.CmpDifferent := by
  induction es with
  | nil => simp [BindExpression.CompareLoop]
  | cons e rest ih =>
    simp only [BindExpression.CompareLoop, ne_eq, requireIdentical_eq_different]
    exact fun h => ih h.2

theorem expr_cast_some (heap : Heap) (k : Kind) (b : Handle) (nb : Expression)
    (hb : heap[b]? = some nb) :
    expr_cast heap k (some b) = if nb.IsKindOf k then some nb else none := by
  simp [expr_cast, deref, hb]

theorem Expression_Compare_different_iff (heap : Heap) (cmp : CompareCall) (b : Handle)
    (na nb : Expression) (hb : heap[b]? = some nb) :
    Expression.Compare heap cmp na (some b) = .ok CompareType.CmpDifferent ↔
      na.GetClassKind ≠ nb.GetClassKind := by
  cases na <;> cases nb <;>
    simp only [Expression.Compare, SystemExpression.Compare, BindExpression.Compare,
      TernaryConditionExpression.Compare, IfElseConditionExpression.Compare,
      WhileConditionExpression.Compare, AssignmentExpression.Compare,
      UnaryOperationExpression.Compare, BinaryOperationExpression.Compare,
      BitVectorExpression.Compare, IdentifierExpression.Compare,
      VectorIdentifierExpression.Compare, TrackExpression.Compare, VariableExpression.Compare,
      MemoryExpression.Compare, SymbolicExpression.Compare,
      expr_cast_some heap _ b _ hb, Expression.IsKindOf, Expression.GetClassKind] <;>
    simp [requireIdentical_eq_different, CompareLoop_ne_different] <;>
    split_ifs <;> simp [requireIdentical_eq_different, CompareLoop_ne_different]

/-! ## Lemmas on UpdateChild -/

theorem returnIfUpdated_contractResult (heap : Heap) (spNewExpr : SPType)
    (r : Except Fault (Option Slot)) (k : Heap → Except Fault (Bool × Heap)) :
    returnIfUpdated (contractResult heap spNewExpr r) k =
      match r with
      | .error f => .error f
      | .ok (some slot) => .ok (true, substitute heap slot spNewExpr)
      | .ok none => k heap := by
  rcases r with f | (_ | s) <;> rfl

theorem firstFound_cons (search : SPType → Except Fault (Option Slot)) (c : SPType)
    (rest : List SPType) :
    firstFound search (c :: rest) =
      match search c with
      | .error f => .error f
      | .ok (some s) => .ok (some s)
      | .ok none => firstFound search rest := rfl

theorem BinaryOperation_UpdateChild_contract (heap : Heap) (upd : UpdateCall)
    (search : SPType → Except Fault (Option Slot)) (spOldExpr spNewExpr : SPType)
    (hupd : ∀ c, upd heap c = contractResult heap spNewExpr (search c))
    (h : Handle) (op : OpType) (l r : SPType)
    (hn : heap[h]? = some (.BinaryOperation op l r)) :
    BinaryOperationExpression.UpdateChild upd heap h op l r spOldExpr spNewExpr =
      contractResult heap spNewExpr
        (if spOldExpr ∈ [l, r] then .ok (some (h, firstIndex spOldExpr [l, r]))
         else firstFound search [l, r]) := by
  unfold BinaryOperationExpression.UpdateChild
  simp only [hupd, returnIfUpdated_contractResult]
  by_cases h1 : l = spOldExpr
  · subst h1
    simp [contractResult, substitute, hn, Expression.setChild, firstIndex]
  · by_cases h2 : r = spOldExpr
    · subst h2
      simp [h1, Ne.symm h1, contractResult, substitute, hn, Expression.setChild, firstIndex]
    · simp only [h1, h2, Ne.symm h1, Ne.symm h2, if_false, List.mem_cons, List.not_mem_nil,
        or_false, firstFound_cons, firstFound]
      rcases search l with f | (_ | s) <;> simp [contractResult]
      rcases search r with f | (_ | s) <;> simp [contractResult]

theorem Assignment_UpdateChild_contract (heap : Heap) (upd : UpdateCall)
    (search : SPType → Except Fault (Option Slot)) (spOldExpr spNewExpr : SPType)
    (hupd : ∀ c, upd heap c = contractResult heap spNewExpr (search c))
    (h : Handle) (dst src : SPType)
    (hn : heap[h]? = some (.Assignment dst src)) :
    AssignmentExpression.UpdateChild upd heap h dst src spOldExpr spNewExpr =
      contractResult heap spNewExpr
        (if spOldExpr ∈ [dst, src] then .ok (some (h, firstIndex spOldExpr [dst, src]))
         else firstFound search [dst, src]) := by
  unfold AssignmentExpression.UpdateChild
  simp only [hupd, returnIfUpdated_contractResult]
  by_cases h1 : dst = spOldExpr
  · subst h1
    simp [contractResult, substitute, hn, Expression.setChild, firstIndex]
  · by_cases h2 : src = spOldExpr
    · subst h2
      simp [h1, Ne.symm h1, contractResult, substitute, hn, Expression.setChild, firstIndex]
    · simp only [h1, h2, Ne.symm h1, Ne.symm h2, if_false, List.mem_cons, List.not_mem_nil,
        or_false, firstFound_cons, firstFound]
      rcases search dst with f | (_ | s) <;> simp [contractResult]
      rcases search src with f | (_ | s) <;> simp [contractResult]

theorem WhileCondition_UpdateChild_contract (heap : Heap) (upd : UpdateCall)
    (search : SPType → Except Fault (Option Slot)) (spOldExpr spNewExpr : SPType)
    (hupd : ∀ c, upd heap c = contractResult heap spNewExpr (search c))
    (h : Handle) (ty : Nat) (ref test body : SPType)
    (hn : heap[h]? = some (.WhileCondition ty ref test body)) :
    WhileConditionExpression.UpdateChild upd heap h ty ref test body spOldExpr spNewExpr =
      contractResult heap spNewExpr
        (if spOldExpr ∈ [ref, test, body] then
          .ok (some (h, firstIndex spOldExpr [ref, test, body]))
         else firstFound search [ref, test, body]) := by
  unfold WhileConditionExpression.UpdateChild
  simp only [hupd, returnIfUpdated_contractResult]
  by_cases h1 : ref = spOldExpr
  · subst h1
    simp [contractResult, substitute, hn, Expression.setChild, firstIndex]
  · by_cases h2 : test = spOldExpr
    · subst h2
      simp [h1, Ne.symm h1, contractResult, substitute, hn, Expression.setChild, firstIndex]
    · by_cases h3 : body = spOldExpr
      · subst h3
        simp [h1, h2, Ne.symm h1, Ne.symm h2, contractResult, substitute, hn,
          Expression.setChild, firstIndex]
      · simp only [h1, h2, h3, Ne.symm h1, Ne.symm h2, Ne.symm h3, if_false, List.mem_cons,
          List.not_mem_nil, or_false, firstFound_cons, firstFound]
        rcases search ref with f | (_ | s) <;> simp [contractResult]
        rcases search test with f | (_ | s) <;> simp [contractResult]
        rcases search body with f | (_ | s) <;> simp [contractResult]

theorem TernaryCondition_UpdateChild_contract (heap : Heap) (upd : UpdateCall)
    (search : SPType → Except Fault (Option Slot)) (spOldExpr spNewExpr : SPType)
    (hupd : ∀ c, upd heap c = contractResult heap spNewExpr (search c))
    (h : Handle) (ty : Nat) (ref test tr fl : SPType)
    (hn : heap[h]? = some (.TernaryCondition ty ref test tr fl)) :
    TernaryConditionExpression.UpdateChild upd heap h ty ref test tr fl spOldExpr spNewExpr =
      contractResult heap spNewExpr
        (if spOldExpr ∈ [ref, test, tr, fl] then
          .ok (some (h, firstIndex spOldExpr [ref, test, tr, fl]))
         else firstFound search [ref, test, tr, fl]) := by
  unfold TernaryConditionExpression.UpdateChild
  simp only [hupd, returnIfUpdated_contractResult]
  by_cases h1 : ref = spOldExpr
  · subst h1
    simp [contractResult, substitute, hn, Expression.setChild, firstIndex]
  · by_cases h2 : test = spOldExpr
    · subst h2
      simp [h1, Ne.symm h1, contractResult, substitute, hn, Expression.setChild, firstIndex]
    · by_cases h3 : tr = spOldExpr
      · subst h3
        simp [h1, h2, Ne.symm h1, Ne.symm h2, contractResult, substitute, hn,
          Expression.setChild, firstIndex]
      · by_cases h4 : fl = spOldExpr
        · subst h4
          simp [h1, h2, h3, Ne.symm h1, Ne.symm h2, Ne.symm h3, contractResult, substitute, hn,
            Expression.setChild, firstIndex]
        · simp only [h1, h2, h3, h4, Ne.symm h1, Ne.symm h2, Ne.symm h3, Ne.symm h4, if_false,
            List.mem_cons, List.not_mem_nil, or_false, firstFound_cons, firstFound]
          rcases search ref with f | (_ | s) <;> simp [contractResult]
          rcases search test with f | (_ | s) <;> simp [contractResult]
          rcases search tr with f | (_ | s) <;> simp [contractResult]
          rcases search fl with f | (_ | s) <;> simp [contractResult]

theorem IfElseCondition_UpdateChild_contract (heap : Heap) (upd : UpdateCall)
    (search : SPType → Except Fault (Option Slot)) (spOldExpr spNewExpr : SPType)
    (hupd : ∀ c, upd heap c = contractResult heap spNewExpr (search c))
    (h : Handle) (ty : Nat) (ref test thn els : SPType)
    (hn : heap[h]? = some (.IfElseCondition ty ref test thn els)) :
    IfElseConditionExpression.UpdateChild upd heap h ty ref test thn els spOldExpr spNewExpr =
      contractResult heap spNewExpr
        (if spOldExpr ∈ [ref, test, thn, els] then
          .ok (some (h, firstIndex spOldExpr [ref, test, thn, els]))
         else firstFound search ([ref, test, thn] ++ (if els ≠ none then [els] else []))) := by
  unfold IfElseConditionExpression.UpdateChild
  simp only [hupd, returnIfUpdated_contractResult]
  by_cases h1 : ref = spOldExpr
  · subst h1
    simp [contractResult, substitute, hn, Expression.setChild, firstIndex]
  · by_cases h2 : test = spOldExpr
    · subst h2
      simp [h1, Ne.symm h1, contractResult, substitute, hn, Expression.setChild, firstIndex]
    · by_cases h3 : thn = spOldExpr
      · subst h3
        simp [h1, h2, Ne.symm h1, Ne.symm h2, contractResult, substitute, hn,
          Expression.setChild, firstIndex]
      · by_cases h4 : els = spOldExpr
        · subst h4
          simp [h1, h2, h3, Ne.symm h1, Ne.symm h2, Ne.symm h3, contractResult, substitute, hn,
            Expression.setChild, firstIndex]
        · simp only [h1, h2, h3, h4, Ne.symm h1, Ne.symm h2, Ne.symm h3, Ne.symm h4, if_false,
            List.mem_cons, List.not_mem_nil, or_false, firstFound_cons, firstFound,
            List.cons_append, List.nil_append]
          rcases search ref with f | (_ | s) <;> simp [contractResult]
          rcases search test with f | (_ | s) <;> simp [contractResult]
          rcases search thn with f | (_ | s) <;> simp [contractResult]
          by_cases he : els = none
          · simp [he, firstFound, returnIfUpdated]
          · simp only [he, ne_eq, not_false_eq_true, if_true, firstFound_cons, firstFound,
              returnIfUpdated_contractResult]
            rcases search els with f | (_ | s) <;> simp [contractResult, returnIfUpdated]

theorem Memory_UpdateChild_contract (heap : Heap) (upd : UpdateCall)
    (search : SPType → Except Fault (Option Slot)) (spOldExpr spNewExpr : SPType)
    (hupd : ∀ c, upd heap c = contractResult heap spNewExpr (search c))
    (h : Handle) (sz : Nat) (base off : SPType) (d : Bool)
    (hn : heap[h]? = some (.Memory sz base off d)) :
    MemoryExpression.UpdateChild upd heap h sz base off d spOldExpr spNewExpr =
      contractResult heap spNewExpr
        (if spOldExpr ∈ [base, off] then .ok (some (h, firstIndex spOldExpr [base, off]))
         else firstFound search ((if base ≠ none then [base] else []) ++ [off])) := by
  unfold MemoryExpression.UpdateChild
  simp only [hupd, returnIfUpdated_contractResult]
  by_cases h1 : base = spOldExpr
  · subst h1
    simp [contractResult, substitute, hn, Expression.setChild, firstIndex]
  · by_cases h2 : off = spOldExpr
    · subst h2
      simp [h1, Ne.symm h1, contractResult, substitute, hn, Expression.setChild, firstIndex]
    · simp only [h1, h2, Ne.symm h1, Ne.symm h2, if_false, List.mem_cons, List.not_mem_nil,
        or_false]
      by_cases hb : base = none
      · simp only [hb, ne_eq, not_true_eq_false, if_false, List.nil_append, firstFound_cons,
          firstFound, returnIfUpdated, hupd]
        rcases search off with f | (_ | s) <;> simp [contractResult, returnIfUpdated]
      · simp only [hb, ne_eq, not_false_eq_true, if_true, List.cons_append, List.nil_append,
          firstFound_cons, firstFound, returnIfUpdated_contractResult]
        rcases search base with f | (_ | s) <;>
          simp [contractResult, returnIfUpdated, hupd]
        rcases search off with f | (_ | s) <;> simp [contractResult, returnIfUpdated]

theorem UpdateChild_eq_contract (heap : Heap)
    (hreg : ∀ node ∈ heap, node.searchesByHandle = true) (fuel : Nat)
    (this spOldExpr spNewExpr : SPType) :
    UpdateChild fuel heap this spOldExpr spNewExpr =
      contractResult heap spNewExpr (contractSlot heap fuel this spOldExpr) := by
  induction fuel generalizing this with
  | zero => rfl
  | succ fuel ih =>
    cases this with
    | none => rfl
    | some h =>
      simp only [UpdateChild, contractSlot]
      cases hn : heap[h]? with
      | none => rfl
      | some node =>
        have hr := hreg node (List.getElem?_mem hn)
        cases node with
        | Bind es => cases hr
        | UnaryOperation op e => cases hr
        | Track e a p => cases hr
        | Symbolic ty v a e => cases hr
        | BinaryOperation op l r =>
          exact BinaryOperation_UpdateChild_contract heap
            (fun heap1 c => UpdateChild fuel heap1 c spOldExpr spNewExpr)
            (fun c => contractSlot heap fuel c spOldExpr) spOldExpr spNewExpr (fun c => ih c)
            h op l r hn
        | Assignment dst src =>
          exact Assignment_UpdateChild_contract heap
            (fun heap1 c => UpdateChild fuel heap1 c spOldExpr spNewExpr)
            (fun c => contractSlot heap fuel c spOldExpr) spOldExpr spNewExpr (fun c => ih c)
            h dst src hn
        | WhileCondition ty ref test body =>
          exact WhileCondition_UpdateChild_contract heap
            (fun heap1 c => UpdateChild fuel heap1 c spOldExpr spNewExpr)
            (fun c => contractSlot heap fuel c spOldExpr) spOldExpr spNewExpr (fun c => ih c)
            h ty ref test body hn
        | TernaryCondition ty ref test tr fl =>
          exact TernaryCondition_UpdateChild_contract heap
            (fun heap1 c => UpdateChild fuel heap1 c spOldExpr spNewExpr)
            (fun c => contractSlot heap fuel c spOldExpr) spOldExpr spNewExpr (fun c => ih c)
            h ty ref test tr fl hn
        | IfElseCondition ty ref test thn els =>
          exact IfElseCondition_UpdateChild_contract heap
            (fun heap1 c => UpdateChild fuel heap1 c spOldExpr spNewExpr)
            (fun c => contractSlot heap fuel c spOldExpr) spOldExpr spNewExpr (fun c => ih c)
            h ty ref test thn els hn
        | Memory sz base off d =>
          exact Memory_UpdateChild_contract heap
            (fun heap1 c => UpdateChild fuel heap1 c spOldExpr spNewExpr)
            (fun c => contractSlot heap fuel c spOldExpr) spOldExpr spNewExpr (fun c => ih c)
            h sz base off d hn
        | System _ _ => rfl
        | BitVector _ => rfl
        | Identifier _ _ => rfl
        | VectorIdentifier _ _ => rfl
        | Variable _ _ _ => rfl

theorem firstIndex_getElem (spOldExpr : SPType) (cs : List SPType) (hmem : spOldExpr ∈ cs) :
    cs[firstIndex spOldExpr cs]? = some spOldExpr := by
  induction cs with
  | nil => cases hmem
  | cons c rest ih =>
    by_cases hc : c = spOldExpr
    · simp [firstIndex, hc]
    · have hrest : spOldExpr ∈ rest := by
        rcases List.mem_cons.mp hmem with h | h
        · exact absurd h.symm hc
        · exact h
      simp [firstIndex, hc, ih hrest]

theorem firstFound_some (search : SPType → Except Fault (Option Slot)) (cs : List SPType)
    (s : Slot) (hs : firstFound search cs = .ok (some s)) :
    ∃ c ∈ cs, search c = .ok (some s) := by
  induction cs with
  | nil => simp [firstFound] at hs
  | cons c rest ih =>
    rw [firstFound_cons] at hs
    rcases hc : search c with f | (_ | t)
    · simp [hc] at hs
    · simp only [hc] at hs
      obtain ⟨d, hd, hsd⟩ := ih hs
      exact ⟨d, List.mem_cons_of_mem _ hd, hsd⟩
    · simp only [hc, Except.ok.injEq, Option.some.injEq] at hs
      exact ⟨c, List.mem_cons_self _ _, by rw [hc, hs]⟩

theorem firstFound_fuel (search : SPType → Except Fault (Option Slot)) (cs : List SPType)
    (hcs : ∀ c ∈ cs, search c ≠ .error Fault.OutOfFuel) :
    firstFound search cs ≠ .error Fault.OutOfFuel := by
  induction cs with
  | nil => simp [firstFound]
  | cons c rest ih =>
    rw [firstFound_cons]
    have hc := hcs c (List.mem_cons_self _ _)
    rcases hsc : search c with f | (_ | t)
    · rw [hsc] at hc
      simpa using hc
    · exact ih fun d hd => hcs d (List.mem_cons_of_mem _ hd)
    · simp

theorem presentChildren_subset (node : Expression) (c : SPType)
    (hc : c ∈ node.presentChildren) : c ∈ node.children := by
  cases node <;> simp only [Expression.presentChildren, Expression.children] at hc ⊢ <;>
    first
    | exact hc
    | (split_ifs at hc <;> simp_all <;> tauto)

theorem contractSlot_holds_old (heap : Heap) (spOldExpr : SPType) (fuel : Nat) (this : SPType)
    (slot : Slot) (hs : contractSlot heap fuel this spOldExpr = .ok (some slot)) :
    ∃ node, heap[slot.1]? = some node ∧ node.children[slot.2]? = some spOldExpr := by
  induction fuel generalizing this with
  | zero => simp [contractSlot] at hs
  | succ fuel ih =>
    cases this with
    | none => simp [contractSlot] at hs
    | some h =>
      simp only [contractSlot] at hs
      cases hn : heap[h]? with
      | none => simp [hn] at hs
      | some node =>
        simp only [hn] at hs
        by_cases hmem : spOldExpr ∈ node.children
        · simp only [hmem, if_true, Except.ok.injEq, Option.some.injEq] at hs
          subst hs
          exact ⟨node, hn, firstIndex_getElem _ _ hmem⟩
        · simp only [hmem, if_false] at hs
          obtain ⟨c, _, hc⟩ := firstFound_some _ _ _ hs
          exact ih c hc

theorem contractSlot_fuel (heap : Heap) (hord : allocationOrdered heap) (spOldExpr : SPType)
    (fuel : Nat) (this : SPType) (hfuel : rank this < fuel) :
    contractSlot heap fuel this spOldExpr ≠ .error Fault.OutOfFuel := by
  induction fuel generalizing this with
  | zero => cases hfuel
  | succ fuel ih =>
    cases this with
    | none => simp [contractSlot]
    | some h =>
      simp only [contractSlot]
      cases hn : heap[h]? with
      | none => simp
      | some node =>
        simp only []
        split_ifs
        · simp
        · apply firstFound_fuel
          intro c hc
          apply ih
          have := hord (h, node) (List.mk_mem_enum_iff_getElem?.mpr hn) c
            (presentChildren_subset node c hc)
          simp only [rank] at hfuel
          omega

/-! ## Properties of Compare, Clone and UpdateChild -/

/-- C1: a clone does not always compare Identical with its original.  For the
IfElse without else branch at handle 3 of `ifElseWithoutElse`, `Clone` returns
the copy at handle 7, and `copy.Compare(original)` calls `Compare` through the
null `m_spElseExpr` (line 351): the call faults instead of returning
`CmpIdentical`, with any amount of fuel that reaches the call. -/
theorem clone_compare_faults_on_absent_else (fuel : Nat) :
    Clone (fuel + 2) ifElseWithoutElse (some 3) = .ok (some 7, ifElseWithoutElseCloned) ∧
      Compare ifElseWithoutElseCloned (fuel + 2) (some 7) (some 3) =
        .error Fault.NullDereference := by
  constructor <;> rfl

/-- C2: two Bind expressions compare Identical although their second elements
do not.  In `twoBinds`, `MakeBind([a, a2]).Compare(MakeBind([a, b]))` is
`CmpIdentical`, because every element of the first list is compared with the
first element of the second (the iterator of line 133 is never advanced),
while `a2.Compare(b)` is `CmpSameExpression`. -/
theorem bind_compare_ignores_second_element (fuel : Nat) :
    Compare twoBinds (fuel + 2) (some 3) (some 4) = .ok CompareType.CmpIdentical ∧
      Compare twoBinds (fuel + 1) (some 1) (some 2) = .ok CompareType.CmpSameExpression := by
  constructor <;> rfl

/-- C3: for two expression objects `a` and `b`, `a.Compare(b)` returns
`CmpDifferent` if and only if `a` and `b` are of different classes; for two
objects of one class it never returns `CmpDifferent`, whatever their attributes
and children. -/
theorem Compare_different_iff_kind (heap : Heap) (fuel : Nat) (a b : Handle)
    (na nb : Expression) (ha : heap[a]? = some na) (hb : heap[b]? = some nb) :
    Compare heap (fuel + 1) (some a) (some b) = .ok CompareType.CmpDifferent ↔
      na.GetClassKind ≠ nb.GetClassKind := by
  simp only [Compare, deref, ha]
  exact Expression_Compare_different_iff heap _ b na nb hb

/-- C3 at a BinaryOperation and a UnaryOperation of `binaryAndUnary`, which count
as different variants. -/
theorem Compare_different_iff_kind_witness :
    (binaryAndUnary[2]? = some (.BinaryOperation OpType.OpAdd (some 0) (some 1)) ∧
      binaryAndUnary[3]? = some (.UnaryOperation OpType.OpNeg (some 0))) ∧
    (Compare binaryAndUnary 1 (some 2) (some 3) = .ok CompareType.CmpDifferent ↔
      (Expression.BinaryOperation OpType.OpAdd (some 0) (some 1)).GetClassKind ≠
        (Expression.UnaryOperation OpType.OpNeg (some 0)).GetClassKind) :=
  ⟨⟨rfl, rfl⟩, Compare_different_iff_kind binaryAndUnary 0 2 3 _ _ rfl rfl⟩

/-- C4: `Compare` is not symmetric on Identical for Bind expressions of equal
length.  In `bindsSharingFirst`, `MakeBind([a, a]).Compare(MakeBind([a, b]))` is
`CmpIdentical` and `MakeBind([a, b]).Compare(MakeBind([a, a]))` is
`CmpSameExpression`: each call compares its own elements with the first
element of the other list only. -/
theorem bind_compare_not_symmetric (fuel : Nat) :
    Compare bindsSharingFirst (fuel + 2) (some 3) (some 4) = .ok CompareType.CmpIdentical ∧
      Compare bindsSharingFirst (fuel + 2) (some 4) (some 3) =
        .ok CompareType.CmpSameExpression := by
  constructor <;> rfl

/-- C5: `Compare` is not reflexive on a Symbolic without sub-expression.  For
`e = MakeSym(0, "arg", Address(0, 4096), nullptr)`, `e.Compare(e)` calls
`Compare` through the null `m_spExpr` (line 1418): the call faults instead of
returning `CmpIdentical`. -/
theorem compare_self_faults_on_symbolic_without_child (fuel : Nat) :
    Compare symbolicWithoutChild (fuel + 2) (some 0) (some 0) =
      .error Fault.NullDereference := by
  rfl

/-- C6: `Clone` of a Symbolic is not a deep copy.  The clone of the Symbolic at
handle 3 of `symbolicOverBinOp` is a new object (handle 5) whose child is the
very handle 2 the original holds, and `clone.UpdateChild(x, z)` then assigns
to the left child of that shared BinaryOperation: the sub-expression of the
original is changed. -/
theorem clone_shares_symbolic_child (fuel : Nat) :
    Clone (fuel + 1) symbolicOverBinOp (some 3) =
        .ok (some 5, symbolicOverBinOp ++ [.Symbolic 0 "arg" ⟨0, 4096⟩ (some 2)]) ∧
      UpdateChild (fuel + 2) (symbolicOverBinOp ++ [.Symbolic 0 "arg" ⟨0, 4096⟩ (some 2)])
          (some 5) (some 0) (some 4) =
        .ok (true,
          [bitVector 32 1, bitVector 32 2, .BinaryOperation OpType.OpAdd (some 4) (some 1),
            .Symbolic 0 "arg" ⟨0, 4096⟩ (some 2), bitVector 32 3,
            .Symbolic 0 "arg" ⟨0, 4096⟩ (some 2)]) := by
  constructor <;> rfl

/-- C7: `UpdateChild` does not find an occurrence nested below a unary
operation.  In `unaryOverBinOp` the root is `MakeUnOp(OpNot, MakeBinOp(OpAdd, x,
y))`, so `x` is a proper descendant of the root, and `root.UpdateChild(x, z)`
returns false and leaves the heap as it was: a UnaryOperation tests its child
and does not descend into it. -/
theorem unary_UpdateChild_misses_descendant (fuel : Nat) :
    unaryOverBinOp[3]? = some (.UnaryOperation OpType.OpNot (some 2)) ∧
      unaryOverBinOp[2]? = some (.BinaryOperation OpType.OpAdd (some 0) (some 1)) ∧
      UpdateChild (fuel + 1) unaryOverBinOp (some 3) (some 0) (some 4) =
        .ok (false, unaryOverBinOp) := by
  refine ⟨rfl, rfl, rfl⟩

/-- C8: a successful `UpdateChild` does not always put `new` into a slot that
held `old`.  For `MakeBind([old, x])` the call returns true with the element
list `[x, new]`: the slot that held `old` now holds `x`, and `new` is in the
slot that held `x`.  For `MakeAssign(MakeSym(.., c), MakeUnOp(OpNot, old))`,
where `c` is another literal of the value of `old`, the call returns true after
replacing `c`: the one occurrence of `old` remains and the slot that received
`new` did not hold `old`. -/
theorem bind_UpdateChild_moves_elements (fuel : Nat) :
    UpdateChild (fuel + 1) bindOldFirst (some 3) (some 0) (some 2) =
        .ok (true,
          [bitVector 32 1, bitVector 32 2, bitVector 32 3, .Bind [some 1, some 2]]) ∧
      UpdateChild (fuel + 3) assignSymbolicUnary (some 5) (some 0) (some 2) =
        .ok (true,
          [bitVector 32 1, bitVector 32 1, bitVector 32 3,
            .Symbolic 0 "arg" ⟨0, 4096⟩ (some 2), .UnaryOperation OpType.OpNot (some 0),
            .Assignment (some 3) (some 4)]) := by
  constructor <;> rfl

/-- C9, as stated, fails: in `MakeBinOp(OpAdd, MakeBinOp(OpAdd, x, old), old)`
the first occurrence of `old` in pre-order is the right child of the inner
operation (slot 1 of handle 3), and `UpdateChild` substitutes the right child
of the outer operation (slot 1 of handle 4) and leaves the inner one. -/
theorem UpdateChild_skips_preorder_first :
    preorderSlot nestedBinOp 3 (some 4) (some 1) = .ok (some (3, 1)) ∧
      UpdateChild 3 nestedBinOp (some 4) (some 1) (some 2) =
        .ok (true, substitute nestedBinOp (4, 1) (some 2)) ∧
      substitute nestedBinOp (4, 1) (some 2) ≠ substitute nestedBinOp (3, 1) (some 2) := by
  decide

/-- C9, amended: on a heap whose objects are Ternary, IfElse, While, Assignment,
BinaryOperation or Memory nodes and nodes without children, `UpdateChild`
substitutes exactly one slot, the first in the order of the contract: the
direct children of the node left to right, and only if none of them is `old`,
the subtrees of the present children in construction order, each searched the
same way and fully before the next sibling.  The slot it selects holds `old`;
a call that finds no slot returns false and leaves the heap as it was; and on an
allocation-ordered heap the search does not run out of fuel when the fuel
exceeds the rank of the root. -/
theorem UpdateChild_replaces_first_contract_slot (heap : Heap)
    (hreg : ∀ node ∈ heap, node.searchesByHandle = true)
    (this spOldExpr spNewExpr : SPType) :
    (∀ fuel, UpdateChild fuel heap this spOldExpr spNewExpr =
        contractResult heap spNewExpr (contractSlot heap fuel this spOldExpr)) ∧
      (∀ fuel slot, contractSlot heap fuel this spOldExpr = .ok (some slot) →
        ∃ node, heap[slot.1]? = some node ∧ node.children[slot.2]? = some spOldExpr) ∧
      (allocationOrdered heap → ∀ fuel, rank this < fuel →
        contractSlot heap fuel this spOldExpr ≠ .error Fault.OutOfFuel) :=
  ⟨fun fuel => UpdateChild_eq_contract heap hreg fuel this spOldExpr spNewExpr,
    fun fuel slot hs => contractSlot_holds_old heap spOldExpr fuel this slot hs,
    fun hord fuel hfuel => contractSlot_fuel heap hord spOldExpr fuel this hfuel⟩

/-- C9, amended, at `MakeBinOp(OpAdd, MakeBinOp(OpAdd, x, old), old)`: the slot
of the contract is the right child of the outer operation, and that is the one
slot `UpdateChild` substitutes. -/
theorem UpdateChild_replaces_first_contract_slot_witness :
    (∀ node ∈ nestedBinOp, node.searchesByHandle = true) ∧
      allocationOrdered nestedBinOp ∧
      contractSlot nestedBinOp 6 (some 4) (some 1) = .ok (some (4, 1)) ∧
      UpdateChild 6 nestedBinOp (some 4) (some 1) (some 2) =
        contractResult nestedBinOp (some 2) (contractSlot nestedBinOp 6 (some 4) (some 1)) ∧
      contractSlot nestedBinOp 6 (some 4) (some 1) ≠ .error Fault.OutOfFuel :=
  ⟨by decide, by decide, by decide,
    (UpdateChild_replaces_first_contract_slot nestedBinOp (by decide)
      (some 4) (some 1) (some 2)).1 6,
    (UpdateChild_replaces_first_contract_slot nestedBinOp (by decide)
      (some 4) (some 1) (some 2)).2.2 (by decide) 6 (by decide)⟩

/-- C10: a Symbolic replaces a child that is not the handle `old`.  In
`symbolicOverTwin` the child of the Symbolic is handle 1 and `old` is handle 0,
two distinct objects with `child.Compare(old) == CmpIdentical`, and
`UpdateChild(old, new)` returns true with the child replaced by `new`: the
match of line 1398 is by `Compare`, not by handle. -/
theorem symbolic_UpdateChild_matches_by_compare (fuel : Nat) :
    symbolicOverTwin[3]? = some (.Symbolic 0 "arg" ⟨0, 4096⟩ (some 1)) ∧
      (some 1 : SPType) ≠ some 0 ∧
      Compare symbolicOverTwin (fuel + 1) (some 1) (some 0) = .ok CompareType.CmpIdentical ∧
      UpdateChild (fuel + 2) symbolicOverTwin (some 3) (some 0) (some 2) =
        .ok (true,
          [bitVector 32 1, bitVector 32 1, bitVector 32 3,
            .Symbolic 0 "arg" ⟨0, 4096⟩ (some 2)]) := by
  refine ⟨rfl, by decide, rfl, rfl⟩

/-! ## Lemmas on the runtime members -/

theorem bytesBefore_cons_succ (d : BitVector) (rest : DataContainerType) (i : Nat) :
    bytesBefore (d :: rest) (i + 1) = d.GetBitSize / 8 + bytesBefore rest i := by
  simp [bytesBefore]

theorem consecutiveStores_cons (LinAddr : Nat) (d : BitVector) (rest : DataContainerType) :
    consecutiveStores LinAddr (d :: rest) =
      (LinAddr % 2 ^ 64, d.ConvertTo 64, d.GetBitSize / 8) ::
        consecutiveStores (LinAddr + d.GetBitSize / 8) rest := by
  simp only [consecutiveStores, List.mapIdx_cons, bytesBefore_cons_succ]
  simp [bytesBefore, Nat.add_assoc]

theorem consecutiveStores_mod (LinAddr : Nat) (rData : DataContainerType) :
    consecutiveStores (LinAddr % 2 ^ 64) rData = consecutiveStores LinAddr rData := by
  simp [consecutiveStores, Nat.mod_add_mod]

theorem WriteLoop_eq_storeInOrder {σ μ : Type} (rt : Runtime σ μ) (mem : μ) (LinAddr : Nat)
    (hlin : LinAddr < 2 ^ 64) (rData : DataContainerType) :
    MemoryExpression.WriteLoop rt mem LinAddr rData =
      storeInOrder rt mem (consecutiveStores LinAddr rData) := by
  induction rData generalizing mem LinAddr with
  | nil => simp [MemoryExpression.WriteLoop, consecutiveStores, storeInOrder]
  | cons d rest ih =>
    rw [consecutiveStores_cons]
    simp only [MemoryExpression.WriteLoop, storeInOrder, Nat.mod_eq_of_lt hlin]
    rcases rt.Mem.WriteMemory mem LinAddr (d.ConvertTo 64) (d.GetBitSize / 8) with ⟨flag, mem1⟩
    cases flag
    · rfl
    · simp only []
      rw [ih mem1 _ (Nat.mod_lt _ (by positivity)), consecutiveStores_mod]

theorem storeInOrder_append {σ μ : Type} (rt : Runtime σ μ) (mem mem1 : μ)
    (pre rest : List Store) (hpre : storeInOrder rt mem pre = (true, mem1)) :
    storeInOrder rt mem (pre ++ rest) = storeInOrder rt mem1 rest := by
  induction pre generalizing mem with
  | nil =>
    simp only [storeInOrder, Prod.mk.injEq, true_and] at hpre
    simp [hpre]
  | cons st pre ih =>
    simp only [storeInOrder, List.cons_append] at hpre ⊢
    rcases hw : rt.Mem.WriteMemory mem st.1 st.2.1 st.2.2 with ⟨flag, mem2⟩
    rw [hw] at hpre
    cases flag
    · simp at hpre
    · exact ih mem2 hpre

theorem set_zero_singleton (d x : BitVector) : [d].set 0 x = [x] := rfl

theorem length_eq_one_cases (rData : DataContainerType) (h : rData.length = 1) :
    ∃ d, rData = [d] := by
  match rData, h with
  | [d], _ => exact ⟨d, rfl⟩

theorem expr_cast_Id (heap : Heap) (sp : SPType) :
    expr_cast heap Kind.Id sp =
      match deref heap sp with
      | some (.Identifier id info) => some (.Identifier id info)
      | _ => none := by
  unfold expr_cast
  cases deref heap sp with
  | none => rfl
  | some n => cases n <;> rfl

/-! ## Properties of Read, Write and GetAddress -/

/-- C14: a dereferencing Memory expression whose address evaluates to `DstAddr`
writes the data list in list order from the linear address `L` (the translation
of `DstAddr`, or its offset, a `u64`): datum `i` is stored with its value truncated to 64
bits and `width / 8` bytes at `L` plus the bytes of the data before it, in `u64`
arithmetic, so each store begins where the previous one ends; when the stores
before one succeed and that one fails, the call returns false with the memory
state the failing `WriteMemory` left after the earlier stores; the CPU state is
not changed. -/
theorem Memory_Write_stores_consecutively {σ μ : Type} (rt : Runtime σ μ) (heap : Heap)
    (cpu : σ) (mem : μ) (read : ReadCall) (m_spBaseExpr m_spOffExpr : SPType)
    (rData : DataContainerType) (DstAddr : Address)
    (haddr : MemoryExpression.GetAddress read m_spBaseExpr m_spOffExpr = .ok (some DstAddr))
    (hlin : MemoryExpression.LinearAddress rt cpu DstAddr < 2 ^ 64) :
    MemoryExpression.Write rt heap cpu mem read m_spBaseExpr m_spOffExpr true rData =
        .ok ((storeInOrder rt mem
              (consecutiveStores (MemoryExpression.LinearAddress rt cpu DstAddr) rData)).1,
            cpu,
            (storeInOrder rt mem
              (consecutiveStores (MemoryExpression.LinearAddress rt cpu DstAddr) rData)).2) ∧
      (∀ i d, rData[i]? = some d →
        (consecutiveStores (MemoryExpression.LinearAddress rt cpu DstAddr) rData)[i]? =
          some ((MemoryExpression.LinearAddress rt cpu DstAddr + bytesBefore rData i) % 2 ^ 64,
            d.m_Value % 2 ^ 64, d.m_BitSize / 8)) ∧
      (∀ i d, rData[i]? = some d →
        bytesBefore rData (i + 1) = bytesBefore rData i + d.m_BitSize / 8) ∧
      (∀ pre st post mem1 mem2,
        consecutiveStores (MemoryExpression.LinearAddress rt cpu DstAddr) rData =
            pre ++ st :: post →
          storeInOrder rt mem pre = (true, mem1) →
          rt.Mem.WriteMemory mem1 st.1 st.2.1 st.2.2 = (false, mem2) →
          MemoryExpression.Write rt heap cpu mem read m_spBaseExpr m_spOffExpr true rData =
            .ok (false, cpu, mem2)) := by
  have hwrite :
      MemoryExpression.Write rt heap cpu mem read m_spBaseExpr m_spOffExpr true rData =
        .ok ((storeInOrder rt mem
              (consecutiveStores (MemoryExpression.LinearAddress rt cpu DstAddr) rData)).1,
            cpu,
            (storeInOrder rt mem
              (consecutiveStores (MemoryExpression.LinearAddress rt cpu DstAddr) rData)).2) := by
    simp only [MemoryExpression.Write, haddr, if_true]
    rw [WriteLoop_eq_storeInOrder rt mem _ hlin]
  refine ⟨hwrite, ?_, ?_, ?_⟩
  · intro i d hd
    simp [consecutiveStores, hd, BitVector.ConvertTo, BitVector.GetBitSize]
  · intro i d hd
    simp only [bytesBefore]
    rw [List.take_succ, hd]
    simp [BitVector.GetBitSize]
  · intro pre st post mem1 mem2 hsplit hpre hfail
    rw [hwrite, hsplit, storeInOrder_append rt mem mem1 pre (st :: post) hpre]
    simp only [storeInOrder, hfail]

/-- C15: a non-dereferencing Memory expression of access size `s` whose address
evaluates to `DstAddr` reads, into a container of exactly one slot, the
bit-vector `BitVector(s, L)`, where `L` is the translation of `DstAddr` when
`Translate` succeeds and its offset otherwise, and returns true; with another
number of slots it returns false and leaves the container.  The memory state
does not enter the result. -/
theorem Memory_Read_address_of {σ μ : Type} (rt : Runtime σ μ) (cpu : σ) (mem : μ)
    (read : ReadCall) (s : Nat) (m_spBaseExpr m_spOffExpr : SPType)
    (rData : DataContainerType) (DstAddr : Address)
    (haddr : MemoryExpression.GetAddress read m_spBaseExpr m_spOffExpr = .ok (some DstAddr)) :
    MemoryExpression.Read rt cpu mem read s m_spBaseExpr m_spOffExpr false rData =
        (if rData.length = 1 then
          .ok (true,
            [BitVector.construct s
              (match rt.Cpu.Translate cpu DstAddr with
               | some LinAddr => LinAddr
               | none => DstAddr.m_Offset)])
         else .ok (false, rData)) ∧
      ∀ mem1 : μ,
        MemoryExpression.Read rt cpu mem1 read s m_spBaseExpr m_spOffExpr false rData =
          MemoryExpression.Read rt cpu mem read s m_spBaseExpr m_spOffExpr false rData := by
  constructor
  · simp only [MemoryExpression.Read, haddr, MemoryExpression.LinearAddress, Address.GetOffset]
    by_cases hlen : rData.length = 1
    · obtain ⟨d, rfl⟩ := length_eq_one_cases rData hlen
      cases rt.Cpu.Translate cpu DstAddr <;> simp
    · simp [hlen]
  · intro mem1
    simp only [MemoryExpression.Read, haddr]
    simp

/-- C16: for a non-dereferencing Memory expression, `Write` returns true if and
only if the data list has exactly one datum, the offset sub-expression is an
Identifier and `WriteRegister` succeeds; then the CPU state is the one
`WriteRegister` left after storing the datum, truncated to 64 bits, into that
register at the register's width, and the memory state is unchanged.  When the
offset is not an Identifier the call returns false and leaves both states.  The
call never faults. -/
theorem Memory_Write_address_of {σ μ : Type} (rt : Runtime σ μ) (heap : Heap) (cpu : σ)
    (mem : μ) (read : ReadCall) (m_spBaseExpr m_spOffExpr : SPType)
    (rData : DataContainerType) :
    (∀ cpu1 mem1,
      MemoryExpression.Write rt heap cpu mem read m_spBaseExpr m_spOffExpr false rData =
          .ok (true, cpu1, mem1) ↔
        ∃ d id info, rData = [d] ∧ deref heap m_spOffExpr = some (.Identifier id info) ∧
          rt.Cpu.WriteRegister cpu id (d.m_Value % 2 ^ 64)
            ((rt.CpuInfo info).GetSizeOfRegisterInBit id) = (true, cpu1) ∧ mem1 = mem) ∧
      ((∀ id info, deref heap m_spOffExpr ≠ some (.Identifier id info)) →
        MemoryExpression.Write rt heap cpu mem read m_spBaseExpr m_spOffExpr false rData =
          .ok (false, cpu, mem)) ∧
      ∃ flag cpu1,
        MemoryExpression.Write rt heap cpu mem read m_spBaseExpr m_spOffExpr false rData =
          .ok (flag, cpu1, mem) := by
  simp only [MemoryExpression.Write, expr_cast_Id, BitVector.ConvertTo]
  by_cases hlen : rData.length = 1
  · obtain ⟨d, rfl⟩ := length_eq_one_cases rData hlen
    cases hoff : deref heap m_spOffExpr with
    | none => simp
    | some node =>
      cases node with
      | Identifier id info =>
        simp only []
        rcases hw : rt.Cpu.WriteRegister cpu id (d.m_Value % 2 ^ 64)
          ((rt.CpuInfo info).GetSizeOfRegisterInBit id) with ⟨flag, cpu2⟩
        cases flag <;> simp [hw] <;> aesop
      | _ => simp
  · refine ⟨?_, ?_, ?_⟩
    · intro cpu1 mem1
      simp only [ne_eq, hlen, not_false_eq_true, if_true, Bool.false_eq_true, if_false]
      constructor
      · intro h
        simp at h
      · rintro ⟨d, id, info, hd, -⟩
        simp [hd] at hlen
    · intro _
      simp [hlen]
    · exact ⟨false, cpu, by simp [hlen]⟩

/-- C17, as stated, fails: for `MakeMem(32, nullptr, MakeVecId([0, 1], info),
false)` the read of the offset sub-expression succeeds (it leaves a container of
two elements) and `GetAddress` returns false all the same. -/
theorem GetAddress_false_after_successful_reads :
    Read (listRuntime fun _ => 32) [7, 9] [] memoryOverVector 1 (some 0) [BitVector.empty] =
        .ok (true, [⟨32, 9⟩, ⟨32, 7⟩]) ∧
      MemoryExpression.GetAddress (Read (listRuntime fun _ => 32) [7, 9] [] memoryOverVector 1)
        none (some 0) = .ok none := by
  decide

/-- C17, amended: `GetAddress` returns true with `Address(b, o)` exactly when the
read of the base (if present) succeeds and the read of the offset succeeds and
leaves a container of exactly one element; `o` is that element and `b` is the
single element the base read left, both converted to the address types, or 0
when the base is absent or its read left another number of elements.  It
returns false, leaving the output address, exactly when the read of the base (if
present) fails, or the read of the offset fails or leaves a container that does
not have exactly one element. -/
theorem Memory_GetAddress_single_values (read : ReadCall) (m_spBaseExpr m_spOffExpr : SPType) :
    (∀ a, MemoryExpression.GetAddress read m_spBaseExpr m_spOffExpr = .ok (some a) ↔
      ∃ BaseData o,
        (if m_spBaseExpr ≠ none then read m_spBaseExpr [BitVector.empty]
          else .ok (true, [BitVector.empty])) = .ok (true, BaseData) ∧
        read m_spOffExpr [BitVector.empty] = .ok (true, [o]) ∧
        a = ⟨(match BaseData with
              | [b] => b.m_Value % 2 ^ 64
              | _ => 0), o.m_Value % 2 ^ 64⟩) ∧
      (MemoryExpression.GetAddress read m_spBaseExpr m_spOffExpr = .ok none ↔
        (m_spBaseExpr ≠ none ∧ ∃ d, read m_spBaseExpr [BitVector.empty] = .ok (false, d)) ∨
        ((∃ BaseData,
            (if m_spBaseExpr ≠ none then read m_spBaseExpr [BitVector.empty]
              else .ok (true, [BitVector.empty])) = .ok (true, BaseData)) ∧
          ((∃ d, read m_spOffExpr [BitVector.empty] = .ok (false, d)) ∨
            ∃ OffsetData, read m_spOffExpr [BitVector.empty] = .ok (true, OffsetData) ∧
              OffsetData.length ≠ 1))) ∧
      (m_spBaseExpr = none →
        ∀ a, MemoryExpression.GetAddress read m_spBaseExpr m_spOffExpr = .ok (some a) →
          a.m_Base = 0) := by
  unfold MemoryExpression.GetAddress
  simp only [BitVector.ConvertTo, TBaseBits, TOffsetBits]
  by_cases hb : m_spBaseExpr = none
  · subst hb
    simp only [ne_eq, not_true_eq_false, if_false]
    rcases hoff : read m_spOffExpr [BitVector.empty] with f | ⟨flag, OffsetData⟩
    · simp
    · cases flag
      · simp
      · match OffsetData with
        | [] => simp
        | [o] => simp [BitVector.empty]; aesop
        | _ :: _ :: _ => simp
  · simp only [ne_eq, hb, not_false_eq_true, if_true]
    rcases hbase : read m_spBaseExpr [BitVector.empty] with f | ⟨bflag, BaseData⟩
    · simp
    · cases bflag
      · simp
      · rcases hoff : read m_spOffExpr [BitVector.empty] with f | ⟨flag, OffsetData⟩
        · simp
        · cases flag
          · simp
          · match OffsetData with
            | [] => simp
            | [o] => simp; aesop
            | _ :: _ :: _ => simp

theorem VectorIdentifier_ReadLoop_iff {σ μ : Type} (rt : Runtime σ μ) (cpu : σ)
    (info : Nat) (ids : List Nat) (acc out : DataContainerType) :
    VectorIdentifierExpression.ReadLoop rt cpu info ids acc = (true, out) ↔
      out.map some =
        (ids.reverse.map fun r =>
          (rt.Cpu.ReadRegister cpu r ((rt.CpuInfo info).GetSizeOfRegisterInBit r)).map fun v =>
            BitVector.construct ((rt.CpuInfo info).GetSizeOfRegisterInBit r) v) ++
          acc.map some := by
  induction ids generalizing acc with
  | nil =>
    simp only [VectorIdentifierExpression.ReadLoop, Prod.mk.injEq, true_and, List.reverse_nil,
      List.map_nil, List.nil_append]
    constructor
    · intro h
      rw [h]
    · intro h
      exact ((List.map_injective_iff.mpr (Option.some_injective _)) h).symm
  | cons r rest ih =>
    simp only [VectorIdentifierExpression.ReadLoop]
    cases hr : rt.Cpu.ReadRegister cpu r ((rt.CpuInfo info).GetSizeOfRegisterInBit r) with
    | none =>
      simp only [Prod.mk.injEq, Bool.false_eq_true, false_and, false_iff, List.reverse_cons,
        List.map_append, List.map_cons, List.map_nil, hr, Option.map_none']
      intro h
      have hmem : (none : Option BitVector) ∈ out.map some := by
        rw [h]
        simp
      simp at hmem
    | some v =>
      simp only [ih, List.reverse_cons, List.map_append, List.map_cons, List.map_nil, hr,
        Option.map_some', List.append_assoc, List.singleton_append]

/-- C20: a successful `Read` of a VectorIdentifier with ids `[r0..rn-1]` leaves,
whatever the container held before, exactly `n` elements, the `k`-th from the
front being
`BitVector(width(r), value(r))` for `r` the id at position `n-1-k`, where
`value(r)` is the value `ReadRegister` delivered for `r`: the front
element belongs to the last id and the back element to the first.  The result
does not depend on the initial contents. -/
theorem VectorIdentifier_Read_reversed {σ μ : Type} (rt : Runtime σ μ) (cpu : σ)
    (m_VecId : List Nat) (m_pCpuInfo : Nat) (rData out : DataContainerType)
    (h : VectorIdentifierExpression.Read rt cpu m_VecId m_pCpuInfo rData = (true, out)) :
    out.length = m_VecId.length ∧
      (∀ k r, k < m_VecId.length → m_VecId[m_VecId.length - 1 - k]? = some r →
        ∃ v, rt.Cpu.ReadRegister cpu r ((rt.CpuInfo m_pCpuInfo).GetSizeOfRegisterInBit r) =
            some v ∧
          out[k]? =
            some (BitVector.construct ((rt.CpuInfo m_pCpuInfo).GetSizeOfRegisterInBit r) v)) ∧
      ∀ other : DataContainerType,
        VectorIdentifierExpression.Read rt cpu m_VecId m_pCpuInfo other = (true, out) := by
  have hmap := (VectorIdentifier_ReadLoop_iff rt cpu m_pCpuInfo m_VecId [] out).mp h
  simp only [List.map_nil, List.append_nil] at hmap
  have hlen : out.length = m_VecId.length := by
    have := congrArg List.length hmap
    simpa using this
  refine ⟨hlen, ?_, fun _ => h⟩
  intro k r hk hr
  have hk2 := congrArg (fun l => l[k]?) hmap
  simp only [List.getElem?_map, List.getElem?_reverse hk, hr, Option.map_some'] at hk2
  cases hv : rt.Cpu.ReadRegister cpu r ((rt.CpuInfo m_pCpuInfo).GetSizeOfRegisterInBit r) with
  | none =>
    rw [hv] at hk2
    cases ho : out[k]? with
    | none =>
      have : k < out.length := by omega
      simp [List.getElem?_eq_none_iff] at ho
      omega
    | some x => simp [ho] at hk2
  | some v =>
    refine ⟨v, rfl, ?_⟩
    rw [hv] at hk2
    cases ho : out[k]? with
    | none => simp [ho] at hk2
    | some x =>
      simp only [ho, Option.map_some', Option.some.injEq] at hk2
      rw [hk2]

/-- C20 at the registers 0, 1 and 2 of a register file holding 7, 9 and 11, read
into a container that held two other elements: the result is the three values
in reverse id order. -/
theorem VectorIdentifier_Read_reversed_witness :
    VectorIdentifierExpression.Read (listRuntime fun _ => 32) [7, 9, 11] [0, 1, 2] 0
        [⟨8, 1⟩, ⟨8, 2⟩] = (true, [⟨32, 11⟩, ⟨32, 9⟩, ⟨32, 7⟩]) ∧
      ([⟨32, 11⟩, ⟨32, 9⟩, ⟨32, 7⟩] : DataContainerType).length = [0, 1, 2].length :=
  ⟨by decide,
    (VectorIdentifier_Read_reversed (listRuntime fun _ => 32) [7, 9, 11] [0, 1, 2] 0
      [⟨8, 1⟩, ⟨8, 2⟩] [⟨32, 11⟩, ⟨32, 9⟩, ⟨32, 7⟩] (by decide)).1⟩

/-- A VectorIdentifier is read successfully whenever every register of it can be
read. -/
theorem VectorIdentifier_Read_succeeds {σ μ : Type} (rt : Runtime σ μ) (cpu : σ)
    (m_VecId : List Nat) (m_pCpuInfo : Nat) (rData : DataContainerType)
    (hall : ∀ r ∈ m_VecId, ∃ v,
      rt.Cpu.ReadRegister cpu r ((rt.CpuInfo m_pCpuInfo).GetSizeOfRegisterInBit r) = some v) :
    ∃ out, VectorIdentifierExpression.Read rt cpu m_VecId m_pCpuInfo rData = (true, out) := by
  unfold VectorIdentifierExpression.Read
  generalize ([] : DataContainerType) = acc
  induction m_VecId generalizing acc with
  | nil => exact ⟨acc, rfl⟩
  | cons r rest ih =>
    obtain ⟨v, hv⟩ := hall r (List.mem_cons_self _ _)
    simp only [VectorIdentifierExpression.ReadLoop, hv]
    exact ih (fun x hx => hall x (List.mem_cons_of_mem _ hx)) _

theorem listRuntime_returns_last_written (width : Nat → Nat) (cpu cpu1 : List Nat)
    (id val size : Nat)
    (hw : (listRuntime width).Cpu.WriteRegister cpu id val size = (true, cpu1)) :
    (listRuntime width).Cpu.ReadRegister cpu1 id size = some (val % 2 ^ size) := by
  simp only [listRuntime] at hw ⊢
  by_cases hid : id < cpu.length
  · simp only [hid, if_true, Prod.mk.injEq, true_and] at hw
    subst hw
    simp [hid]
  · simp [hid] at hw

theorem low_bits_through_u64 (x w : Nat) :
    x % 2 ^ 64 % 2 ^ w = x % 2 ^ min w 64 := by
  rcases Nat.le_total w 64 with hw | hw
  · rw [Nat.min_eq_left hw]
    exact Nat.mod_mod_of_dvd x (Nat.pow_dvd_pow 2 hw)
  · rw [Nat.min_eq_right hw]
    exact Nat.mod_eq_of_lt
      (Nat.lt_of_lt_of_le (Nat.mod_lt _ (by positivity)) (Nat.pow_le_pow_right (by decide) hw))

/-- C18, as stated, fails for a register wider than 64 bits: with a register of
128 bits in a register file that returns what was last written, writing
`BitVector(128, 2^64)` through `Identifier.Write` and reading it back yields
`BitVector(128, 0)`, not `BitVector(128, 2^64 mod 2^128)`. -/
theorem Identifier_round_trip_loses_high_bits :
    IdentifierExpression.Write (listRuntime fun _ => 128) [0] 0 0
        [BitVector.construct 128 (2 ^ 64)] = .ok (true, [0], []) ∧
      IdentifierExpression.Read (listRuntime fun _ => 128) [0] 0 0 [BitVector.empty] =
        (true, [⟨128, 0⟩]) ∧
      BitVector.construct 128 (2 ^ 64 % 2 ^ 128) ≠ ⟨128, 0⟩ := by
  decide

/-- C18, amended: assuming the register file returns what was last written,
writing `BitVector(w, v)` through `Identifier.Write` into a register of width
`w` and then calling `Identifier.Read` yields `BitVector(w, v mod 2^min(w, 64))`:
for `w ≤ 64` that is `BitVector(w, v mod 2^w)`, and for a wider register only
the low 64 bits of the value come back. -/
theorem Identifier_round_trip_low_bits {σ μ : Type} (rt : Runtime σ μ)
    (hfile : ∀ cpu id val size cpu1, rt.Cpu.WriteRegister cpu id val size = (true, cpu1) →
      rt.Cpu.ReadRegister cpu1 id size = some (val % 2 ^ size))
    (cpu cpu1 : σ) (m_Id m_pCpuInfo v : Nat) (rest rest1 : DataContainerType) (slot : BitVector)
    (hwrite : IdentifierExpression.Write rt cpu m_Id m_pCpuInfo
      (BitVector.construct ((rt.CpuInfo m_pCpuInfo).GetSizeOfRegisterInBit m_Id) v :: rest) =
        .ok (true, cpu1, rest1)) :
    rest1 = rest ∧
      IdentifierExpression.Read rt cpu1 m_Id m_pCpuInfo [slot] =
        (true, [BitVector.construct ((rt.CpuInfo m_pCpuInfo).GetSizeOfRegisterInBit m_Id)
          (v % 2 ^ min ((rt.CpuInfo m_pCpuInfo).GetSizeOfRegisterInBit m_Id) 64)]) ∧
      ((rt.CpuInfo m_pCpuInfo).GetSizeOfRegisterInBit m_Id ≤ 64 →
        IdentifierExpression.Read rt cpu1 m_Id m_pCpuInfo [slot] =
          (true, [BitVector.construct ((rt.CpuInfo m_pCpuInfo).GetSizeOfRegisterInBit m_Id)
            (v % 2 ^ (rt.CpuInfo m_pCpuInfo).GetSizeOfRegisterInBit m_Id)])) := by
  generalize hwd : (rt.CpuInfo m_pCpuInfo).GetSizeOfRegisterInBit m_Id = w at hwrite ⊢
  simp only [IdentifierExpression.Write, hwd, BitVector.ConvertTo, BitVector.construct] at hwrite
  rcases hreg : rt.Cpu.WriteRegister cpu m_Id (v % 2 ^ w % 2 ^ 64) w with ⟨flag, cpu2⟩
  rw [hreg] at hwrite
  cases flag
  · simp at hwrite
  · simp only [Except.ok.injEq, Prod.mk.injEq, true_and] at hwrite
    obtain ⟨hcpu, hrest⟩ := hwrite
    subst hcpu
    have hread := hfile cpu m_Id _ w cpu2 hreg
    have hval : v % 2 ^ w % 2 ^ 64 % 2 ^ w = v % 2 ^ min w 64 := by
      rw [low_bits_through_u64, Nat.mod_mod_of_dvd v (Nat.pow_dvd_pow 2 (Nat.min_le_left w 64))]
    have hmin : v % 2 ^ min w 64 % 2 ^ w = v % 2 ^ min w 64 :=
      Nat.mod_eq_of_lt (Nat.lt_of_lt_of_le (Nat.mod_lt _ (by positivity))
        (Nat.pow_le_pow_right (by decide) (Nat.min_le_left w 64)))
    refine ⟨hrest.symm, ?_, ?_⟩
    · simp only [IdentifierExpression.Read, hwd, hread, BitVector.construct,
        List.length_singleton, ne_eq, not_true_eq_false, if_false, List.set_cons_zero,
        Nat.mod_mod, hval, hmin]
    · intro hw
      simp only [IdentifierExpression.Read, hwd, hread, BitVector.construct,
        List.length_singleton, ne_eq, not_true_eq_false, if_false, List.set_cons_zero,
        Nat.mod_mod, hval, Nat.min_eq_left hw]

/-- C18, amended, at a register of 32 bits holding 0 and the value `2^32 + 5`:
the round trip yields `BitVector(32, 5)`. -/
theorem Identifier_round_trip_low_bits_witness :
    IdentifierExpression.Write (listRuntime fun _ => 32) [0] 0 0
        [BitVector.construct 32 (2 ^ 32 + 5)] = .ok (true, [5], []) ∧
      IdentifierExpression.Read (listRuntime fun _ => 32) [5] 0 0 [BitVector.empty] =
        (true, [BitVector.construct 32 ((2 ^ 32 + 5) % 2 ^ 32)]) :=
  ⟨by decide,
    (Identifier_round_trip_low_bits (listRuntime fun _ => 32)
      (fun cpu id val size cpu1 h => listRuntime_returns_last_written _ cpu cpu1 id val size h)
      [0] [5] 0 0 (2 ^ 32 + 5) [] [] BitVector.empty (by decide)).2.2 (by decide)⟩

/-- C19, as stated, fails for a register wider than 64 bits: writing the datum
`BitVector(128, 2^64 + 3)` into a register of 128 bits succeeds and leaves 3 in
the register, not the low 128 bits of the datum. -/
theorem Identifier_Write_truncates_wide_datum :
    IdentifierExpression.Write (listRuntime fun _ => 128) [5] 0 0
        [BitVector.construct 128 (2 ^ 64 + 3)] = .ok (true, [3], []) ∧
      (BitVector.construct 128 (2 ^ 64 + 3)).m_Value % 2 ^ 128 ≠ 3 := by
  decide

/-- C19, amended: for a non-empty data list, `Identifier.Write` uses only the
front datum, whatever its width: it passes the datum truncated to 64 bits to
`WriteRegister` at the register's width, so that on success the register holds
the low `min(reg_width, 64)` bits of the front datum and the list is the old
one without its front element; when `WriteRegister` fails the call returns
false and the list is unchanged. -/
theorem Identifier_Write_front_datum {σ μ : Type} (rt : Runtime σ μ) (cpu : σ)
    (m_Id m_pCpuInfo : Nat) (d : BitVector) (rest : DataContainerType) :
    (∀ cpu1, rt.Cpu.WriteRegister cpu m_Id (d.m_Value % 2 ^ 64)
        ((rt.CpuInfo m_pCpuInfo).GetSizeOfRegisterInBit m_Id) = (true, cpu1) →
      IdentifierExpression.Write rt cpu m_Id m_pCpuInfo (d :: rest) = .ok (true, cpu1, rest)) ∧
      (∀ cpu1, rt.Cpu.WriteRegister cpu m_Id (d.m_Value % 2 ^ 64)
          ((rt.CpuInfo m_pCpuInfo).GetSizeOfRegisterInBit m_Id) = (false, cpu1) →
        IdentifierExpression.Write rt cpu m_Id m_pCpuInfo (d :: rest) =
          .ok (false, cpu1, d :: rest)) ∧
      d.m_Value % 2 ^ 64 % 2 ^ (rt.CpuInfo m_pCpuInfo).GetSizeOfRegisterInBit m_Id =
        d.m_Value % 2 ^ min ((rt.CpuInfo m_pCpuInfo).GetSizeOfRegisterInBit m_Id) 64 ∧
      ((∀ c id val size c1, rt.Cpu.WriteRegister c id val size = (true, c1) →
          rt.Cpu.ReadRegister c1 id size = some (val % 2 ^ size)) →
        ∀ cpu1 rest1, IdentifierExpression.Write rt cpu m_Id m_pCpuInfo (d :: rest) =
            .ok (true, cpu1, rest1) →
          rt.Cpu.ReadRegister cpu1 m_Id ((rt.CpuInfo m_pCpuInfo).GetSizeOfRegisterInBit m_Id) =
            some (d.m_Value %
              2 ^ min ((rt.CpuInfo m_pCpuInfo).GetSizeOfRegisterInBit m_Id) 64)) := by
  refine ⟨?_, ?_, low_bits_through_u64 _ _, ?_⟩
  · intro cpu1 h
    simp only [IdentifierExpression.Write, BitVector.ConvertTo, h]
  · intro cpu1 h
    simp only [IdentifierExpression.Write, BitVector.ConvertTo, h]
  · intro hfile cpu1 rest1 h
    simp only [IdentifierExpression.Write, BitVector.ConvertTo] at h
    rcases hreg : rt.Cpu.WriteRegister cpu m_Id (d.m_Value % 2 ^ 64)
      ((rt.CpuInfo m_pCpuInfo).GetSizeOfRegisterInBit m_Id) with ⟨flag, cpu2⟩
    rw [hreg] at h
    cases flag
    · simp at h
    · simp only [Except.ok.injEq, Prod.mk.injEq, true_and] at h
      rw [← h.1, hfile cpu m_Id _ _ cpu2 hreg, low_bits_through_u64]

/-- C11: `UpdateChild` on a Bind does not substitute in place.  For
`MakeBind([a, old, b])` the call `UpdateChild(old, new)` returns true with the
element list `[a, b, new]`, not `[a, new, b]`: `old` is erased and `new` is
pushed to the back (lines 108-110), so `b` and `new` are not at the positions
the substitution in place gives them. -/
theorem bind_UpdateChild_not_in_place (fuel : Nat) :
    UpdateChild (fuel + 1) bindOldMiddle (some 4) (some 1) (some 3) =
        .ok (true,
          [bitVector 32 1, bitVector 32 2, bitVector 32 3, bitVector 32 4,
            .Bind [some 0, some 2, some 3]]) ∧
      ([some 0, some 2, some 3] : List SPType) ≠ [some 0, some 1, some 2].set 1 (some 3) := by
  constructor
  · rfl
  · decide

/-- C12: replacing a child by one that does not compare Identical with it can
leave the expression Identical with its earlier clone.  For `e = MakeBind([a,
c])` with literals of values 1 and 2, `e_before = e.Clone()` and `c2` a literal
of value 1, `c2.Compare(c)` is `CmpSameExpression`, `e.UpdateChild(c, c2)`
succeeds, and `e.Compare(e_before)` is `CmpIdentical`: both elements of `e` are
compared with the first element of `e_before`. -/
theorem bind_compare_identical_after_update (fuel : Nat) :
    Clone (fuel + 2) bindBeforeUpdate (some 3) = .ok (some 6, bindCloned) ∧
      Compare bindCloned (fuel + 1) (some 2) (some 1) = .ok CompareType.CmpSameExpression ∧
      UpdateChild (fuel + 1) bindCloned (some 3) (some 1) (some 2) = .ok (true, bindUpdated) ∧
      Compare bindUpdated (fuel + 2) (some 3) (some 6) = .ok CompareType.CmpIdentical := by
  refine ⟨rfl, rfl, rfl, rfl⟩

/-- C13: a dereferencing `Read` into several slots does not read consecutive
addresses.  For `MakeMem(32, nullptr, MakeBitVector(32, 8), true)` over a memory
whose words at addresses 8 and 12 are `0x11111111` and `0x22222222`, a `Read`
into two slots succeeds with `0x11111111` in both: the loop of lines 1238-1244
reads every slot at the same linear address, which it never advances, while
the word at `8 + 1 * (32 / 8)` is `0x22222222`. -/
theorem memory_Read_repeats_first_address (fuel : Nat) :
    Read (listRuntime fun _ => 32) [] sixteenBytes memoryAtEight (fuel + 2) (some 1)
        [BitVector.empty, BitVector.empty] = .ok (true, [⟨32, 0x11111111⟩, ⟨32, 0x11111111⟩]) ∧
      (listRuntime fun _ => 32).Mem.ReadMemory sixteenBytes (8 + 1 * (32 / 8)) (32 / 8) =
        some 0x22222222 := by
  constructor
  · rfl
  · decide

/-- C14 at `MakeMem(32, nullptr, MakeBitVector(32, 8), true)` and the data
`[BitVector(32, 0xAABBCCDD), BitVector(16, 0x1234)]`: the four bytes of the
first datum go to addresses 8-11 and the two bytes of the second to 12-13. -/
theorem Memory_Write_stores_consecutively_witness :
    MemoryExpression.GetAddress (Read (listRuntime fun _ => 32) [] sixteenBytes memoryAtEight 1)
        none (some 0) = .ok (some ⟨0, 8⟩) ∧
      MemoryExpression.Write (listRuntime fun _ => 32) memoryAtEight [] sixteenBytes
          (Read (listRuntime fun _ => 32) [] sixteenBytes memoryAtEight 1) none (some 0) true
          [BitVector.construct 32 0xAABBCCDD, BitVector.construct 16 0x1234] =
        .ok (true, [],
          [0, 0, 0, 0, 0, 0, 0, 0, 0xDD, 0xCC, 0xBB, 0xAA, 0x34, 0x12, 34, 34]) :=
  ⟨by decide,
    (Memory_Write_stores_consecutively (listRuntime fun _ => 32) memoryAtEight [] sixteenBytes
      (Read (listRuntime fun _ => 32) [] sixteenBytes memoryAtEight 1) none (some 0)
      [BitVector.construct 32 0xAABBCCDD, BitVector.construct 16 0x1234] ⟨0, 8⟩
      (by decide) (by decide)).1.trans (by decide)⟩

/-- C15 at `MakeMem(32, nullptr, MakeId(1, info), false)` with register 1 holding
4096 and no address translation: the one slot receives `BitVector(32, 4096)`. -/
theorem Memory_Read_address_of_witness :
    MemoryExpression.GetAddress
        (Read (listRuntime fun _ => 32) [0, 4096] sixteenBytes memoryOverIdentifier 1)
        none (some 0) = .ok (some ⟨0, 4096⟩) ∧
      MemoryExpression.Read (listRuntime fun _ => 32) [0, 4096] sixteenBytes
          (Read (listRuntime fun _ => 32) [0, 4096] sixteenBytes memoryOverIdentifier 1)
          32 none (some 0) false [BitVector.empty] =
        .ok (true, [⟨32, 4096⟩]) :=
  ⟨by decide,
    (Memory_Read_address_of (listRuntime fun _ => 32) [0, 4096] sixteenBytes
      (Read (listRuntime fun _ => 32) [0, 4096] sixteenBytes memoryOverIdentifier 1)
      32 none (some 0) [BitVector.empty] ⟨0, 4096⟩ (by decide)).1.trans (by decide)⟩

/-! ## Lemmas on the vector write -/

theorem VectorIdentifier_WriteLoop_closed {σ μ : Type} (rt : Runtime σ μ) (m_pCpuInfo : Nat)
    (ids : List Nat) :
    ∀ (cpu : σ) (rData : DataContainerType),
      let stores : List RegisterStore := List.zipWith
        (fun Id d => (Id, d.ConvertTo 64, (rt.CpuInfo m_pCpuInfo).GetSizeOfRegisterInBit Id))
        ids rData
      let r := VectorIdentifierExpression.WriteLoop rt m_pCpuInfo cpu ids rData
      r.2.1 = (writeInOrder rt cpu stores).2 ∧
      (r.1 = true ↔ ids.length ≤ rData.length ∧ (writeInOrder rt cpu stores).1 = true) ∧
      (r.1 = true → r.2.2 = rData.drop ids.length) ∧
      (rData.length < ids.length → (writeInOrder rt cpu stores).1 = true → r.2.2 = []) := by
  induction ids with
  | nil =>
    intro cpu rData
    simp [VectorIdentifierExpression.WriteLoop, writeInOrder]
  | cons Id ids ih =>
    intro cpu rData
    cases rData with
    | nil => simp [VectorIdentifierExpression.WriteLoop, writeInOrder]
    | cons front rest =>
      simp only [VectorIdentifierExpression.WriteLoop, List.zipWith_cons_cons, writeInOrder]
      rcases hw : rt.Cpu.WriteRegister cpu Id (front.ConvertTo 64)
        ((rt.CpuInfo m_pCpuInfo).GetSizeOfRegisterInBit Id) with ⟨ok, cpu1⟩
      cases ok with
      | false => simp
      | true =>
        have h := ih cpu1 rest
        simp only [List.length_cons, Nat.add_le_add_iff_right, Nat.add_lt_add_iff_right,
          List.drop_succ_cons]
        exact h

/-! ## Properties of the vector write -/

/-- C21: `VectorIdentifierExpression::Write` over ids `[r0..rn-1]` and data `d`
performs the register writes of `reversedStores` in order (the `k`-th datum from
the front, converted to `u64`, goes to `r_{n-1-k}`) and stops at the first that
fails.  It returns true exactly when `d` has at least `n` elements and every
write succeeds, and then exactly the first `n` data were removed.  When `d` has
fewer than `n` elements and its writes succeed, it returns false with all the
data written and the container empty. -/
theorem VectorIdentifier_Write_consumes_reversed {σ μ : Type} (rt : Runtime σ μ) (cpu : σ)
    (m_VecId : List Nat) (m_pCpuInfo : Nat) (rData : DataContainerType) :
    ((VectorIdentifierExpression.Write rt cpu m_VecId m_pCpuInfo rData).1 = true ↔
      m_VecId.length ≤ rData.length ∧
        (writeInOrder rt cpu (reversedStores rt m_pCpuInfo m_VecId rData)).1 = true) ∧
    (VectorIdentifierExpression.Write rt cpu m_VecId m_pCpuInfo rData).2.1 =
      (writeInOrder rt cpu (reversedStores rt m_pCpuInfo m_VecId rData)).2 ∧
    ((VectorIdentifierExpression.Write rt cpu m_VecId m_pCpuInfo rData).1 = true →
      (VectorIdentifierExpression.Write rt cpu m_VecId m_pCpuInfo rData).2.2 =
        rData.drop m_VecId.length) ∧
    (rData.length < m_VecId.length →
      (writeInOrder rt cpu (reversedStores rt m_pCpuInfo m_VecId rData)).1 = true →
      (VectorIdentifierExpression.Write rt cpu m_VecId m_pCpuInfo rData).1 = false ∧
      (VectorIdentifierExpression.Write rt cpu m_VecId m_pCpuInfo rData).2.2 = [] ∧
      (reversedStores rt m_pCpuInfo m_VecId rData).length = rData.length) ∧
    (∀ (k Id : Nat) (datum : BitVector), k < m_VecId.length →
      m_VecId[m_VecId.length - 1 - k]? = some Id → rData[k]? = some datum →
      (reversedStores rt m_pCpuInfo m_VecId rData)[k]? =
        some (Id, datum.ConvertTo 64, (rt.CpuInfo m_pCpuInfo).GetSizeOfRegisterInBit Id)) := by
  have h := VectorIdentifier_WriteLoop_closed rt m_pCpuInfo m_VecId.reverse cpu rData
  simp only [List.length_reverse] at h
  obtain ⟨hcpu, hiff, hdrop, hshort⟩ := h
  refine ⟨hiff, hcpu, hdrop, ?_, ?_⟩
  · intro hlt hall
    refine ⟨?_, hshort hlt hall, ?_⟩
    · cases hb : (VectorIdentifierExpression.Write rt cpu m_VecId m_pCpuInfo rData).1 with
      | false => rfl
      | true =>
        have := (hiff.mp hb).1
        omega
    · simp only [reversedStores, List.length_zipWith, List.length_reverse]
      omega
  · intro k Id datum hk hid hd
    simp only [reversedStores, List.getElem?_zipWith, List.getElem?_reverse hk, hid, hd]

/-! ## Properties of GetBitSize -/

theorem foldl_u32_sum (width : Nat → Nat) (ids : List Nat) :
    ∀ acc : Nat, acc + (ids.map width).sum < 2 ^ 32 →
      ids.foldl (fun SizeInBit Id => (SizeInBit + width Id) % 2 ^ 32) acc =
        acc + (ids.map width).sum := by
  induction ids with
  | nil => intro acc _; simp
  | cons Id rest ih =>
    intro acc hlt
    simp only [List.map_cons, List.sum_cons] at hlt
    simp only [List.foldl_cons, List.map_cons, List.sum_cons]
    have hsmall : acc + width Id < 2 ^ 32 := by omega
    rw [Nat.mod_eq_of_lt hsmall, ih (acc + width Id) (by omega)]
    omega

theorem sum_pos_of_widths_pos (width : Nat → Nat) (ids : List Nat) (hne : ids ≠ [])
    (hpos : ∀ Id ∈ ids, width Id ≠ 0) : (ids.map width).sum ≠ 0 := by
  cases ids with
  | nil => exact absurd rfl hne
  | cons Id rest =>
    have := hpos Id (List.mem_cons_self Id rest)
    simp only [List.map_cons, List.sum_cons]
    omega

/-- C22: for a BinaryOp node with children `l` and `r` whose `GetBitSize` calls
return `a` and `b`, `GetBitSize` returns `max a b`, whatever the op code. -/
theorem BinaryOperation_GetBitSize_max (info : Nat → CpuInformation)
    (inHeader : BitSizeCall → Expression → Except Fault Nat) (heap : Heap) (fuel : Nat)
    (h : Handle) (m_OpType : OpType) (l r : SPType) (a b : Nat)
    (hnode : heap[h]? = some (.BinaryOperation m_OpType l r))
    (hl : GetBitSize info inHeader heap fuel l = .ok a)
    (hr : GetBitSize info inHeader heap fuel r = .ok b) :
    GetBitSize info inHeader heap (fuel + 1) (some h) = .ok (max a b) := by
  simp only [GetBitSize, deref, hnode, Expression.GetBitSize, BinaryOperationExpression.GetBitSize,
    hl, hr]

/-- C22 at the expression `(Id32(eax) + int32(0x1))` of scenario S2: both children
have 32 bits, and so has the sum. -/
theorem BinaryOperation_GetBitSize_max_witness :
    GetBitSize (fun _ => ⟨fun _ => 32⟩) zeroInHeader addOneToRegister 2 (some 2) = .ok 32 :=
  BinaryOperation_GetBitSize_max (fun _ => ⟨fun _ => 32⟩) zeroInHeader addOneToRegister 1 2
    OpType.OpAdd (some 0) (some 1) 32 32 rfl rfl rfl

/-- C23 as stated fails: a symbolic expression over a 32-bit register reports
bit-size 0. -/
theorem Symbolic_GetBitSize_zero_over_sized_child :
    GetBitSize (fun _ => ⟨fun _ => 32⟩) zeroInHeader symbolicOverIdentifier 1 (some 0) = .ok 32 ∧
    GetBitSize (fun _ => ⟨fun _ => 32⟩) zeroInHeader symbolicOverIdentifier 2 (some 1) = .ok 0 :=
  ⟨rfl, rfl⟩

/-- C23, amended: the bit-size of a node is derived from its parts for the
classes Identifier (CPU-info width), Memory (access size), UnaryOp and Track
(size of the child), BinaryOp (max of the children), VectorIdentifier (sum of
the member widths, in the `u32` range) and Variable (its bit-size attribute),
and it is non-zero when the sizes of the parts are; a Symbolic node reports 0
whatever its sub-expression. -/
theorem GetBitSize_derived_from_parts (info : Nat → CpuInformation)
    (inHeader : BitSizeCall → Expression → Except Fault Nat) (heap : Heap) (fuel : Nat)
    (h : Handle) (node : Expression) (hnode : heap[h]? = some node) :
    (∀ m_Id m_pCpuInfo, node = .Identifier m_Id m_pCpuInfo →
      GetBitSize info inHeader heap (fuel + 1) (some h) =
        .ok ((info m_pCpuInfo).GetSizeOfRegisterInBit m_Id)) ∧
    (∀ m_AccessSizeInBit base off m_Dereference,
      node = .Memory m_AccessSizeInBit base off m_Dereference →
      GetBitSize info inHeader heap (fuel + 1) (some h) = .ok m_AccessSizeInBit) ∧
    (∀ m_OpType c, node = .UnaryOperation m_OpType c →
      GetBitSize info inHeader heap (fuel + 1) (some h) = GetBitSize info inHeader heap fuel c) ∧
    (∀ c m_CurAddr m_Pos, node = .Track c m_CurAddr m_Pos →
      GetBitSize info inHeader heap (fuel + 1) (some h) = GetBitSize info inHeader heap fuel c) ∧
    (∀ m_OpType l r a b, node = .BinaryOperation m_OpType l r →
      GetBitSize info inHeader heap fuel l = .ok a →
      GetBitSize info inHeader heap fuel r = .ok b →
      GetBitSize info inHeader heap (fuel + 1) (some h) = .ok (max a b) ∧
        (a ≠ 0 → b ≠ 0 → max a b ≠ 0)) ∧
    (∀ m_VecId m_pCpuInfo, node = .VectorIdentifier m_VecId m_pCpuInfo →
      (m_VecId.map (info m_pCpuInfo).GetSizeOfRegisterInBit).sum < 2 ^ 32 →
      GetBitSize info inHeader heap (fuel + 1) (some h) =
          .ok (m_VecId.map (info m_pCpuInfo).GetSizeOfRegisterInBit).sum ∧
        (m_VecId ≠ [] → (∀ Id ∈ m_VecId, (info m_pCpuInfo).GetSizeOfRegisterInBit Id ≠ 0) →
          (m_VecId.map (info m_pCpuInfo).GetSizeOfRegisterInBit).sum ≠ 0)) ∧
    (∀ m_Name m_Action m_BitSize, node = .Variable m_Name m_Action m_BitSize →
      GetBitSize info inHeader heap (fuel + 1) (some h) = .ok m_BitSize) ∧
    (∀ m_Type m_Value m_Address c, node = .Symbolic m_Type m_Value m_Address c →
      GetBitSize info inHeader heap (fuel + 1) (some h) = .ok 0) := by
  refine ⟨?_, ?_, ?_, ?_, ?_, ?_, ?_, ?_⟩
  · intro m_Id m_pCpuInfo hn
    subst hn
    simp only [GetBitSize, deref, hnode, Expression.GetBitSize, IdentifierExpression.GetBitSize]
  · intro s base off d hn
    subst hn
    simp only [GetBitSize, deref, hnode, Expression.GetBitSize, MemoryExpression.GetBitSize]
  · intro op c hn
    subst hn
    simp only [GetBitSize, deref, hnode, Expression.GetBitSize,
      UnaryOperationExpression.GetBitSize]
  · intro c a p hn
    subst hn
    simp only [GetBitSize, deref, hnode, Expression.GetBitSize, TrackExpression.GetBitSize]
  · intro op l r a b hn hl hr
    subst hn
    refine ⟨?_, ?_⟩
    · simp only [GetBitSize, deref, hnode, Expression.GetBitSize,
        BinaryOperationExpression.GetBitSize, hl, hr]
    · intro ha _
      omega
  · intro ids ci hn hsum
    subst hn
    refine ⟨?_, sum_pos_of_widths_pos _ ids⟩
    have hf := foldl_u32_sum (info ci).GetSizeOfRegisterInBit ids 0 (by omega)
    simp only [GetBitSize, deref, hnode, Expression.GetBitSize,
      VectorIdentifierExpression.GetBitSize, hf, Nat.zero_add]
  · intro n a s hn
    subst hn
    simp only [GetBitSize, deref, hnode, Expression.GetBitSize, VariableExpression.GetBitSize]
  · intro t v a c hn
    subst hn
    simp only [GetBitSize, deref, hnode, Expression.GetBitSize, SymbolicExpression.GetBitSize]

/-- C23, amended, at the VectorIdentifier of two 32-bit registers in `sizedNodes`:
it reports 64 bits, which is not zero. -/
theorem GetBitSize_derived_from_parts_witness :
    GetBitSize (fun _ => ⟨fun _ => 32⟩) zeroInHeader sizedNodes 2 (some 3) = .ok 64 ∧
    (64 : Nat) ≠ 0 :=
  ((GetBitSize_derived_from_parts (fun _ => ⟨fun _ => 32⟩) zeroInHeader sizedNodes 1 3
    (.VectorIdentifier [0, 1] 0) rfl).2.2.2.2.2.1 [0, 1] 0 rfl (by decide)).imp id
    (fun hpos => hpos (by decide) (by decide))

/-! ## Lemmas on the destination of an assignment -/

theorem nodeStep_refl (spNewExpr : SPType) (node : Expression) : nodeStep spNewExpr node node :=
  ⟨rfl, fun dst1 src1 h => ⟨dst1, src1, h, Or.inl rfl⟩⟩

theorem nodeStep_trans (spNewExpr : SPType) (a b c : Expression) (hab : nodeStep spNewExpr a b)
    (hbc : nodeStep spNewExpr b c) : nodeStep spNewExpr a c := by
  refine ⟨hbc.1.trans hab.1, ?_⟩
  intro dst2 src2 hc
  obtain ⟨dst1, src1, hb, h12⟩ := hbc.2 dst2 src2 hc
  obtain ⟨dst, src, ha, h01⟩ := hab.2 dst1 src1 hb
  refine ⟨dst, src, ha, ?_⟩
  rcases h12 with h12 | h12
  · rcases h01 with h01 | h01
    · exact Or.inl (h12.trans h01)
    · exact Or.inr (h12.trans h01)
  · exact Or.inr h12

theorem heapStep_refl (spNewExpr : SPType) (heap : Heap) : heapStep spNewExpr heap heap :=
  ⟨rfl, fun _ node1 h => ⟨node1, h, nodeStep_refl spNewExpr node1⟩⟩

theorem heapStep_trans (spNewExpr : SPType) (a b c : Heap) (hab : heapStep spNewExpr a b)
    (hbc : heapStep spNewExpr b c) : heapStep spNewExpr a c := by
  refine ⟨hbc.1.trans hab.1, ?_⟩
  intro i node2 hc
  obtain ⟨node1, hb, h12⟩ := hbc.2 i node2 hc
  obtain ⟨node, ha, h01⟩ := hab.2 i node1 hb
  exact ⟨node, ha, nodeStep_trans spNewExpr _ _ _ h01 h12⟩

theorem heapStep_set (spNewExpr : SPType) (heap : Heap) (h : Handle) (node node1 : Expression)
    (hnode : heap[h]? = some node) (hstep : nodeStep spNewExpr node node1) :
    heapStep spNewExpr heap (heap.set h node1) := by
  refine ⟨List.length_set _ _ _, ?_⟩
  intro i n1 hi
  by_cases hih : h = i
  · subst hih
    have hlt : h < heap.length := by
      rcases Nat.lt_or_ge h heap.length with hlt | hge
      · exact hlt
      · rw [List.getElem?_eq_none hge] at hnode
        cases hnode
    rw [List.getElem?_set_self hlt] at hi
    cases hi
    exact ⟨node, hnode, hstep⟩
  · rw [List.getElem?_set_ne hih] at hi
    exact ⟨n1, hi, nodeStep_refl spNewExpr n1⟩

theorem stepsFrom_ok (spNewExpr : SPType) (heap0 heap1 : Heap) (b : Bool)
    (h : heapStep spNewExpr heap0 heap1) : stepsFrom spNewExpr heap0 (.ok (b, heap1)) := by
  intro b1 heap2 heq
  cases heq
  exact h

theorem stepsFrom_returnIfUpdated (spNewExpr : SPType) (heap0 : Heap)
    (r : Except Fault (Bool × Heap)) (k : Heap → Except Fault (Bool × Heap))
    (hr : stepsFrom spNewExpr heap0 r)
    (hk : ∀ heap1, heapStep spNewExpr heap0 heap1 → stepsFrom spNewExpr heap0 (k heap1)) :
    stepsFrom spNewExpr heap0 (returnIfUpdated r k) := by
  intro b heap2 heq
  unfold returnIfUpdated at heq
  split at heq
  · cases heq
  · cases heq
    exact hr true _ rfl
  · exact hk _ (hr false _ rfl) b heap2 heq

theorem nodeStep_of_not_assignment (spNewExpr : SPType) (node node1 : Expression)
    (hloc : node1.isLocation = node.isLocation)
    (hna : ∀ dst1 src1, node1 ≠ .Assignment dst1 src1) : nodeStep spNewExpr node node1 :=
  ⟨hloc, fun dst1 src1 h => absurd h (hna dst1 src1)⟩

theorem stepsFrom_set (spNewExpr : SPType) (heap0 heap : Heap) (h : Handle)
    (node node1 : Expression) (h0 : heapStep spNewExpr heap0 heap)
    (hnode : heap[h]? = some node) (hstep : nodeStep spNewExpr node node1) :
    stepsFrom spNewExpr heap0 (.ok (true, heap.set h node1)) :=
  stepsFrom_ok spNewExpr _ _ _
    (heapStep_trans spNewExpr _ _ _ h0 (heapStep_set spNewExpr heap h node node1 hnode hstep))

theorem Bind_UpdateLoop_steps (spNewExpr : SPType) (upd : UpdateCall) (heap0 : Heap)
    (hupd : ∀ heap1 c, heapStep spNewExpr heap0 heap1 → stepsFrom spNewExpr heap0 (upd heap1 c))
    (es : List SPType) :
    ∀ heap, heapStep spNewExpr heap0 heap →
      stepsFrom spNewExpr heap0 (BindExpression.UpdateLoop upd heap es) := by
  induction es with
  | nil =>
    intro heap h0
    exact stepsFrom_ok spNewExpr _ _ _ h0
  | cons e rest ih =>
    intro heap h0
    simp only [BindExpression.UpdateLoop]
    exact stepsFrom_returnIfUpdated spNewExpr heap0 _ _ (hupd heap e h0) fun heap1 h1 => ih heap1 h1

theorem Expression_UpdateChild_steps (spOldExpr spNewExpr : SPType) (cmp : CompareCall)
    (upd : UpdateCall) (heap0 heap : Heap) (h : Handle) (node : Expression)
    (hupd : ∀ heap1 c, heapStep spNewExpr heap0 heap1 → stepsFrom spNewExpr heap0 (upd heap1 c))
    (h0 : heapStep spNewExpr heap0 heap) (hnode : heap[h]? = some node) :
    stepsFrom spNewExpr heap0 (Expression.UpdateChild cmp upd heap h node spOldExpr spNewExpr) := by
  have hset : ∀ node1, nodeStep spNewExpr node node1 →
      stepsFrom spNewExpr heap0 (.ok (true, heap.set h node1)) :=
    fun node1 hs => stepsFrom_set spNewExpr heap0 heap h node node1 h0 hnode hs
  have hchain := stepsFrom_returnIfUpdated spNewExpr heap0
  have hok : ∀ b heap1, heapStep spNewExpr heap0 heap1 →
      stepsFrom spNewExpr heap0 (.ok (b, heap1)) :=
    fun b heap1 hs => stepsFrom_ok spNewExpr heap0 heap1 b hs
  cases node with
  | Bind es =>
    simp only [Expression.UpdateChild, BindExpression.UpdateChild]
    split
    · exact hset _ (nodeStep_of_not_assignment _ _ _ rfl (by intro _ _ hc; cases hc))
    · exact Bind_UpdateLoop_steps spNewExpr upd heap0 hupd es heap h0
  | TernaryCondition t a b c d =>
    simp only [Expression.UpdateChild, TernaryConditionExpression.UpdateChild]
    split_ifs
    · exact hset _ (nodeStep_of_not_assignment _ _ _ rfl (by intro _ _ hc; cases hc))
    · exact hset _ (nodeStep_of_not_assignment _ _ _ rfl (by intro _ _ hc; cases hc))
    · exact hset _ (nodeStep_of_not_assignment _ _ _ rfl (by intro _ _ hc; cases hc))
    · exact hset _ (nodeStep_of_not_assignment _ _ _ rfl (by intro _ _ hc; cases hc))
    · exact hchain _ _ (hupd _ _ h0) fun h1 s1 => hchain _ _ (hupd _ _ s1) fun h2 s2 =>
        hchain _ _ (hupd _ _ s2) fun h3 s3 => hchain _ _ (hupd _ _ s3) fun h4 s4 => hok _ _ s4
  | IfElseCondition t a b c d =>
    simp only [Expression.UpdateChild, IfElseConditionExpression.UpdateChild]
    split_ifs
    · exact hset _ (nodeStep_of_not_assignment _ _ _ rfl (by intro _ _ hc; cases hc))
    · exact hset _ (nodeStep_of_not_assignment _ _ _ rfl (by intro _ _ hc; cases hc))
    · exact hset _ (nodeStep_of_not_assignment _ _ _ rfl (by intro _ _ hc; cases hc))
    · exact hset _ (nodeStep_of_not_assignment _ _ _ rfl (by intro _ _ hc; cases hc))
    · exact hchain _ _ (hupd _ _ h0) fun h1 s1 => hchain _ _ (hupd _ _ s1) fun h2 s2 =>
        hchain _ _ (hupd _ _ s2) fun h3 s3 => hchain _ _ (hupd _ _ s3) fun h4 s4 => hok _ _ s4
    · exact hchain _ _ (hupd _ _ h0) fun h1 s1 => hchain _ _ (hupd _ _ s1) fun h2 s2 =>
        hchain _ _ (hupd _ _ s2) fun h3 s3 => hchain _ _ (hok _ _ s3) fun h4 s4 => hok _ _ s4
  | WhileCondition t a b c =>
    simp only [Expression.UpdateChild, WhileConditionExpression.UpdateChild]
    split_ifs
    · exact hset _ (nodeStep_of_not_assignment _ _ _ rfl (by intro _ _ hc; cases hc))
    · exact hset _ (nodeStep_of_not_assignment _ _ _ rfl (by intro _ _ hc; cases hc))
    · exact hset _ (nodeStep_of_not_assignment _ _ _ rfl (by intro _ _ hc; cases hc))
    · exact hchain _ _ (hupd _ _ h0) fun h1 s1 => hchain _ _ (hupd _ _ s1) fun h2 s2 =>
        hchain _ _ (hupd _ _ s2) fun h3 s3 => hok _ _ s3
  | Assignment dst src =>
    simp only [Expression.UpdateChild, AssignmentExpression.UpdateChild]
    split_ifs
    · exact hset _ ⟨rfl, fun dst1 src1 hc => ⟨dst, src, rfl, by cases hc; exact Or.inr rfl⟩⟩
    · exact hset _ ⟨rfl, fun dst1 src1 hc => ⟨dst, src, rfl, by cases hc; exact Or.inl rfl⟩⟩
    · exact hchain _ _ (hupd _ _ h0) fun h1 s1 => hchain _ _ (hupd _ _ s1) fun h2 s2 =>
        hok _ _ s2
  | UnaryOperation op c =>
    simp only [Expression.UpdateChild, UnaryOperationExpression.UpdateChild]
    split_ifs
    · exact hok _ _ h0
    · exact hset _ (nodeStep_of_not_assignment _ _ _ rfl (by intro _ _ hc; cases hc))
  | BinaryOperation op l r =>
    simp only [Expression.UpdateChild, BinaryOperationExpression.UpdateChild]
    split_ifs
    · exact hset _ (nodeStep_of_not_assignment _ _ _ rfl (by intro _ _ hc; cases hc))
    · exact hset _ (nodeStep_of_not_assignment _ _ _ rfl (by intro _ _ hc; cases hc))
    · exact hchain _ _ (hupd _ _ h0) fun h1 s1 => hchain _ _ (hupd _ _ s1) fun h2 s2 =>
        hok _ _ s2
  | Memory s base off d =>
    simp only [Expression.UpdateChild, MemoryExpression.UpdateChild]
    split_ifs
    · exact hset _ (nodeStep_of_not_assignment _ _ _ rfl (by intro _ _ hc; cases hc))
    · exact hset _ (nodeStep_of_not_assignment _ _ _ rfl (by intro _ _ hc; cases hc))
    · exact hchain _ _ (hupd _ _ h0) fun h1 s1 => hchain _ _ (hupd _ _ s1) fun h2 s2 =>
        hok _ _ s2
    · exact hchain _ _ (hok _ _ h0) fun h1 s1 => hchain _ _ (hupd _ _ s1) fun h2 s2 =>
        hok _ _ s2
  | Symbolic t v a c =>
    simp only [Expression.UpdateChild, SymbolicExpression.UpdateChild]
    split
    · intro b heap1 hc
      cases hc
    · split
      · exact hset _ (nodeStep_of_not_assignment _ _ _ rfl (by intro _ _ hc; cases hc))
      · exact hupd _ _ h0
  | System _ _ => exact hok _ _ h0
  | BitVector _ => exact hok _ _ h0
  | Identifier _ _ => exact hok _ _ h0
  | VectorIdentifier _ _ => exact hok _ _ h0
  | Track _ _ _ => exact hok _ _ h0
  | Variable _ _ _ => exact hok _ _ h0

/-- `UpdateChild(old, new)` adds and removes no object, keeps every object
location-typed or not as it was, and changes the destination of an Assignment
to `new` if at all. -/
theorem UpdateChild_steps (spOldExpr spNewExpr : SPType) (heap0 : Heap) (fuel : Nat) :
    ∀ (heap : Heap) (this : SPType), heapStep spNewExpr heap0 heap →
      stepsFrom spNewExpr heap0 (UpdateChild fuel heap this spOldExpr spNewExpr) := by
  induction fuel with
  | zero =>
    intro heap this _ b heap1 hc
    simp only [UpdateChild] at hc
    cases hc
  | succ fuel ih =>
    intro heap this h0
    cases this with
    | none =>
      intro b heap1 hc
      simp only [UpdateChild] at hc
      cases hc
    | some h =>
      cases hnode : heap[h]? with
      | none =>
        intro b heap1 hc
        simp only [UpdateChild, hnode] at hc
        cases hc
      | some node =>
        simp only [UpdateChild, hnode]
        exact Expression_UpdateChild_steps spOldExpr spNewExpr _ _ heap0 heap h node
          (fun heap1 c h1 => ih heap1 c h1) h0 hnode

theorem destinationsLocated_iff (heap : Heap) :
    destinationsLocated heap = true ↔
      ∀ (i : Nat) (dst src : SPType), heap[i]? = some (.Assignment dst src) →
        locationTyped heap dst = true := by
  unfold destinationsLocated
  rw [List.all_eq_true]
  constructor
  · intro hall i dst src hi
    exact hall _ (List.getElem?_mem hi)
  · intro hidx node hmem
    obtain ⟨i, hi⟩ := List.mem_iff_getElem?.mp hmem
    cases node with
    | Assignment dst src => exact hidx i dst src hi
    | _ => rfl

theorem locationTyped_heapStep (spNewExpr : SPType) (heap heap1 : Heap)
    (hstep : heapStep spNewExpr heap heap1) (sp : SPType) :
    locationTyped heap1 sp = locationTyped heap sp := by
  cases sp with
  | none => rfl
  | some h =>
    cases h1 : heap1[h]? with
    | some node1 =>
      obtain ⟨node, hn, hs⟩ := hstep.2 h node1 h1
      simp only [locationTyped, deref, h1, hn, hs.1]
    | none =>
      have hge : heap.length ≤ h := by
        rw [← hstep.1]
        exact List.getElem?_eq_none_iff.mp h1
      simp only [locationTyped, deref, h1, List.getElem?_eq_none hge]

theorem destinationsLocated_heapStep (spNewExpr : SPType) (heap heap1 : Heap)
    (hstep : heapStep spNewExpr heap heap1) (hinv : destinationsLocated heap = true)
    (hnew : locationTyped heap spNewExpr = true) : destinationsLocated heap1 = true := by
  rw [destinationsLocated_iff] at hinv ⊢
  intro i dst1 src1 hi
  obtain ⟨node, hn, hs⟩ := hstep.2 i _ hi
  obtain ⟨dst, src, hnode, hdst⟩ := hs.2 dst1 src1 rfl
  subst hnode
  rw [locationTyped_heapStep spNewExpr heap heap1 hstep]
  rcases hdst with hdst | hdst
  · rw [hdst]
    exact hinv i dst src hn
  · rw [hdst]
    exact hnew

/-! ## Properties of the destination of an assignment -/

/-- C24 as stated fails: `UpdateChild(dst, literal)` on
`MakeAssign(MakeId(0, info), MakeBitVector(32, 1))` returns true and leaves the
assignment with a literal as its destination. -/
theorem UpdateChild_puts_literal_in_destination :
    destinationsLocated assignRegister = true ∧
    UpdateChild 1 assignRegister (some 2) (some 0) (some 3) = .ok (true, assignLiteral) ∧
    destinationsLocated assignLiteral = false := by
  decide

theorem keptDestination_iff (heap heap1 : Heap) (i : Nat) :
    keptDestination heap heap1 i = true ↔
      ∀ dst1 src1, heap1[i]? = some (.Assignment dst1 src1) →
        ∃ src, heap[i]? = some (.Assignment dst1 src) := by
  unfold keptDestination
  cases h1 : heap1[i]? with
  | none => simp
  | some node1 =>
    cases node1 with
    | Assignment dst1 src1 =>
      cases h0 : heap[i]? with
      | none => simp
      | some node =>
        cases node with
        | Assignment dst src =>
          simp only [decide_eq_true_eq, Option.some.injEq, Expression.Assignment.injEq,
            and_imp, forall_apply_eq_imp_iff, forall_eq', exists_eq_right]
          constructor
          · intro h
            exact ⟨src, h, rfl⟩
          · rintro ⟨_, h, -⟩
            exact h
        | _ => simp
    | _ => simp

/-- After a call that only took `heapStep`s from a heap whose destinations are
location-typed, the destinations are location-typed exactly when the call
replaced none of them by an expression that is not. -/
theorem destinationsLocated_eq_replacedByLocation (spNewExpr : SPType) (heap heap1 : Heap)
    (hstep : heapStep spNewExpr heap heap1) (hinv : destinationsLocated heap = true) :
    destinationsLocated heap1 = replacedByLocation heap heap1 spNewExpr := by
  rw [Bool.eq_iff_iff]
  constructor
  · intro hinv1
    unfold replacedByLocation
    cases hloc : locationTyped heap spNewExpr with
    | true => rfl
    | false =>
      rw [Bool.false_or, List.all_eq_true]
      intro i _
      rw [keptDestination_iff]
      intro dst1 src1 h1
      obtain ⟨node, hn, hs⟩ := hstep.2 i _ h1
      obtain ⟨dst, src, hnode, hdst⟩ := hs.2 dst1 src1 rfl
      subst hnode
      rcases hdst with hdst | hdst
      · exact ⟨src, by rw [hn, hdst]⟩
      · have hl := (destinationsLocated_iff heap1).mp hinv1 i dst1 src1 h1
        rw [locationTyped_heapStep spNewExpr heap heap1 hstep, hdst, hloc] at hl
        cases hl
  · intro hP
    unfold replacedByLocation at hP
    rw [Bool.or_eq_true] at hP
    rcases hP with hloc | hkept
    · exact destinationsLocated_heapStep spNewExpr heap heap1 hstep hinv hloc
    · rw [destinationsLocated_iff]
      intro i dst1 src1 h1
      rw [List.all_eq_true] at hkept
      have hi : i < heap1.length := (List.getElem?_eq_some_iff.mp h1).1
      obtain ⟨src, h0⟩ := (keptDestination_iff heap heap1 i).mp
        (hkept i (List.mem_range.mpr hi)) dst1 src1 h1
      rw [locationTyped_heapStep spNewExpr heap heap1 hstep]
      exact (destinationsLocated_iff heap).mp hinv i dst1 src h0

/-- C24, amended: when every Assignment object has a location-typed destination
(Identifier, VectorIdentifier, dereferencing Memory or Variable), a sequence of
`UpdateChild` calls leaves every Assignment object with a location-typed
destination after each of its calls exactly when none of its calls replaces a
destination by an expression that is not location-typed.  Such a sequence, when
it returns, ends with every destination location-typed; and every sequence
whose replacement expressions are all location-typed is such a sequence. -/
theorem UpdateChildren_keep_destinations_located (fuel : Nat)
    (calls : List (SPType × SPType × SPType)) :
    ∀ (heap : Heap), destinationsLocated heap = true →
      locatedAfterEach fuel heap calls = replaceByLocations fuel heap calls ∧
      (∀ heap1, replaceByLocations fuel heap calls = true →
        UpdateChildren fuel heap calls = .ok heap1 → destinationsLocated heap1 = true) ∧
      ((∀ call ∈ calls, locationTyped heap call.2.2 = true) →
        replaceByLocations fuel heap calls = true) := by
  induction calls with
  | nil =>
    intro heap hinv
    refine ⟨rfl, ?_, fun _ => rfl⟩
    intro heap1 _ hrun
    simp only [UpdateChildren] at hrun
    cases hrun
    exact hinv
  | cons call rest ih =>
    intro heap hinv
    obtain ⟨this, spOldExpr, spNewExpr⟩ := call
    cases hcall : UpdateChild fuel heap this spOldExpr spNewExpr with
    | error f =>
      refine ⟨?_, ?_, ?_⟩
      · simp only [locatedAfterEach, replaceByLocations, hcall]
      · intro heap1 _ hrun
        simp only [UpdateChildren, hcall] at hrun
        cases hrun
      · intro _
        simp only [replaceByLocations, hcall]
    | ok r =>
      obtain ⟨b, heap2⟩ := r
      have hstep : heapStep spNewExpr heap heap2 :=
        UpdateChild_steps spOldExpr spNewExpr heap fuel heap this (heapStep_refl _ _) b heap2 hcall
      have hone := destinationsLocated_eq_replacedByLocation spNewExpr heap heap2 hstep hinv
      refine ⟨?_, ?_, ?_⟩
      · simp only [locatedAfterEach, replaceByLocations, hcall, ← hone]
        cases hinv2 : destinationsLocated heap2 with
        | false => rfl
        | true => rw [Bool.true_and, Bool.true_and, (ih heap2 hinv2).1]
      · intro heap1 hrep hrun
        simp only [replaceByLocations, hcall, Bool.and_eq_true, ← hone] at hrep
        simp only [UpdateChildren, hcall] at hrun
        exact (ih heap2 hrep.1).2.1 heap1 hrep.2 hrun
      · intro hnew
        have hloc := hnew _ (List.mem_cons_self _ _)
        have hinv2 : destinationsLocated heap2 = true :=
          destinationsLocated_heapStep spNewExpr heap heap2 hstep hinv hloc
        simp only [replaceByLocations, hcall, Bool.and_eq_true, ← hone]
        refine ⟨hinv2, (ih heap2 hinv2).2.2 ?_⟩
        intro c hc
        rw [locationTyped_heapStep spNewExpr heap heap2 hstep]
        exact hnew c (List.mem_cons_of_mem _ hc)

/-- C24, amended, at `assignSum`: a literal of the source is replaced by another
literal and then the destination by the variable at handle 5; no destination is
replaced by an expression that is not a location, and the destination of the
assignment is a location at the end. -/
theorem UpdateChildren_keep_destinations_located_witness :
    replaceByLocations 3 assignSum [(some 4, some 1, some 2), (some 4, some 0, some 5)] = true ∧
    UpdateChildren 3 assignSum [(some 4, some 1, some 2), (some 4, some 0, some 5)] =
      .ok [.Identifier 0 0, bitVector 32 1, bitVector 32 2,
        .BinaryOperation OpType.OpAdd (some 2) (some 2), .Assignment (some 5) (some 3),
        .Variable "tmp" ActionType.Use 0] ∧
    destinationsLocated
      [.Identifier 0 0, bitVector 32 1, bitVector 32 2,
        .BinaryOperation OpType.OpAdd (some 2) (some 2), .Assignment (some 5) (some 3),
        .Variable "tmp" ActionType.Use 0] = true :=
  ⟨by decide, by decide,
    (UpdateChildren_keep_destinations_located 3
      [(some 4, some 1, some 2), (some 4, some 0, some 5)] assignSum (by decide)).2.1 _
      (by decide) (by decide)⟩

/-! ## Properties of ToString -/

theorem binary_symbols_documented :
    ∀ op ∈ binaryOps, OperationExpression.ToString op ∈ documentedSymbols ++ ["↔"] := by
  decide

theorem binary_symbols_distinct :
    ∀ op ∈ binaryOps, ∀ other ∈ binaryOps,
      OperationExpression.ToString other = OperationExpression.ToString op → other = op := by
  decide

theorem append_literals (a b : String) (x : String) : a ++ (b ++ x) = (a ++ b) ++ x :=
  (String.append_assoc a b x).symm

/-- C25 as stated fails: a BinaryOp with op code Xchg renders with the symbol
`↔`, which is not in the documented symbol set. -/
theorem Xchg_symbol_not_documented :
    ToString examplePrinting (fun _ => ⟨fun _ => 32⟩) exchangeRegisters 2 (some 2) =
      .ok "(Id32(eax) ↔ Id32(ebx))" ∧
    OpType.OpXchg ∈ binaryOps ∧
    OperationExpression.ToString OpType.OpXchg ∉ documentedSymbols := by
  decide

/-- C25, amended: for a BinaryOp node whose op code is one of the 22 binary ops
and whose children render as `sl` and `sr`, `ToString` is `(sl op sr)` where `op`
is a member of the documented symbol set extended by `↔`, the symbol of Xchg;
distinct binary op codes render as distinct symbols. -/
theorem BinaryOperation_ToString_symbol (pr : Printing) (info : Nat → CpuInformation)
    (heap : Heap) (fuel : Nat) (h : Handle) (m_OpType : OpType) (l r : SPType) (sl sr : String)
    (hop : m_OpType ∈ binaryOps)
    (hnode : heap[h]? = some (.BinaryOperation m_OpType l r))
    (hl : ToString pr info heap fuel l = .ok sl)
    (hr : ToString pr info heap fuel r = .ok sr) :
    ToString pr info heap (fuel + 1) (some h) =
      .ok ("(" ++ sl ++ " " ++ OperationExpression.ToString m_OpType ++ " " ++ sr ++ ")") ∧
    OperationExpression.ToString m_OpType ∈ documentedSymbols ++ ["↔"] ∧
    (∀ other ∈ binaryOps,
      OperationExpression.ToString other = OperationExpression.ToString m_OpType →
        other = m_OpType) := by
  refine ⟨?_, ?_, ?_⟩
  · simp only [ToString, deref, hnode, Expression.ToString, BinaryOperationExpression.ToString,
      hl, hr, withText]
  · exact binary_symbols_documented m_OpType hop
  · exact binary_symbols_distinct m_OpType hop

/-- C25, amended, at the expression of scenario S2. -/
theorem BinaryOperation_ToString_symbol_witness :
    ToString examplePrinting (fun _ => ⟨fun _ => 32⟩) addOneToRegister 2 (some 2) =
      .ok "(Id32(eax) + int32(0x1))" :=
  (BinaryOperation_ToString_symbol examplePrinting (fun _ => ⟨fun _ => 32⟩) addOneToRegister 1 2
    OpType.OpAdd (some 0) (some 1) "Id32(eax)" "int32(0x1)" (by decide) rfl rfl rfl).1

/-- C26: for an IfElse node whose comparison kind is one of the ten operators
and whose ref, test and then children render as `sref`, `stest` and `sthen`,
`ToString` is `if (sref cmp stest) { sthen }` when the else branch is absent, and
that text followed by ` else { selse }` when the else branch is present and
renders as `selse`; `cmp` is the symbol of the kind. -/
theorem IfElse_ToString_form (pr : Printing) (info : Nat → CpuInformation) (heap : Heap)
    (fuel : Nat) (h : Handle) (kind : Nat) (ref test thn els : SPType)
    (sref stest sthen cmp : String)
    (hnode : heap[h]? = some (.IfElseCondition (kind + 1) ref test thn els))
    (hkind : comparisonSymbols[kind]? = some cmp)
    (href : ToString pr info heap fuel ref = .ok sref)
    (htest : ToString pr info heap fuel test = .ok stest)
    (hthen : ToString pr info heap fuel thn = .ok sthen) :
    (els = none →
      ToString pr info heap (fuel + 1) (some h) =
        .ok ("if (" ++ sref ++ " " ++ cmp ++ " " ++ stest ++ ") \x7b " ++ sthen ++ " \x7d")) ∧
    (∀ selse, els ≠ none → ToString pr info heap fuel els = .ok selse →
      ToString pr info heap (fuel + 1) (some h) =
        .ok ("if (" ++ sref ++ " " ++ cmp ++ " " ++ stest ++ ") \x7b " ++ sthen ++ " \x7d" ++
          " else \x7b " ++ selse ++ " \x7d")) := by
  have hlt : kind < 10 := by
    rcases Nat.lt_or_ge kind 10 with hlt | hge
    · exact hlt
    · rw [List.getElem?_eq_none (by simpa [comparisonSymbols] using hge)] at hkind
      cases hkind
  have hsym : s_StrCond.getD (kind + 1) "" = cmp := by
    have : s_StrCond = "???" :: comparisonSymbols := rfl
    rw [this, List.getD_cons_succ, List.getD_eq_getElem?_getD, hkind]
    rfl
  have hrefne : ref ≠ none := by
    intro hc
    subst hc
    cases fuel <;> simp [ToString, deref] at href
  have htestne : test ≠ none := by
    intro hc
    subst hc
    cases fuel <;> simp [ToString, deref] at htest
  have hlen : ¬ kind + 1 ≥ s_StrCond.length := by
    simp only [s_StrCond, List.length_cons, List.length_nil]
    omega
  have hcond : ConditionExpression.ToString (ToString pr info heap fuel) (kind + 1) ref test =
      .ok ("(" ++ sref ++ " " ++ cmp ++ " " ++ stest ++ ")") := by
    simp only [ConditionExpression.ToString, hrefne, htestne, hlen, or_self, if_false, href,
      htest, withText, hsym]
  have hopen : ∀ x : String, "if " ++ ("(" ++ x) = "if (" ++ x := fun x =>
    append_literals "if " "(" x
  have hbrace : ∀ x : String, ")" ++ (" \x7b " ++ x) = ") \x7b " ++ x := fun x =>
    append_literals ")" " \x7b " x
  constructor
  · intro hels
    simp only [ToString, deref, hnode, Expression.ToString, IfElseConditionExpression.ToString,
      hels, if_true, hcond, hthen, withText, String.append_assoc, hopen, hbrace]
  · intro selse hels helse
    have hclose : ∀ x : String, " \x7d" ++ (" else \x7b " ++ x) = " \x7d else \x7b " ++ x :=
      fun x => append_literals " \x7d" " else \x7b " x
    simp only [ToString, deref, hnode, Expression.ToString, IfElseConditionExpression.ToString,
      hels, if_false, hcond, hthen, helse, withText, String.append_assoc, hopen, hbrace, hclose]

/-- C26 at the IfElse of `branches` with an else branch and the kind Equal. -/
theorem IfElse_ToString_form_witness :
    ToString examplePrinting (fun _ => ⟨fun _ => 32⟩) branches 2 (some 4) =
      .ok "if (Id32(eax) == int32(0x1)) \x7b Id32(eax) \x7d else \x7b Id32(ebx) \x7d" :=
  (IfElse_ToString_form examplePrinting (fun _ => ⟨fun _ => 32⟩) branches 1 4 0 (some 0) (some 1)
    (some 0) (some 2) "Id32(eax)" "int32(0x1)" "Id32(eax)" "==" rfl rfl rfl rfl rfl).2
    "Id32(ebx)" (by decide) rfl

/-! ## Lemmas on the loops of Execute -/

/-- The ways the loops of `Execute` go on from the top of the inner loop: a
property that holds for each of them holds for every run of `Execution.Loop`. -/
theorem Loop_cases {ω : Type} (ex : Execution ω) (emul : Emulator ω) (clone : CloneCall)
    (ProgPtrReg ProgPtrRegSize : Nat) (BlkAddr : Address)
    (P : ω → Heap → Address → List SPType → Run ω → Prop)
    (hfuel : ∀ world heap CurAddr Sems, P world heap CurAddr Sems ⟨.OutOfFuel, world, heap, []⟩)
    (hfetch : ∀ world heap CurAddr Sems world1 heap1 steps,
      Execution.Fetch ex world heap CurAddr = (none, world1, heap1, steps) →
      P world heap CurAddr Sems ⟨.Returned, world1, heap1, steps⟩)
    (hfault : ∀ world heap CurAddr Sems insn world1 heap1 steps f,
      Execution.Fetch ex world heap CurAddr = (some insn, world1, heap1, steps) →
      Execution.Lift ex clone ProgPtrReg heap1 CurAddr insn = .error f →
      P world heap CurAddr Sems ⟨.Faulted f, world1, heap1, steps⟩)
    (hfail : ∀ world heap CurAddr Sems insn world1 heap1 steps pushed heap2 world2 heap3,
      Execution.Fetch ex world heap CurAddr = (some insn, world1, heap1, steps) →
      Execution.Lift ex clone ProgPtrReg heap1 CurAddr insn = .ok (pushed, heap2) →
      insn.GetSubType ≠ Instruction.NoneType →
      emul.Execute world1 heap2 BlkAddr (Sems ++ pushed) = (false, world2, heap3) →
      P world heap CurAddr Sems ⟨.Returned, world2, heap3,
        steps ++ [⟨world1, heap2, .EmulatorExecute BlkAddr (Sems ++ pushed)⟩]⟩)
    (hread : ∀ world heap CurAddr Sems insn world1 heap1 steps pushed heap2 world2 heap3,
      Execution.Fetch ex world heap CurAddr = (some insn, world1, heap1, steps) →
      Execution.Lift ex clone ProgPtrReg heap1 CurAddr insn = .ok (pushed, heap2) →
      insn.GetSubType ≠ Instruction.NoneType →
      emul.Execute world1 heap2 BlkAddr (Sems ++ pushed) = (true, world2, heap3) →
      ex.m_pCpuCtxt.ReadRegister world2 ProgPtrReg ProgPtrRegSize = none →
      P world heap CurAddr Sems ⟨.Returned, world2, heap3,
        steps ++ [⟨world1, heap2, .EmulatorExecute BlkAddr (Sems ++ pushed)⟩,
          ⟨world2, heap3, .ReadRegister ProgPtrReg ProgPtrRegSize⟩]⟩)
    (hblock : ∀ world heap CurAddr Sems insn world1 heap1 steps pushed heap2 world2 heap3
      NextInsn r,
      Execution.Fetch ex world heap CurAddr = (some insn, world1, heap1, steps) →
      Execution.Lift ex clone ProgPtrReg heap1 CurAddr insn = .ok (pushed, heap2) →
      insn.GetSubType ≠ Instruction.NoneType →
      emul.Execute world1 heap2 BlkAddr (Sems ++ pushed) = (true, world2, heap3) →
      ex.m_pCpuCtxt.ReadRegister world2 ProgPtrReg ProgPtrRegSize = some NextInsn →
      P world2 heap3
        ((CurAddr.SetOffset ((CurAddr.GetOffset + insn.GetLength) % 2 ^ TOffsetBits)).SetOffset
          NextInsn) [] r →
      P world heap CurAddr Sems
        (r.after (steps ++ [⟨world1, heap2, .EmulatorExecute BlkAddr (Sems ++ pushed)⟩,
          ⟨world2, heap3, .ReadRegister ProgPtrReg ProgPtrRegSize⟩])))
    (hgoon : ∀ world heap CurAddr Sems insn world1 heap1 steps pushed heap2 r,
      Execution.Fetch ex world heap CurAddr = (some insn, world1, heap1, steps) →
      Execution.Lift ex clone ProgPtrReg heap1 CurAddr insn = .ok (pushed, heap2) →
      insn.GetSubType = Instruction.NoneType →
      P world1 heap2 (CurAddr.SetOffset ((CurAddr.GetOffset + insn.GetLength) % 2 ^ TOffsetBits))
        (Sems ++ pushed) r →
      P world heap CurAddr Sems (r.after steps)) :
    ∀ fuel world heap CurAddr Sems,
      P world heap CurAddr Sems
        (Execution.Loop ex emul clone ProgPtrReg ProgPtrRegSize BlkAddr fuel world heap CurAddr
          Sems) := by
  intro fuel
  induction fuel with
  | zero =>
    intro world heap CurAddr Sems
    exact hfuel world heap CurAddr Sems
  | succ fuel ih =>
    intro world heap CurAddr Sems
    rcases hF : Execution.Fetch ex world heap CurAddr with ⟨o, world1, heap1, steps⟩
    cases o with
    | none =>
      simp only [Execution.Loop, hF]
      exact hfetch _ _ _ _ _ _ _ hF
    | some insn =>
      cases hL : Execution.Lift ex clone ProgPtrReg heap1 CurAddr insn with
      | error f =>
        simp only [Execution.Loop, hF, hL]
        exact hfault _ _ _ _ _ _ _ _ _ hF hL
      | ok res =>
        obtain ⟨pushed, heap2⟩ := res
        by_cases hsub : insn.GetSubType = Instruction.NoneType
        · simp only [Execution.Loop, hF, hL, hsub, ne_eq, not_true_eq_false, if_false]
          exact hgoon _ _ _ _ _ _ _ _ _ _ _ hF hL hsub (ih _ _ _ _)
        · rcases hE : emul.Execute world1 heap2 BlkAddr (Sems ++ pushed) with ⟨b, world2, heap3⟩
          cases b with
          | false =>
            simp only [Execution.Loop, hF, hL, hsub, ne_eq, not_false_eq_true, if_true, hE]
            exact hfail _ _ _ _ _ _ _ _ _ _ _ _ hF hL hsub hE
          | true =>
            cases hR : ex.m_pCpuCtxt.ReadRegister world2 ProgPtrReg ProgPtrRegSize with
            | none =>
              simp only [Execution.Loop, hF, hL, hsub, ne_eq, not_false_eq_true, if_true, hE, hR]
              exact hread _ _ _ _ _ _ _ _ _ _ _ _ hF hL hsub hE hR
            | some NextInsn =>
              simp only [Execution.Loop, hF, hL, hsub, ne_eq, not_false_eq_true, if_true, hE, hR]
              exact hblock _ _ _ _ _ _ _ _ _ _ _ _ _ _ hF hL hsub hE hR (ih _ _ _ _)

theorem disassembledAt_append {ω : Type} (s t : List (Step ω)) :
    disassembledAt (s ++ t) = disassembledAt s ++ disassembledAt t := by
  simp only [disassembledAt, List.filterMap_append]

theorem Fetch_found {ω : Type} (ex : Execution ω) (world world1 : ω) (heap heap1 : Heap)
    (CurAddr : Address) (insn : Instruction) (steps : List (Step ω))
    (hF : Execution.Fetch ex world heap CurAddr = (some insn, world1, heap1, steps)) :
    ex.m_rDoc.GetCell world1 CurAddr = some insn := by
  unfold Execution.Fetch at hF
  split at hF
  · simp only [Prod.mk.injEq] at hF
    obtain ⟨h1, h2, -, -⟩ := hF
    rw [← h2]
    exact h1
  · split at hF
    · simp at hF
    · split at hF
      · simp at hF
      · split at hF
        · simp at hF
        · simp only [Prod.mk.injEq] at hF
          obtain ⟨h1, h2, -, -⟩ := hF
          rw [← h2]
          exact h1

theorem Fetch_disassembles_absent {ω : Type} (ex : Execution ω) (world world1 : ω)
    (heap heap1 : Heap) (CurAddr : Address) (o : Option Instruction) (steps : List (Step ω))
    (hF : Execution.Fetch ex world heap CurAddr = (o, world1, heap1, steps)) :
    (∀ step ∈ steps, ∀ a CurOff Mode, step.call = .Disassemble a CurOff Mode →
      ex.m_rDoc.GetCell step.world a = none) ∧
    (disassembledAt steps = [] ∨
      (disassembledAt steps = [CurAddr] ∧ ex.m_rDoc.GetCell world CurAddr = none)) := by
  unfold Execution.Fetch at hF
  split at hF
  · simp only [Prod.mk.injEq] at hF
    obtain ⟨-, -, -, hs⟩ := hF
    subst hs
    refine ⟨?_, Or.inl rfl⟩
    intro step hmem a CurOff Mode hcall
    simp only [List.mem_cons, List.mem_singleton, List.not_mem_nil, or_false] at hmem
    rcases hmem with h | h <;> (subst h; cases hcall)
  · rename_i hnone
    split at hF
    · simp only [Prod.mk.injEq] at hF
      obtain ⟨-, -, -, hs⟩ := hF
      subst hs
      refine ⟨?_, Or.inl rfl⟩
      intro step hmem a CurOff Mode hcall
      simp only [List.mem_cons, List.mem_singleton, List.not_mem_nil, or_false] at hmem
      rcases hmem with h | h <;> (subst h; cases hcall)
    · split at hF
      · simp only [Prod.mk.injEq] at hF
        obtain ⟨-, -, -, hs⟩ := hF
        subst hs
        refine ⟨?_, Or.inr ⟨rfl, hnone⟩⟩
        intro step hmem a CurOff Mode hcall
        simp only [List.mem_cons, List.mem_singleton, List.not_mem_nil, or_false] at hmem
        rcases hmem with h | h | h <;> subst h <;> cases hcall
        exact hnone
      · split at hF
        · simp only [Prod.mk.injEq] at hF
          obtain ⟨-, -, -, hs⟩ := hF
          subst hs
          refine ⟨?_, Or.inr ⟨rfl, hnone⟩⟩
          intro step hmem a CurOff Mode hcall
          simp only [List.mem_cons, List.mem_singleton, List.not_mem_nil, or_false] at hmem
          rcases hmem with h | h | h | h <;> subst h <;> cases hcall
          exact hnone
        · simp only [Prod.mk.injEq] at hF
          obtain ⟨-, -, -, hs⟩ := hF
          subst hs
          refine ⟨?_, Or.inr ⟨rfl, hnone⟩⟩
          intro step hmem a CurOff Mode hcall
          simp only [List.mem_cons, List.mem_singleton, List.not_mem_nil, or_false] at hmem
          rcases hmem with h | h | h | h | h <;> subst h <;> cases hcall
          exact hnone

theorem Fetch_keeps_cells {ω : Type} (ex : Execution ω) (emul : Emulator ω)
    (hkeep : keepsCells ex emul) (world world1 : ω)
    (heap heap1 : Heap) (CurAddr : Address) (o : Option Instruction) (steps : List (Step ω))
    (hF : Execution.Fetch ex world heap CurAddr = (o, world1, heap1, steps)) :
    (∀ a1, ex.m_rDoc.GetCell world a1 ≠ none → ex.m_rDoc.GetCell world1 a1 ≠ none) ∧
    (∀ step ∈ steps, ∀ a, step.call = .GetCell a → ex.m_rDoc.GetCell step.world a ≠ none →
      ex.m_rDoc.GetCell world1 a ≠ none) := by
  obtain ⟨hset, hdis, -⟩ := hkeep
  unfold Execution.Fetch at hF
  split at hF
  · simp only [Prod.mk.injEq] at hF
    obtain ⟨-, hw, -, hs⟩ := hF
    subst hs hw
    refine ⟨fun a1 h => h, ?_⟩
    intro step hmem a hcall hsome
    simp only [List.mem_cons, List.mem_singleton, List.not_mem_nil, or_false] at hmem
    rcases hmem with h | h <;> (subst h; exact hsome)
  · split at hF
    · simp only [Prod.mk.injEq] at hF
      obtain ⟨-, hw, -, hs⟩ := hF
      subst hs hw
      refine ⟨fun a1 h => h, ?_⟩
      intro step hmem a hcall hsome
      simp only [List.mem_cons, List.mem_singleton, List.not_mem_nil, or_false] at hmem
      rcases hmem with h | h <;> (subst h; exact hsome)
    · split at hF
      · rename_i hD
        simp only [Prod.mk.injEq] at hF
        obtain ⟨-, hw, -, hs⟩ := hF
        subst hs hw
        have hk := fun a1 => hdis _ _ _ _ _ _ _ a1 hD
        refine ⟨hk, ?_⟩
        intro step hmem a hcall hsome
        simp only [List.mem_cons, List.mem_singleton, List.not_mem_nil, or_false] at hmem
        rcases hmem with h | h | h <;> (subst h; exact hk a hsome)
      · rename_i hD
        have hk := fun a1 => hdis _ _ _ _ _ _ _ a1 hD
        split at hF
        · rename_i hS
          have hk2 := fun a1 => hset _ _ _ _ _ a1 hS
          simp only [Prod.mk.injEq] at hF
          obtain ⟨-, hw, -, hs⟩ := hF
          subst hs hw
          refine ⟨fun a1 h => hk2 a1 (hk a1 h), ?_⟩
          intro step hmem a hcall hsome
          simp only [List.mem_cons, List.mem_singleton, List.not_mem_nil, or_false] at hmem
          rcases hmem with h | h | h | h
          · subst h; exact hk2 a (hk a hsome)
          · subst h; exact hk2 a (hk a hsome)
          · subst h; exact hk2 a (hk a hsome)
          · subst h; exact hk2 a hsome
        · rename_i hS
          have hk2 := fun a1 => hset _ _ _ _ _ a1 hS
          simp only [Prod.mk.injEq] at hF
          obtain ⟨-, hw, -, hs⟩ := hF
          subst hs hw
          refine ⟨fun a1 h => hk2 a1 (hk a1 h), ?_⟩
          intro step hmem a hcall hsome
          simp only [List.mem_cons, List.mem_singleton, List.not_mem_nil, or_false] at hmem
          rcases hmem with h | h | h | h | h
          · subst h; exact hk2 a (hk a hsome)
          · subst h; exact hk2 a (hk a hsome)
          · subst h; exact hk2 a (hk a hsome)
          · subst h; exact hk2 a hsome
          · subst h; exact hsome

theorem Loop_keeps_cells {ω : Type} (ex : Execution ω) (emul : Emulator ω) (clone : CloneCall)
    (ProgPtrReg ProgPtrRegSize : Nat) (BlkAddr : Address) (hkeep : keepsCells ex emul) :
    ∀ fuel world heap CurAddr Sems,
      (∀ a1, ex.m_rDoc.GetCell world a1 ≠ none →
        ex.m_rDoc.GetCell (Execution.Loop ex emul clone ProgPtrReg ProgPtrRegSize BlkAddr fuel
          world heap CurAddr Sems).world a1 ≠ none) ∧
      (∀ step ∈ (Execution.Loop ex emul clone ProgPtrReg ProgPtrRegSize BlkAddr fuel world heap
          CurAddr Sems).trace, ∀ a, step.call = .GetCell a →
        ex.m_rDoc.GetCell step.world a ≠ none →
        ex.m_rDoc.GetCell (Execution.Loop ex emul clone ProgPtrReg ProgPtrRegSize BlkAddr fuel
          world heap CurAddr Sems).world a ≠ none) := by
  have hemu := hkeep.2.2
  refine Loop_cases ex emul clone ProgPtrReg ProgPtrRegSize BlkAddr
    (fun world _ _ _ r =>
      (∀ a1, ex.m_rDoc.GetCell world a1 ≠ none → ex.m_rDoc.GetCell r.world a1 ≠ none) ∧
      (∀ step ∈ r.trace, ∀ a, step.call = .GetCell a →
        ex.m_rDoc.GetCell step.world a ≠ none → ex.m_rDoc.GetCell r.world a ≠ none))
    ?_ ?_ ?_ ?_ ?_ ?_ ?_
  · intro world heap CurAddr Sems
    exact ⟨fun a1 h => h, fun step hmem => absurd hmem (List.not_mem_nil _)⟩
  · intro world heap CurAddr Sems world1 heap1 steps hF
    exact Fetch_keeps_cells ex emul hkeep _ _ _ _ _ _ _ hF
  · intro world heap CurAddr Sems insn world1 heap1 steps f hF _
    exact Fetch_keeps_cells ex emul hkeep _ _ _ _ _ _ _ hF
  · intro world heap CurAddr Sems insn world1 heap1 steps pushed heap2 world2 heap3 hF _ _ hE
    obtain ⟨hk, hs⟩ := Fetch_keeps_cells ex emul hkeep _ _ _ _ _ _ _ hF
    have he := fun a1 => hemu _ _ _ _ _ _ _ a1 hE
    refine ⟨fun a1 h => he a1 (hk a1 h), ?_⟩
    intro step hmem a hcall hsome
    simp only [List.mem_append, List.mem_singleton] at hmem
    rcases hmem with h | h
    · exact he a (hs step h a hcall hsome)
    · subst h
      cases hcall
  · intro world heap CurAddr Sems insn world1 heap1 steps pushed heap2 world2 heap3 hF _ _ hE _
    obtain ⟨hk, hs⟩ := Fetch_keeps_cells ex emul hkeep _ _ _ _ _ _ _ hF
    have he := fun a1 => hemu _ _ _ _ _ _ _ a1 hE
    refine ⟨fun a1 h => he a1 (hk a1 h), ?_⟩
    intro step hmem a hcall hsome
    simp only [List.mem_append, List.mem_cons, List.mem_singleton, List.not_mem_nil,
      or_false] at hmem
    rcases hmem with h | h | h
    · exact he a (hs step h a hcall hsome)
    · subst h
      cases hcall
    · subst h
      cases hcall
  · intro world heap CurAddr Sems insn world1 heap1 steps pushed heap2 world2 heap3 NextInsn r
      hF _ _ hE _ ih
    obtain ⟨hk, hs⟩ := Fetch_keeps_cells ex emul hkeep _ _ _ _ _ _ _ hF
    have he := fun a1 => hemu _ _ _ _ _ _ _ a1 hE
    refine ⟨fun a1 h => ih.1 a1 (he a1 (hk a1 h)), ?_⟩
    intro step hmem a hcall hsome
    simp only [Run.after, List.mem_append, List.mem_cons, List.mem_singleton, List.not_mem_nil,
      or_false] at hmem
    rcases hmem with (h | h | h) | h
    · exact ih.1 a (he a (hs step h a hcall hsome))
    · subst h
      cases hcall
    · subst h
      cases hcall
    · exact ih.2 step h a hcall hsome
  · intro world heap CurAddr Sems insn world1 heap1 steps pushed heap2 r hF _ _ ih
    obtain ⟨hk, hs⟩ := Fetch_keeps_cells ex emul hkeep _ _ _ _ _ _ _ hF
    refine ⟨fun a1 h => ih.1 a1 (hk a1 h), ?_⟩
    intro step hmem a hcall hsome
    simp only [Run.after, List.mem_append] at hmem
    rcases hmem with h | h
    · exact ih.1 a (hs step h a hcall hsome)
    · exact ih.2 step h a hcall hsome

theorem Loop_disassembles_absent {ω : Type} (ex : Execution ω) (emul : Emulator ω)
    (clone : CloneCall) (ProgPtrReg ProgPtrRegSize : Nat) (BlkAddr : Address) :
    ∀ fuel world heap CurAddr Sems,
      ∀ step ∈ (Execution.Loop ex emul clone ProgPtrReg ProgPtrRegSize BlkAddr fuel world heap
          CurAddr Sems).trace, ∀ a CurOff Mode, step.call = .Disassemble a CurOff Mode →
        ex.m_rDoc.GetCell step.world a = none := by
  refine Loop_cases ex emul clone ProgPtrReg ProgPtrRegSize BlkAddr
    (fun _ _ _ _ r => ∀ step ∈ r.trace, ∀ a CurOff Mode, step.call = .Disassemble a CurOff Mode →
      ex.m_rDoc.GetCell step.world a = none)
    ?_ ?_ ?_ ?_ ?_ ?_ ?_
  · intro world heap CurAddr Sems step hmem
    exact absurd hmem (List.not_mem_nil _)
  · intro world heap CurAddr Sems world1 heap1 steps hF
    exact (Fetch_disassembles_absent ex _ _ _ _ _ _ _ hF).1
  · intro world heap CurAddr Sems insn world1 heap1 steps f hF _
    exact (Fetch_disassembles_absent ex _ _ _ _ _ _ _ hF).1
  · intro world heap CurAddr Sems insn world1 heap1 steps pushed heap2 world2 heap3 hF _ _ _
    intro step hmem a CurOff Mode hcall
    simp only [List.mem_append, List.mem_singleton] at hmem
    rcases hmem with h | h
    · exact (Fetch_disassembles_absent ex _ _ _ _ _ _ _ hF).1 step h a CurOff Mode hcall
    · subst h
      cases hcall
  · intro world heap CurAddr Sems insn world1 heap1 steps pushed heap2 world2 heap3 hF _ _ _ _
    intro step hmem a CurOff Mode hcall
    simp only [List.mem_append, List.mem_cons, List.mem_singleton, List.not_mem_nil,
      or_false] at hmem
    rcases hmem with h | h | h
    · exact (Fetch_disassembles_absent ex _ _ _ _ _ _ _ hF).1 step h a CurOff Mode hcall
    · subst h
      cases hcall
    · subst h
      cases hcall
  · intro world heap CurAddr Sems insn world1 heap1 steps pushed heap2 world2 heap3 NextInsn r
      hF _ _ _ _ ih
    intro step hmem a CurOff Mode hcall
    simp only [Run.after, List.mem_append, List.mem_cons, List.mem_singleton, List.not_mem_nil,
      or_false] at hmem
    rcases hmem with (h | h | h) | h
    · exact (Fetch_disassembles_absent ex _ _ _ _ _ _ _ hF).1 step h a CurOff Mode hcall
    · subst h
      cases hcall
    · subst h
      cases hcall
    · exact ih step h a CurOff Mode hcall
  · intro world heap CurAddr Sems insn world1 heap1 steps pushed heap2 r hF _ _ ih
    intro step hmem a CurOff Mode hcall
    simp only [Run.after, List.mem_append] at hmem
    rcases hmem with h | h
    · exact (Fetch_disassembles_absent ex _ _ _ _ _ _ _ hF).1 step h a CurOff Mode hcall
    · exact ih step h a CurOff Mode hcall

theorem nodup_after_fetch {ω : Type} (ex : Execution ω) (world worldN : ω) (CurAddr : Address)
    (steps rest : List (Step ω))
    (hdis : disassembledAt steps = [] ∨
      (disassembledAt steps = [CurAddr] ∧ ex.m_rDoc.GetCell world CurAddr = none))
    (hcell : ex.m_rDoc.GetCell worldN CurAddr ≠ none)
    (hback : ∀ a1, ex.m_rDoc.GetCell world a1 ≠ none → ex.m_rDoc.GetCell worldN a1 ≠ none)
    (ih : (disassembledAt rest).Nodup ∧
      ∀ A ∈ disassembledAt rest, ex.m_rDoc.GetCell worldN A = none) :
    (disassembledAt steps ++ disassembledAt rest).Nodup ∧
      ∀ A ∈ disassembledAt steps ++ disassembledAt rest, ex.m_rDoc.GetCell world A = none := by
  have hold : ∀ A ∈ disassembledAt rest, ex.m_rDoc.GetCell world A = none := by
    intro A hA
    by_contra hne
    exact hback A hne (ih.2 A hA)
  rcases hdis with h | ⟨h, hnone⟩
  · rw [h, List.nil_append]
    exact ⟨ih.1, hold⟩
  · rw [h]
    refine ⟨?_, ?_⟩
    · simp only [List.singleton_append, List.nodup_cons]
      exact ⟨fun hmem => hcell (ih.2 CurAddr hmem), ih.1⟩
    · intro A hA
      simp only [List.singleton_append, List.mem_cons] at hA
      rcases hA with hA | hA
      · rw [hA]
        exact hnone
      · exact hold A hA

theorem Loop_disassembles_once {ω : Type} (ex : Execution ω) (emul : Emulator ω)
    (clone : CloneCall) (ProgPtrReg ProgPtrRegSize : Nat) (BlkAddr : Address)
    (hkeep : keepsCells ex emul) :
    ∀ fuel world heap CurAddr Sems,
      (disassembledAt (Execution.Loop ex emul clone ProgPtrReg ProgPtrRegSize BlkAddr fuel world
        heap CurAddr Sems).trace).Nodup ∧
      ∀ A ∈ disassembledAt (Execution.Loop ex emul clone ProgPtrReg ProgPtrRegSize BlkAddr fuel
        world heap CurAddr Sems).trace, ex.m_rDoc.GetCell world A = none := by
  have hemu := hkeep.2.2
  refine Loop_cases ex emul clone ProgPtrReg ProgPtrRegSize BlkAddr
    (fun world _ _ _ r => (disassembledAt r.trace).Nodup ∧
      ∀ A ∈ disassembledAt r.trace, ex.m_rDoc.GetCell world A = none)
    ?_ ?_ ?_ ?_ ?_ ?_ ?_
  · intro world heap CurAddr Sems
    exact ⟨List.nodup_nil, fun A hA => absurd hA (List.not_mem_nil _)⟩
  · intro world heap CurAddr Sems world1 heap1 steps hF
    rcases (Fetch_disassembles_absent ex _ _ _ _ _ _ _ hF).2 with h | ⟨h, hnone⟩
    · simp only [h]
      exact ⟨List.nodup_nil, fun A hA => absurd hA (List.not_mem_nil _)⟩
    · simp only [h, List.mem_singleton]
      exact ⟨List.nodup_singleton _, fun A hA => hA ▸ hnone⟩
  · intro world heap CurAddr Sems insn world1 heap1 steps f hF _
    rcases (Fetch_disassembles_absent ex _ _ _ _ _ _ _ hF).2 with h | ⟨h, hnone⟩
    · simp only [h]
      exact ⟨List.nodup_nil, fun A hA => absurd hA (List.not_mem_nil _)⟩
    · simp only [h, List.mem_singleton]
      exact ⟨List.nodup_singleton _, fun A hA => hA ▸ hnone⟩
  · intro world heap CurAddr Sems insn world1 heap1 steps pushed heap2 world2 heap3 hF _ _ hE
    have hfound := Fetch_found ex _ _ _ _ _ _ _ hF
    have hk := (Fetch_keeps_cells ex emul hkeep _ _ _ _ _ _ _ hF).1
    have := nodup_after_fetch ex world world1 CurAddr steps
      [⟨world1, heap2, .EmulatorExecute BlkAddr (Sems ++ pushed)⟩]
      (Fetch_disassembles_absent ex _ _ _ _ _ _ _ hF).2 (by rw [hfound]; simp) hk
      ⟨List.nodup_nil, fun A hA => absurd hA (List.not_mem_nil _)⟩
    simpa only [disassembledAt_append] using this
  · intro world heap CurAddr Sems insn world1 heap1 steps pushed heap2 world2 heap3 hF _ _ hE _
    have hfound := Fetch_found ex _ _ _ _ _ _ _ hF
    have hk := (Fetch_keeps_cells ex emul hkeep _ _ _ _ _ _ _ hF).1
    have := nodup_after_fetch ex world world1 CurAddr steps
      [⟨world1, heap2, .EmulatorExecute BlkAddr (Sems ++ pushed)⟩,
        ⟨world2, heap3, .ReadRegister ProgPtrReg ProgPtrRegSize⟩]
      (Fetch_disassembles_absent ex _ _ _ _ _ _ _ hF).2 (by rw [hfound]; simp) hk
      ⟨List.nodup_nil, fun A hA => absurd hA (List.not_mem_nil _)⟩
    simpa only [disassembledAt_append] using this
  · intro world heap CurAddr Sems insn world1 heap1 steps pushed heap2 world2 heap3 NextInsn r
      hF _ _ hE _ ih
    have hfound := Fetch_found ex _ _ _ _ _ _ _ hF
    have hk := (Fetch_keeps_cells ex emul hkeep _ _ _ _ _ _ _ hF).1
    have he := fun a1 => hemu _ _ _ _ _ _ _ a1 hE
    have := nodup_after_fetch ex world world2 CurAddr steps r.trace
      (Fetch_disassembles_absent ex _ _ _ _ _ _ _ hF).2
      (he CurAddr (by rw [hfound]; simp)) (fun a1 h => he a1 (hk a1 h)) ih
    have hmid : disassembledAt
        ([⟨world1, heap2, .EmulatorExecute BlkAddr (Sems ++ pushed)⟩,
          ⟨world2, heap3, .ReadRegister ProgPtrReg ProgPtrRegSize⟩] : List (Step ω)) = [] := rfl
    simpa only [Run.after, disassembledAt_append, hmid, List.append_nil] using this
  · intro world heap CurAddr Sems insn world1 heap1 steps pushed heap2 r hF _ _ ih
    have hfound := Fetch_found ex _ _ _ _ _ _ _ hF
    have hk := (Fetch_keeps_cells ex emul hkeep _ _ _ _ _ _ _ hF).1
    have := nodup_after_fetch ex world world1 CurAddr steps r.trace
      (Fetch_disassembles_absent ex _ _ _ _ _ _ _ hF).2 (by rw [hfound]; simp) hk ih
    simpa only [Run.after, disassembledAt_append] using this

theorem Fetch_calls_no_emulator {ω : Type} (ex : Execution ω) (world world1 : ω)
    (heap heap1 : Heap) (CurAddr : Address) (o : Option Instruction) (steps : List (Step ω))
    (hF : Execution.Fetch ex world heap CurAddr = (o, world1, heap1, steps)) :
    ∀ step ∈ steps, ∀ BlkAddr Sems, step.call ≠ .EmulatorExecute BlkAddr Sems := by
  unfold Execution.Fetch at hF
  split at hF
  · simp only [Prod.mk.injEq] at hF
    obtain ⟨-, -, -, hs⟩ := hF
    subst hs
    intro step hmem BlkAddr Sems hcall
    simp only [List.mem_cons, List.mem_singleton, List.not_mem_nil, or_false] at hmem
    rcases hmem with h | h <;> (subst h; cases hcall)
  · split at hF
    · simp only [Prod.mk.injEq] at hF
      obtain ⟨-, -, -, hs⟩ := hF
      subst hs
      intro step hmem BlkAddr Sems hcall
      simp only [List.mem_cons, List.mem_singleton, List.not_mem_nil, or_false] at hmem
      rcases hmem with h | h <;> (subst h; cases hcall)
    · split at hF
      · simp only [Prod.mk.injEq] at hF
        obtain ⟨-, -, -, hs⟩ := hF
        subst hs
        intro step hmem BlkAddr Sems hcall
        simp only [List.mem_cons, List.mem_singleton, List.not_mem_nil, or_false] at hmem
        rcases hmem with h | h | h <;> (subst h; cases hcall)
      · split at hF
        · simp only [Prod.mk.injEq] at hF
          obtain ⟨-, -, -, hs⟩ := hF
          subst hs
          intro step hmem BlkAddr Sems hcall
          simp only [List.mem_cons, List.mem_singleton, List.not_mem_nil, or_false] at hmem
          rcases hmem with h | h | h | h <;> (subst h; cases hcall)
        · simp only [Prod.mk.injEq] at hF
          obtain ⟨-, -, -, hs⟩ := hF
          subst hs
          intro step hmem BlkAddr Sems hcall
          simp only [List.mem_cons, List.mem_singleton, List.not_mem_nil, or_false] at hmem
          rcases hmem with h | h | h | h | h <;> (subst h; cases hcall)

/-- A call of the emulator in a trace that begins with steps which are no calls
of the emulator lies behind these steps. -/
theorem emulator_call_behind {ω : Type} (steps : List (Step ω))
    (hno : ∀ step ∈ steps, ∀ BlkAddr Sems, step.call ≠ .EmulatorExecute BlkAddr Sems) :
    ∀ (rest pre post : List (Step ω)) (step : Step ω) (BlkAddr : Address) (Sems : List SPType),
      steps ++ rest = pre ++ step :: post → step.call = .EmulatorExecute BlkAddr Sems →
      ∃ pre1, pre = steps ++ pre1 ∧ rest = pre1 ++ step :: post := by
  induction steps with
  | nil =>
    intro rest pre post step BlkAddr Sems h _
    exact ⟨pre, rfl, h⟩
  | cons s steps ih =>
    intro rest pre post step BlkAddr Sems h hcall
    cases pre with
    | nil =>
      simp only [List.cons_append, List.nil_append, List.cons.injEq] at h
      exact absurd (h.1 ▸ hcall) (hno s (List.mem_cons_self _ _) BlkAddr Sems)
    | cons p pre =>
      simp only [List.cons_append, List.cons.injEq] at h
      obtain ⟨pre1, hpre, hrest⟩ := ih (fun t ht => hno t (List.mem_cons_of_mem _ ht)) rest pre
        post step BlkAddr Sems h.2 hcall
      exact ⟨pre1, by rw [h.1, hpre, List.cons_append], hrest⟩

/-- C30: when no emulator is set, or the program-pointer register of the current
mode is the invalid register, or its width is below 8 bits, `Execute` returns
having made no call on the CPU context, the document, the architecture or the
emulator, and leaves the state as it was; otherwise its first call writes the
offset of the entry address into the program-pointer register. -/
theorem Execute_fails_quietly {ω : Type} (ex : Execution ω) (clone : CloneCall) (fuel : Nat)
    (world : ω) (heap : Heap) (rAddr : Address) :
    ((ex.m_spEmul = none ∨
        ex.ProgramPointerRegister (ex.GetMode world) = ex.InvalidRegister ∨
        ex.CpuInfo.GetSizeOfRegisterInBit (ex.ProgramPointerRegister (ex.GetMode world)) < 8) →
      (Execution.Execute ex clone fuel world heap rAddr).trace = [] ∧
      (Execution.Execute ex clone fuel world heap rAddr).world = world ∧
      (Execution.Execute ex clone fuel world heap rAddr).ended = Ending.Returned) ∧
    (ex.m_spEmul ≠ none →
      ex.ProgramPointerRegister (ex.GetMode world) ≠ ex.InvalidRegister →
      ¬ ex.CpuInfo.GetSizeOfRegisterInBit (ex.ProgramPointerRegister (ex.GetMode world)) < 8 →
      ∃ rest, (Execution.Execute ex clone fuel world heap rAddr).trace =
        ⟨world, heap, .WriteRegister (ex.ProgramPointerRegister (ex.GetMode world))
          rAddr.GetOffset
          (ex.CpuInfo.GetSizeOfRegisterInBit (ex.ProgramPointerRegister (ex.GetMode world)))⟩ ::
          rest) := by
  constructor
  · intro hquiet
    unfold Execution.Execute
    cases hemul : ex.m_spEmul with
    | none => exact ⟨rfl, rfl, rfl⟩
    | some emul =>
      simp only
      split_ifs with hreg hsize
      · exact ⟨rfl, rfl, rfl⟩
      · exact ⟨rfl, rfl, rfl⟩
      · rcases hquiet with h | h | h
        · rw [hemul] at h
          cases h
        · exact absurd h hreg
        · exact absurd h hsize
  · intro hemul hreg hsize
    unfold Execution.Execute
    cases hem : ex.m_spEmul with
    | none => exact absurd hem hemul
    | some emul =>
      simp only [hreg, hsize, if_false]
      rcases hw : ex.m_pCpuCtxt.WriteRegister world (ex.ProgramPointerRegister (ex.GetMode world))
        rAddr.GetOffset
        (ex.CpuInfo.GetSizeOfRegisterInBit (ex.ProgramPointerRegister (ex.GetMode world)))
        with ⟨ok, world1⟩
      cases ok with
      | false => exact ⟨[], rfl⟩
      | true => exact ⟨_, rfl⟩

/-- C28 fails on the code: on the small machine the first block starts at offset
16 and the second at offset 32 (its first expression is the `dump_insn` marker
of 32), and both calls of the emulator are passed the block address of offset
16. -/
theorem Execute_passes_entry_address_for_later_block (fuel : Nat) :
    blockStarts (Execution.Execute toyExecution (Clone 4) (fuel + 3) ⟨0, []⟩ assignRegister
      ⟨0, 16⟩).trace =
      [(⟨0, 16⟩, some (.System "dump_insn" ⟨0, 16⟩)),
        (⟨0, 16⟩, some (.System "dump_insn" ⟨0, 32⟩))] :=
  rfl

/-- The small machine never removes a cell. -/
theorem toy_keeps_cells : keepsCells toyExecution toyEmulator := by
  refine ⟨?_, ?_, ?_⟩
  · intro w a insn b w1 a1 h hsome
    simp only [toyExecution, Prod.mk.injEq] at h hsome ⊢
    obtain ⟨-, hw⟩ := h
    subst hw
    simp only [List.lookup_cons]
    split
    · simp
    · exact hsome
  · intro w heap CurOff Mode r w1 heap1 a1 h hsome
    simp only [toyExecution, Prod.mk.injEq] at h hsome ⊢
    obtain ⟨-, hw, -⟩ := h
    subst hw
    exact hsome
  · intro w heap BlkAddr Sems b w1 heap1 a1 h hsome
    simp only [toyExecution, toyEmulator] at h hsome ⊢
    split at h
    · simp only [Prod.mk.injEq] at h
      obtain ⟨-, hw, -⟩ := h
      subst hw
      exact hsome
    · simp only [Prod.mk.injEq] at h
      obtain ⟨-, hw, -⟩ := h
      subst hw
      exact hsome

/-- C29: within one `Execute` call `Disassemble` is called for an address only in
a state in which the document holds no Instruction cell at that address.  When
nothing removes a cell (`keepsCells`), no address is disassembled twice, and
every address at which the loop found an Instruction cell (every instruction of
a block is taken from such a cell) has an Instruction cell in the state the call
leaves.  That `SetCell` stored the cell is checked by the code itself, which
fetches the cell again. -/
theorem Execute_disassembles_absent_cells_once {ω : Type} (ex : Execution ω) (clone : CloneCall)
    (fuel : Nat) (world : ω) (heap : Heap) (rAddr : Address) :
    (∀ step ∈ (Execution.Execute ex clone fuel world heap rAddr).trace, ∀ a CurOff Mode,
      step.call = .Disassemble a CurOff Mode → ex.m_rDoc.GetCell step.world a = none) ∧
    ((∀ emul, ex.m_spEmul = some emul → keepsCells ex emul) →
      (disassembledAt (Execution.Execute ex clone fuel world heap rAddr).trace).Nodup ∧
      ∀ step ∈ (Execution.Execute ex clone fuel world heap rAddr).trace, ∀ a,
        step.call = .GetCell a → ex.m_rDoc.GetCell step.world a ≠ none →
        ex.m_rDoc.GetCell (Execution.Execute ex clone fuel world heap rAddr).world a ≠ none) := by
  unfold Execution.Execute
  cases hemul : ex.m_spEmul with
  | none =>
    refine ⟨fun step hmem => absurd hmem (List.not_mem_nil _), fun _ => ⟨List.nodup_nil, ?_⟩⟩
    exact fun step hmem => absurd hmem (List.not_mem_nil _)
  | some emul =>
    simp only
    split_ifs with hreg hsize
    · refine ⟨fun step hmem => absurd hmem (List.not_mem_nil _), fun _ => ⟨List.nodup_nil, ?_⟩⟩
      exact fun step hmem => absurd hmem (List.not_mem_nil _)
    · refine ⟨fun step hmem => absurd hmem (List.not_mem_nil _), fun _ => ⟨List.nodup_nil, ?_⟩⟩
      exact fun step hmem => absurd hmem (List.not_mem_nil _)
    · rcases hw : ex.m_pCpuCtxt.WriteRegister world (ex.ProgramPointerRegister (ex.GetMode world))
        rAddr.GetOffset
        (ex.CpuInfo.GetSizeOfRegisterInBit (ex.ProgramPointerRegister (ex.GetMode world)))
        with ⟨ok, world1⟩
      cases ok with
      | false =>
        simp only
        refine ⟨?_, fun _ => ⟨?_, ?_⟩⟩
        · intro step hmem a CurOff Mode hcall
          simp only [List.mem_singleton] at hmem
          subst hmem
          cases hcall
        · exact List.nodup_nil
        · intro step hmem a hcall
          simp only [List.mem_singleton] at hmem
          subst hmem
          cases hcall
      | true =>
        simp only [Run.after, List.singleton_append]
        refine ⟨?_, fun hkeep => ⟨?_, ?_⟩⟩
        · intro step hmem a CurOff Mode hcall
          simp only [List.mem_cons] at hmem
          rcases hmem with h | h
          · subst h
            cases hcall
          · exact Loop_disassembles_absent ex emul clone _ _ _ _ _ _ _ _ step h a CurOff Mode hcall
        · exact (Loop_disassembles_once ex emul clone _ _ _ (hkeep emul rfl) _ _ _ _ _).1
        · intro step hmem a hcall hsome
          simp only [List.mem_cons] at hmem
          rcases hmem with h | h
          · subst h
            cases hcall
          · exact (Loop_keeps_cells ex emul clone _ _ _ (hkeep emul rfl) _ _ _ _ _).2 step h a
              hcall hsome

/-- C29 on the small machine, which keeps its cells: the three addresses 16, 17
and 32 are disassembled once each. -/
theorem Execute_disassembles_absent_cells_once_witness :
    (disassembledAt (Execution.Execute toyExecution (Clone 4) 5 ⟨0, []⟩ assignRegister
      ⟨0, 16⟩).trace).Nodup :=
  ((Execute_disassembles_absent_cells_once toyExecution (Clone 4) 5 ⟨0, []⟩ assignRegister
    ⟨0, 16⟩).2 (fun emul hemul => by
      cases hemul
      exact toy_keeps_cells)).1

theorem cloning_differs_from_overwritten :
    ∀ n ∈ List.range 18,
      (match Execution.CloneSemantic (Clone 4) (toyHeapOverwritten.take n) [some 2] with
        | .ok (clones, heapB) => decide (clones = [some 10] ∧ heapB <+: toyHeapOverwritten)
        | .error _ => false) = false := by
  decide

/-- The contribution of the instruction at 16 is not what `liftedAs` describes
once the objects the cloning made are overwritten in the heap, although the
markers and the assignment are still in place. -/
theorem liftedAs_needs_the_clones :
    ¬ liftedAs toyExecution (Clone 4) 1 toyHeapOverwritten
      ⟨⟨0, 16⟩, ⟨1, [some 2], 0⟩, [some 4, some 7, some 10, some 11]⟩ := by
  rintro ⟨sys, asg, hook, dst, src, clones, heapA, heapB, h1, -, -, -, -, hC, hA, hAB, hB, -, -⟩
  simp only [List.cons_append, List.nil_append, List.cons.injEq] at h1
  obtain ⟨-, hasg, h1⟩ := h1
  subst hasg
  have hclones : [some 10] = clones :=
    (List.append_inj' (show [some 10] ++ [some 11] = clones ++ [hook] from h1) rfl).1
  subst hclones
  have hpre : heapA <+: toyHeapOverwritten := hAB.trans hB
  have htake : heapA = toyHeapOverwritten.take heapA.length := List.prefix_iff_eq_take.mp hpre
  have hlen : heapA.length ≤ 17 := hpre.length_le
  have hcheck := cloning_differs_from_overwritten heapA.length (List.mem_range.mpr (by omega))
  rw [← htake] at hcheck
  simp only [Instruction.GetSemantic] at hC
  rw [hC] at hcheck
  simp only [true_and, decide_eq_false_iff_not] at hcheck
  exact hcheck hB

/-- C36: for a BitVector literal and every CPU and memory context, `Write` and
`GetAddress` return false and leave the contexts, the container and the output
address as they were; `Read` returns true exactly when the container has one
slot, which then holds the value of the literal with its width, and otherwise
returns false and leaves the container as it was. -/
theorem BitVector_literal_read_only {σ μ : Type} (rt : Runtime σ μ) (heap : Heap) (cpu : σ)
    (mem : μ) (fuel : Nat) (h : Handle) (m_Value : BitVector) (rData : DataContainerType)
    (rAddress : Address) (hnode : heap[h]? = some (.BitVector m_Value)) :
    Write rt heap cpu mem (fuel + 1) (some h) rData = .ok (false, cpu, mem, rData) ∧
    GetAddress rt cpu mem heap (fuel + 1) (some h) rAddress = .ok (false, rAddress) ∧
    (rData.length = 1 →
      Read rt cpu mem heap (fuel + 1) (some h) rData = .ok (true, [m_Value])) ∧
    (rData.length ≠ 1 →
      Read rt cpu mem heap (fuel + 1) (some h) rData = .ok (false, rData)) ∧
    (∀ out, Read rt cpu mem heap (fuel + 1) (some h) rData = .ok (true, out) ↔
      rData.length = 1 ∧ out = [m_Value]) := by
  have hread : Read rt cpu mem heap (fuel + 1) (some h) rData =
      .ok (BitVectorExpression.Read m_Value rData) := by
    simp only [Read, deref, hnode, Expression.Read]
  have hone : rData.length = 1 → BitVectorExpression.Read m_Value rData = (true, [m_Value]) := by
    intro hlen
    obtain ⟨d, rfl⟩ := length_eq_one_cases rData hlen
    rfl
  have hnot : rData.length ≠ 1 → BitVectorExpression.Read m_Value rData = (false, rData) := by
    intro hlen
    simp only [BitVectorExpression.Read, ne_eq, hlen, not_false_eq_true, if_true]
  refine ⟨?_, ?_, ?_, ?_, ?_⟩
  · simp only [Write, deref, hnode, Expression.Write, BitVectorExpression.Write]
  · simp only [GetAddress, deref, hnode, Expression.GetAddress, BitVectorExpression.GetAddress]
  · intro hlen
    rw [hread, hone hlen]
  · intro hlen
    rw [hread, hnot hlen]
  · intro out
    rw [hread]
    by_cases hlen : rData.length = 1
    · rw [hone hlen]
      simp only [Except.ok.injEq, Prod.mk.injEq, true_and, hlen]
      exact eq_comm
    · rw [hnot hlen]
      simp [hlen]

/-- C36 at the literal `int32(0x1)` of `addOneToRegister`, against a register
file and an empty memory. -/
theorem BitVector_literal_read_only_witness :
    Write (listRuntime fun _ => 32) addOneToRegister [7] [] 1 (some 1) [⟨8, 0⟩] =
      .ok (false, [7], [], [⟨8, 0⟩]) ∧
    Read (listRuntime fun _ => 32) [7] [] addOneToRegister 1 (some 1) [⟨8, 0⟩] =
      .ok (true, [⟨32, 1⟩]) :=
  ⟨(BitVector_literal_read_only (listRuntime fun _ => 32) addOneToRegister [7] [] 0 1 ⟨32, 1⟩
      [⟨8, 0⟩] ⟨0, 0⟩ rfl).1,
    (BitVector_literal_read_only (listRuntime fun _ => 32) addOneToRegister [7] [] 0 1 ⟨32, 1⟩
      [⟨8, 0⟩] ⟨0, 0⟩ rfl).2.2.1 rfl⟩

theorem VectorIdentifier_WriteLoop_append {σ μ : Type} (rt : Runtime σ μ) (m_pCpuInfo : Nat)
    (ids more : List Nat) :
    ∀ (cpu cpu1 : σ) (rData rData1 : DataContainerType),
      VectorIdentifierExpression.WriteLoop rt m_pCpuInfo cpu ids rData = (true, cpu1, rData1) →
      VectorIdentifierExpression.WriteLoop rt m_pCpuInfo cpu (ids ++ more) rData =
        VectorIdentifierExpression.WriteLoop rt m_pCpuInfo cpu1 more rData1 := by
  induction ids with
  | nil =>
    intro cpu cpu1 rData rData1 h
    simp only [VectorIdentifierExpression.WriteLoop, Prod.mk.injEq, true_and] at h
    rw [h.1, h.2, List.nil_append]
  | cons Id ids ih =>
    intro cpu cpu1 rData rData1 h
    cases rData with
    | nil =>
      simp [VectorIdentifierExpression.WriteLoop] at h
    | cons front rest =>
      simp only [VectorIdentifierExpression.WriteLoop, List.cons_append] at h ⊢
      rcases hw : rt.Cpu.WriteRegister cpu Id (front.ConvertTo 64)
        ((rt.CpuInfo m_pCpuInfo).GetSizeOfRegisterInBit Id) with ⟨ok, cpu2⟩
      rw [hw] at h
      cases ok with
      | false => simp at h
      | true => exact ih cpu2 cpu1 rest rData1 h

theorem VectorIdentifier_ReadLoop_written_back {σ μ : Type} (rt : Runtime σ μ) (cpu : σ)
    (m_pCpuInfo : Nat) (ids : List Nat)
    (hwidth : ∀ r ∈ ids, (rt.CpuInfo m_pCpuInfo).GetSizeOfRegisterInBit r ≤ 64)
    (hrange : ∀ r ∈ ids, ∀ v,
      rt.Cpu.ReadRegister cpu r ((rt.CpuInfo m_pCpuInfo).GetSizeOfRegisterInBit r) = some v →
      v < 2 ^ (rt.CpuInfo m_pCpuInfo).GetSizeOfRegisterInBit r)
    (hback : ∀ r ∈ ids, ∀ v,
      rt.Cpu.ReadRegister cpu r ((rt.CpuInfo m_pCpuInfo).GetSizeOfRegisterInBit r) = some v →
      rt.Cpu.WriteRegister cpu r v ((rt.CpuInfo m_pCpuInfo).GetSizeOfRegisterInBit r) =
        (true, cpu)) :
    ∀ acc out, VectorIdentifierExpression.ReadLoop rt cpu m_pCpuInfo ids acc = (true, out) →
      VectorIdentifierExpression.WriteLoop rt m_pCpuInfo cpu ids.reverse out =
        (true, cpu, acc) := by
  induction ids with
  | nil =>
    intro acc out h
    simp only [VectorIdentifierExpression.ReadLoop, Prod.mk.injEq, true_and] at h
    rw [← h]
    rfl
  | cons Id rest ih =>
    intro acc out h
    simp only [VectorIdentifierExpression.ReadLoop] at h
    cases hr : rt.Cpu.ReadRegister cpu Id ((rt.CpuInfo m_pCpuInfo).GetSizeOfRegisterInBit Id) with
    | none =>
      rw [hr] at h
      simp at h
    | some v =>
      rw [hr] at h
      have hrest := ih (fun r hr => hwidth r (List.mem_cons_of_mem _ hr))
        (fun r hr => hrange r (List.mem_cons_of_mem _ hr))
        (fun r hr => hback r (List.mem_cons_of_mem _ hr)) _ out h
      rw [List.reverse_cons,
        VectorIdentifier_WriteLoop_append rt m_pCpuInfo rest.reverse [Id] cpu cpu out _ hrest]
      have hw := hwidth Id (List.mem_cons_self _ _)
      have hv := hrange Id (List.mem_cons_self _ _) v hr
      have hval : (BitVector.construct ((rt.CpuInfo m_pCpuInfo).GetSizeOfRegisterInBit Id)
          v).ConvertTo 64 = v := by
        simp only [BitVector.construct, BitVector.ConvertTo]
        rw [Nat.mod_eq_of_lt hv]
        exact Nat.mod_eq_of_lt (lt_of_lt_of_le hv (Nat.pow_le_pow_right (by decide) hw))
      simp only [VectorIdentifierExpression.WriteLoop, hval,
        hback Id (List.mem_cons_self _ _) v hr]

/-- C35: for a VectorIdentifier whose registers have at most 64 bits, in a CPU
context in which a register is read as a value of its width and writing back
the value it holds succeeds and changes nothing, writing back the container of
a successful `Read` returns true, leaves the context as it was and leaves the
container empty. -/
theorem VectorIdentifier_Read_then_Write_identity {σ μ : Type} (rt : Runtime σ μ) (cpu : σ)
    (m_VecId : List Nat) (m_pCpuInfo : Nat) (rData out : DataContainerType)
    (hwidth : ∀ r ∈ m_VecId, (rt.CpuInfo m_pCpuInfo).GetSizeOfRegisterInBit r ≤ 64)
    (hrange : ∀ r ∈ m_VecId, ∀ v,
      rt.Cpu.ReadRegister cpu r ((rt.CpuInfo m_pCpuInfo).GetSizeOfRegisterInBit r) = some v →
      v < 2 ^ (rt.CpuInfo m_pCpuInfo).GetSizeOfRegisterInBit r)
    (hback : ∀ r ∈ m_VecId, ∀ v,
      rt.Cpu.ReadRegister cpu r ((rt.CpuInfo m_pCpuInfo).GetSizeOfRegisterInBit r) = some v →
      rt.Cpu.WriteRegister cpu r v ((rt.CpuInfo m_pCpuInfo).GetSizeOfRegisterInBit r) =
        (true, cpu))
    (hread : VectorIdentifierExpression.Read rt cpu m_VecId m_pCpuInfo rData = (true, out)) :
    VectorIdentifierExpression.Write rt cpu m_VecId m_pCpuInfo out = (true, cpu, []) :=
  VectorIdentifier_ReadLoop_written_back rt cpu m_pCpuInfo m_VecId hwidth hrange hback [] out
    hread

/-- C35 at the registers 0, 1 and 2 of a register file holding 7, 9 and 11. -/
theorem VectorIdentifier_Read_then_Write_identity_witness :
    VectorIdentifierExpression.Read (listRuntime fun _ => 32) [7, 9, 11] [0, 1, 2] 0 [] =
      (true, [⟨32, 11⟩, ⟨32, 9⟩, ⟨32, 7⟩]) ∧
    VectorIdentifierExpression.Write (listRuntime fun _ => 32) [7, 9, 11] [0, 1, 2] 0
      [⟨32, 11⟩, ⟨32, 9⟩, ⟨32, 7⟩] = (true, [7, 9, 11], []) :=
  ⟨by decide,
    VectorIdentifier_Read_then_Write_identity (listRuntime fun _ => 32) [7, 9, 11] [0, 1, 2] 0 []
      [⟨32, 11⟩, ⟨32, 9⟩, ⟨32, 7⟩] (by decide) (by
        intro r hr v hv
        simp only [List.mem_cons, List.mem_singleton, List.not_mem_nil, or_false] at hr
        rcases hr with rfl | rfl | rfl <;> (cases hv; decide)) (by
        intro r hr v hv
        simp only [List.mem_cons, List.mem_singleton, List.not_mem_nil, or_false] at hr
        rcases hr with rfl | rfl | rfl <;> (cases hv; decide)) (by decide)⟩

/-! ## Lemmas on the end of a block -/

theorem Fetch_starts_with_GetCell {ω : Type} (ex : Execution ω) (world world1 : ω)
    (heap heap1 : Heap) (CurAddr : Address) (o : Option Instruction) (steps : List (Step ω))
    (hF : Execution.Fetch ex world heap CurAddr = (o, world1, heap1, steps)) :
    ∃ rest, steps = ⟨world, heap, .GetCell CurAddr⟩ :: rest := by
  unfold Execution.Fetch at hF
  split at hF
  · simp only [Prod.mk.injEq] at hF
    exact ⟨_, hF.2.2.2.symm⟩
  · split at hF
    · simp only [Prod.mk.injEq] at hF
      exact ⟨_, hF.2.2.2.symm⟩
    · split at hF
      · simp only [Prod.mk.injEq] at hF
        exact ⟨_, hF.2.2.2.symm⟩
      · split at hF
        · simp only [Prod.mk.injEq] at hF
          exact ⟨_, hF.2.2.2.symm⟩
        · simp only [Prod.mk.injEq] at hF
          exact ⟨_, hF.2.2.2.symm⟩

theorem Loop_stops_after_failed_block {ω : Type} (ex : Execution ω) (emul : Emulator ω)
    (clone : CloneCall) (ProgPtrReg ProgPtrRegSize : Nat) (BlkAddr : Address) :
    ∀ fuel world heap CurAddr Sems,
      ((Execution.Loop ex emul clone ProgPtrReg ProgPtrRegSize BlkAddr fuel world heap CurAddr
          Sems).trace = [] ∧
        (Execution.Loop ex emul clone ProgPtrReg ProgPtrRegSize BlkAddr fuel world heap CurAddr
          Sems).ended = Ending.OutOfFuel ∨
        ∃ rest, (Execution.Loop ex emul clone ProgPtrReg ProgPtrRegSize BlkAddr fuel world heap
          CurAddr Sems).trace = ⟨world, heap, .GetCell CurAddr⟩ :: rest) ∧
      ∀ pre step post Blk S,
        (Execution.Loop ex emul clone ProgPtrReg ProgPtrRegSize BlkAddr fuel world heap CurAddr
          Sems).trace = pre ++ step :: post →
        step.call = .EmulatorExecute Blk S →
        afterBlock ex emul ProgPtrReg ProgPtrRegSize CurAddr.m_Base
          (Execution.Loop ex emul clone ProgPtrReg ProgPtrRegSize BlkAddr fuel world heap CurAddr
            Sems).ended step Blk S post := by
  refine Loop_cases ex emul clone ProgPtrReg ProgPtrRegSize BlkAddr
    (fun world heap CurAddr _ r =>
      (r.trace = [] ∧ r.ended = Ending.OutOfFuel ∨
        ∃ rest, r.trace = ⟨world, heap, .GetCell CurAddr⟩ :: rest) ∧
      ∀ pre step post Blk S, r.trace = pre ++ step :: post →
        step.call = .EmulatorExecute Blk S →
        afterBlock ex emul ProgPtrReg ProgPtrRegSize CurAddr.m_Base r.ended step Blk S post)
    ?_ ?_ ?_ ?_ ?_ ?_ ?_
  · intro world heap CurAddr Sems
    refine ⟨Or.inl ⟨rfl, rfl⟩, ?_⟩
    intro pre step post Blk S h
    simp at h
  · intro world heap CurAddr Sems world1 heap1 steps hF
    obtain ⟨rest, hrest⟩ := Fetch_starts_with_GetCell ex _ _ _ _ _ _ _ hF
    refine ⟨Or.inr ⟨rest, hrest⟩, ?_⟩
    intro pre step post Blk S h hcall
    have hmem : step ∈ steps := by
      simp only at h
      rw [h]
      simp
    exact absurd hcall (Fetch_calls_no_emulator ex _ _ _ _ _ _ _ hF step hmem Blk S)
  · intro world heap CurAddr Sems insn world1 heap1 steps f hF _
    obtain ⟨rest, hrest⟩ := Fetch_starts_with_GetCell ex _ _ _ _ _ _ _ hF
    refine ⟨Or.inr ⟨rest, hrest⟩, ?_⟩
    intro pre step post Blk S h hcall
    have hmem : step ∈ steps := by
      simp only at h
      rw [h]
      simp
    exact absurd hcall (Fetch_calls_no_emulator ex _ _ _ _ _ _ _ hF step hmem Blk S)
  · intro world heap CurAddr Sems insn world1 heap1 steps pushed heap2 world2 heap3 hF _ _ hE
    obtain ⟨rest, hrest⟩ := Fetch_starts_with_GetCell ex _ _ _ _ _ _ _ hF
    refine ⟨Or.inr ⟨_, by rw [hrest]; rfl⟩, ?_⟩
    intro pre step post Blk S h hcall
    obtain ⟨pre1, -, hsplit⟩ := emulator_call_behind steps
      (Fetch_calls_no_emulator ex _ _ _ _ _ _ _ hF) _ pre post step Blk S h hcall
    cases pre1 with
    | nil =>
      simp only [List.nil_append, List.cons.injEq] at hsplit
      obtain ⟨hstep, hpost⟩ := hsplit
      subst hstep
      cases hcall
      refine ⟨fun _ => hpost.symm, ?_⟩
      intro w2 h3 htrue
      simp only at htrue
      rw [hE] at htrue
      cases htrue
    | cons p pre1 =>
      simp only [List.cons_append, List.cons.injEq] at hsplit
      have := hsplit.2
      simp at this
  · intro world heap CurAddr Sems insn world1 heap1 steps pushed heap2 world2 heap3 hF _ _ hE hR
    obtain ⟨rest, hrest⟩ := Fetch_starts_with_GetCell ex _ _ _ _ _ _ _ hF
    refine ⟨Or.inr ⟨_, by rw [hrest]; rfl⟩, ?_⟩
    intro pre step post Blk S h hcall
    obtain ⟨pre1, -, hsplit⟩ := emulator_call_behind steps
      (Fetch_calls_no_emulator ex _ _ _ _ _ _ _ hF) _ pre post step Blk S h hcall
    cases pre1 with
    | nil =>
      simp only [List.nil_append, List.cons.injEq] at hsplit
      obtain ⟨hstep, hpost⟩ := hsplit
      subst hstep
      cases hcall
      refine ⟨?_, ?_⟩
      · intro hfalse
        simp only at hfalse
        rw [hE] at hfalse
        cases hfalse
      · intro w2 h3 htrue
        simp only at htrue
        rw [hE] at htrue
        simp only [Prod.mk.injEq, true_and] at htrue
        obtain ⟨hw, hh⟩ := htrue
        subst hw hh
        refine ⟨[], hpost.symm, fun _ => rfl, ?_⟩
        intro NextInsn hnext
        rw [hR] at hnext
        cases hnext
    | cons p pre1 =>
      simp only [List.cons_append, List.cons.injEq] at hsplit
      obtain ⟨-, hsplit⟩ := hsplit
      cases pre1 with
      | nil =>
        simp only [List.nil_append, List.cons.injEq] at hsplit
        obtain ⟨hstep, -⟩ := hsplit
        subst hstep
        cases hcall
      | cons q pre1 =>
        simp only [List.cons_append, List.cons.injEq] at hsplit
        have := hsplit.2
        simp at this
  · intro world heap CurAddr Sems insn world1 heap1 steps pushed heap2 world2 heap3 NextInsn r
      hF _ _ hE hR ih
    obtain ⟨rest, hrest⟩ := Fetch_starts_with_GetCell ex _ _ _ _ _ _ _ hF
    refine ⟨Or.inr ⟨_, by rw [hrest]; rfl⟩, ?_⟩
    intro pre step post Blk S h hcall
    simp only [Run.after, List.append_assoc] at h
    obtain ⟨pre1, -, hsplit⟩ := emulator_call_behind steps
      (Fetch_calls_no_emulator ex _ _ _ _ _ _ _ hF) _ pre post step Blk S h hcall
    cases pre1 with
    | nil =>
      simp only [List.nil_append, List.cons_append, List.cons.injEq] at hsplit
      obtain ⟨hstep, hpost⟩ := hsplit
      subst hstep
      cases hcall
      refine ⟨?_, ?_⟩
      · intro hfalse
        simp only at hfalse
        rw [hE] at hfalse
        cases hfalse
      · intro w2 h3 htrue
        simp only at htrue
        rw [hE] at htrue
        simp only [Prod.mk.injEq, true_and] at htrue
        obtain ⟨hw, hh⟩ := htrue
        subst hw hh
        refine ⟨r.trace, hpost.symm, ?_, ?_⟩
        · intro hnone
          rw [hR] at hnone
          cases hnone
        · intro v hv
          rw [hR] at hv
          cases hv
          rcases ih.1 with hnil | ⟨rest1, hrest1⟩
          · exact Or.inl hnil
          · exact Or.inr ⟨rest1, hrest1⟩
    | cons p pre1 =>
      simp only [List.cons_append, List.cons.injEq] at hsplit
      obtain ⟨-, hsplit⟩ := hsplit
      cases pre1 with
      | nil =>
        simp only [List.nil_append, List.cons.injEq] at hsplit
        obtain ⟨hstep, -⟩ := hsplit
        subst hstep
        cases hcall
      | cons q pre1 =>
        simp only [List.cons_append, List.cons.injEq] at hsplit
        exact ih.2 pre1 step post Blk S hsplit.2 hcall
  · intro world heap CurAddr Sems insn world1 heap1 steps pushed heap2 r hF _ _ ih
    obtain ⟨rest, hrest⟩ := Fetch_starts_with_GetCell ex _ _ _ _ _ _ _ hF
    refine ⟨Or.inr ⟨_, by rw [hrest]; rfl⟩, ?_⟩
    intro pre step post Blk S h hcall
    simp only [Run.after] at h
    obtain ⟨pre1, -, hsplit⟩ := emulator_call_behind steps
      (Fetch_calls_no_emulator ex _ _ _ _ _ _ _ hF) _ pre post step Blk S h hcall
    exact ih.2 pre1 step post Blk S hsplit hcall

/-! ## Properties of the end of a block -/

/-- C31: in a run of `Execute`, after a call of the emulator that returns false
no call follows: no cell is fetched, nothing is disassembled and the emulator is
not called again.  After one that returns true the next call reads the program
pointer back; when that read fails no call follows, and otherwise the next call
fetches the cell at the base of the entry address with the value read as its
offset (unless the fuel of the model ends the run there). -/
theorem Execute_stops_after_failed_block {ω : Type} (ex : Execution ω) (emul : Emulator ω)
    (clone : CloneCall) (fuel : Nat) (world : ω) (heap : Heap) (rAddr : Address)
    (pre post : List (Step ω)) (step : Step ω) (BlkAddr : Address) (Sems : List SPType)
    (hemul : ex.m_spEmul = some emul)
    (htrace : (Execution.Execute ex clone fuel world heap rAddr).trace = pre ++ step :: post)
    (hcall : step.call = .EmulatorExecute BlkAddr Sems) :
    afterBlock ex emul (ex.ProgramPointerRegister (ex.GetMode world))
      (ex.CpuInfo.GetSizeOfRegisterInBit (ex.ProgramPointerRegister (ex.GetMode world)))
      rAddr.m_Base (Execution.Execute ex clone fuel world heap rAddr).ended step BlkAddr Sems
      post := by
  unfold Execution.Execute at htrace ⊢
  simp only [hemul] at htrace ⊢
  split_ifs at htrace ⊢ with hreg hsize
  · simp at htrace
  · simp at htrace
  · rcases hw : ex.m_pCpuCtxt.WriteRegister world (ex.ProgramPointerRegister (ex.GetMode world))
      rAddr.GetOffset
      (ex.CpuInfo.GetSizeOfRegisterInBit (ex.ProgramPointerRegister (ex.GetMode world)))
      with ⟨ok, world1⟩
    rw [hw] at htrace
    cases ok with
    | false =>
      simp only at htrace
      cases pre with
      | nil =>
        simp only [List.nil_append, List.cons.injEq] at htrace
        rw [← htrace.1] at hcall
        cases hcall
      | cons p pre =>
        simp only [List.cons_append, List.cons.injEq] at htrace
        have := htrace.2
        simp at this
    | true =>
      simp only [Run.after] at htrace ⊢
      obtain ⟨pre1, -, hsplit⟩ := emulator_call_behind
        [⟨world, heap, .WriteRegister (ex.ProgramPointerRegister (ex.GetMode world))
          rAddr.GetOffset
          (ex.CpuInfo.GetSizeOfRegisterInBit (ex.ProgramPointerRegister (ex.GetMode world)))⟩]
        (by
          intro s hs B S hc
          simp only [List.mem_singleton] at hs
          subst hs
          cases hc) _ pre post step BlkAddr Sems htrace hcall
      exact (Loop_stops_after_failed_block ex emul clone _ _ _ _ _ _ _ _).2 pre1 step post
        BlkAddr Sems hsplit hcall

/-- C31 at the first block of the small machine: the emulator returns true, the
program pointer is read back as 32, and the calls that follow are the read of
the register and the fetch of the cell at offset 32. -/
theorem Execute_stops_after_failed_block_witness :
    afterBlock toyExecution toyEmulator 1 32 0 Ending.Returned
      ⟨⟨16, [(17, ⟨2, [], 1⟩), (16, ⟨1, [some 2], 0⟩)]⟩, toyHeapAtJump,
        .EmulatorExecute ⟨0, 16⟩ [some 4, some 7, some 10, some 11, some 12, some 15, some 16]⟩
      ⟨0, 16⟩ [some 4, some 7, some 10, some 11, some 12, some 15, some 16]
      ((Execution.Execute toyExecution (Clone 4) 5 ⟨0, []⟩ assignRegister ⟨0, 16⟩).trace.drop
        12) :=
  Execute_stops_after_failed_block toyExecution toyEmulator (Clone 4) 5 ⟨0, []⟩ assignRegister
    ⟨0, 16⟩
    ((Execution.Execute toyExecution (Clone 4) 5 ⟨0, []⟩ assignRegister ⟨0, 16⟩).trace.take 11)
    _ _ ⟨0, 16⟩ _ rfl rfl rfl

/-! ## Lemmas on function hooks -/

/-- One `HookFunction` call: the counter advances by 4 on success and stays on
failure, the table changes at the counter only, and on success the table holds
the name at the counter and the emulator accepted the hook at the counter. -/
theorem HookFunction_step {ω : Type} (ex : Execution ω) (setting : HookSetting) (world : ω)
    (hooks : HookState) (rFuncName : String) :
    ((Execution.HookFunction ex setting world hooks rFuncName).1 = true →
      (Execution.HookFunction ex setting world hooks rFuncName).2.2.s_FakeAddr =
        (hooks.s_FakeAddr + 4) % 2 ^ 64) ∧
    ((Execution.HookFunction ex setting world hooks rFuncName).1 = false →
      (Execution.HookFunction ex setting world hooks rFuncName).2.2.s_FakeAddr =
        hooks.s_FakeAddr) ∧
    (∀ key, key ≠ hooks.s_FakeAddr →
      (Execution.HookFunction ex setting world hooks rFuncName).2.2.m_HookName key =
        hooks.m_HookName key) ∧
    ((Execution.HookFunction ex setting world hooks rFuncName).1 = true →
      (Execution.HookFunction ex setting world hooks rFuncName).2.2.m_HookName hooks.s_FakeAddr =
        some rFuncName ∧
      ∃ emul world1, ex.m_spEmul = some emul ∧
        emul.AddHook world1 hooks.s_FakeAddr =
          (true, (Execution.HookFunction ex setting world hooks rFuncName).2.1)) := by
  unfold Execution.HookFunction
  cases hemul : ex.m_spEmul with
  | none => simp
  | some emul =>
    simp only
    split_ifs with hlabel
    · simp
    · cases harch : setting.ArchCpuInformation with
      | none => simp
      | some pCpuInfo =>
        simp only
        split_ifs with hsize
        · simp
        · rcases hW : emul.WriteMemory world
            (ex.m_rDoc.GetAddressFromLabelName world rFuncName) hooks.s_FakeAddr
            (pCpuInfo.Info.GetSizeOfRegisterInBit (pCpuInfo.ProgramPointerRegister
              (ex.m_rDoc.GetMode world (ex.m_rDoc.GetAddressFromLabelName world rFuncName))) / 8)
            with ⟨okW, world1⟩
          cases okW with
          | false => simp
          | true =>
            rcases hA : emul.AddHook world1 hooks.s_FakeAddr with ⟨okA, world2⟩
            cases okA with
            | false =>
              simp only [hA, Bool.false_eq_true, false_implies, true_implies, true_and, and_true]
              intro key hkey
              simp only [assignHook, hkey, if_false]
            | true =>
              simp only [hA, Bool.true_eq_false, false_implies, true_implies, true_and]
              refine ⟨?_, ?_, ?_⟩
              · intro key hkey
                simp only [assignHook, hkey, if_false]
              · simp only [assignHook, if_true]
              · exact ⟨emul, world1, rfl, hA⟩

/-- A sequence of calls unfolds into its first call and the rest. -/
theorem HookFunctions_cons {ω : Type} (ex : Execution ω) (setting : HookSetting) (world : ω)
    (hooks : HookState) (rFuncName : String) (rest : List String) :
    Execution.HookFunctions ex setting world hooks (rFuncName :: rest) =
      ((if (Execution.HookFunction ex setting world hooks rFuncName).1 = true
          then some hooks.s_FakeAddr else none) ::
        (Execution.HookFunctions ex setting
          (Execution.HookFunction ex setting world hooks rFuncName).2.1
          (Execution.HookFunction ex setting world hooks rFuncName).2.2 rest).1,
       (Execution.HookFunctions ex setting
          (Execution.HookFunction ex setting world hooks rFuncName).2.1
          (Execution.HookFunction ex setting world hooks rFuncName).2.2 rest).2.1,
       (Execution.HookFunctions ex setting
          (Execution.HookFunction ex setting world hooks rFuncName).2.1
          (Execution.HookFunction ex setting world hooks rFuncName).2.2 rest).2.2) := rfl

/-- A sequence of calls from any hook state, while the counter does not wrap:
the fake addresses of the successful calls count up by 4 from the counter, the
counter ends 4 further for each of them, keys below the counter keep their
entries, and the entry of each successful call ends as its name. -/
theorem HookFunctions_run {ω : Type} (ex : Execution ω) (setting : HookSetting) :
    ∀ (calls : List String) (world : ω) (hooks : HookState),
      hooks.s_FakeAddr + 4 * calls.length < 2 ^ 64 →
      (Execution.HookFunctions ex setting world hooks calls).1.length = calls.length ∧
      (Execution.HookFunctions ex setting world hooks calls).1.filterMap id =
        (List.range ((Execution.HookFunctions ex setting world hooks calls).1.filterMap id).length).map
          (fun k => hooks.s_FakeAddr + 4 * k) ∧
      (Execution.HookFunctions ex setting world hooks calls).2.2.s_FakeAddr =
        hooks.s_FakeAddr +
          4 * ((Execution.HookFunctions ex setting world hooks calls).1.filterMap id).length ∧
      (∀ key, key < hooks.s_FakeAddr →
        (Execution.HookFunctions ex setting world hooks calls).2.2.m_HookName key =
          hooks.m_HookName key) ∧
      (∀ (i : Nat) name fake, calls[i]? = some name →
        (Execution.HookFunctions ex setting world hooks calls).1[i]? = some (some fake) →
        (Execution.HookFunctions ex setting world hooks calls).2.2.m_HookName fake = some name) := by
  intro calls
  induction calls with
  | nil =>
    intro world hooks _
    simp [Execution.HookFunctions]
  | cons n rest ih =>
    intro world hooks hwrap
    obtain ⟨hT, hF, hkeep, hsucc⟩ := HookFunction_step ex setting world hooks n
    rw [HookFunctions_cons]
    have hlen : (n :: rest).length = rest.length + 1 := rfl
    rw [hlen] at hwrap
    cases hflag : (Execution.HookFunction ex setting world hooks n).1 with
    | false =>
      have hc := hF hflag
      obtain ⟨i1, i2, i3, i4, i5⟩ := ih (Execution.HookFunction ex setting world hooks n).2.1
        (Execution.HookFunction ex setting world hooks n).2.2 (by rw [hc]; omega)
      rw [hc] at i2 i3 i4
      simp only [Bool.false_eq_true, if_false, List.length_cons, i1, List.filterMap_cons_none,
        id_eq, true_and]
      refine ⟨i2, i3, ?_, ?_⟩
      · intro key hkey
        rw [i4 key hkey]
        exact hkeep key (by omega)
      · intro i name fake hcall hlog
        cases i with
        | zero => simp at hlog
        | succ i =>
          simp only [List.getElem?_cons_succ] at hcall hlog
          exact i5 i name fake hcall hlog
    | true =>
      have hc : (Execution.HookFunction ex setting world hooks n).2.2.s_FakeAddr =
          hooks.s_FakeAddr + 4 := by
        rw [hT hflag]
        exact Nat.mod_eq_of_lt (by omega)
      obtain ⟨i1, i2, i3, i4, i5⟩ := ih (Execution.HookFunction ex setting world hooks n).2.1
        (Execution.HookFunction ex setting world hooks n).2.2 (by rw [hc]; omega)
      rw [hc] at i2 i3 i4
      have hfm : List.filterMap id (some hooks.s_FakeAddr ::
          (Execution.HookFunctions ex setting
            (Execution.HookFunction ex setting world hooks n).2.1
            (Execution.HookFunction ex setting world hooks n).2.2 rest).1) =
          hooks.s_FakeAddr :: List.filterMap id
            (Execution.HookFunctions ex setting
              (Execution.HookFunction ex setting world hooks n).2.1
              (Execution.HookFunction ex setting world hooks n).2.2 rest).1 := rfl
      simp only [if_true, List.length_cons, i1, hfm, true_and]
      refine ⟨?_, ?_, ?_, ?_⟩
      · rw [List.range_succ_eq_map, List.map_cons, List.map_map]
        refine congrArg (List.cons _) ?_
        refine i2.trans (List.map_congr_left ?_)
        intro k _
        simp only [Function.comp, Nat.succ_eq_add_one]
        omega
      · rw [i3]
        omega
      · intro key hkey
        rw [i4 key (by omega)]
        exact hkeep key (by omega)
      · intro i name fake hcall hlog
        cases i with
        | zero =>
          simp only [List.getElem?_cons_zero, Option.some.injEq] at hcall hlog
          subst hcall
          subst hlog
          rw [i4 _ (by omega)]
          exact (hsucc hflag).1
        | succ i =>
          simp only [List.getElem?_cons_succ] at hcall hlog
          exact i5 i name fake hcall hlog

/-! ## The fake-address counter -/

/-- C32: the fake-address counter starts at `0xdead7700`; along any sequence of
`HookFunction` calls from the start (short enough for the 64-bit counter not to
wrap), a call that returns true has its hook accepted by the emulator at the
counter and leaves the counter 4 higher, and a call that returns false leaves
the counter as it was; the fake addresses of the successful calls are, in call
order, `0xdead7700 + 4 * k` for `k = 0, 1, …`, so they are pairwise distinct,
and the counter ends at `0xdead7700` plus 4 for each successful call. -/
theorem HookFunction_counter_advances {ω : Type} (ex : Execution ω) (setting : HookSetting)
    (world : ω) (calls : List String) (hwrap : 0xdead7700 + 4 * calls.length < 2 ^ 64) :
    HookState.initial.s_FakeAddr = 0xdead7700 ∧
    (∀ before rFuncName after, calls = before ++ rFuncName :: after →
      ((Execution.HookFunction ex setting
          (Execution.HookFunctions ex setting world HookState.initial before).2.1
          (Execution.HookFunctions ex setting world HookState.initial before).2.2 rFuncName).1 =
          true →
        (Execution.HookFunction ex setting
          (Execution.HookFunctions ex setting world HookState.initial before).2.1
          (Execution.HookFunctions ex setting world HookState.initial before).2.2
          rFuncName).2.2.s_FakeAddr =
          (Execution.HookFunctions ex setting world HookState.initial before).2.2.s_FakeAddr + 4 ∧
        ∃ emul world1, ex.m_spEmul = some emul ∧
          emul.AddHook world1
            (Execution.HookFunctions ex setting world HookState.initial before).2.2.s_FakeAddr =
          (true, (Execution.HookFunction ex setting
            (Execution.HookFunctions ex setting world HookState.initial before).2.1
            (Execution.HookFunctions ex setting world HookState.initial before).2.2
            rFuncName).2.1)) ∧
      ((Execution.HookFunction ex setting
          (Execution.HookFunctions ex setting world HookState.initial before).2.1
          (Execution.HookFunctions ex setting world HookState.initial before).2.2 rFuncName).1 =
          false →
        (Execution.HookFunction ex setting
          (Execution.HookFunctions ex setting world HookState.initial before).2.1
          (Execution.HookFunctions ex setting world HookState.initial before).2.2
          rFuncName).2.2.s_FakeAddr =
          (Execution.HookFunctions ex setting world HookState.initial before).2.2.s_FakeAddr)) ∧
    (∀ (k : Nat) fake,
      ((Execution.HookFunctions ex setting world HookState.initial calls).1.filterMap id)[k]? =
        some fake → fake = 0xdead7700 + 4 * k) ∧
    ((Execution.HookFunctions ex setting world HookState.initial calls).1.filterMap id).Nodup ∧
    (Execution.HookFunctions ex setting world HookState.initial calls).2.2.s_FakeAddr =
      0xdead7700 + 4 *
        ((Execution.HookFunctions ex setting world HookState.initial calls).1.filterMap id).length := by
  have h0 : HookState.initial.s_FakeAddr = 0xdead7700 := rfl
  refine ⟨h0, ?_, ?_⟩
  · intro before rFuncName after hsplit
    have hlen : calls.length = before.length + (after.length + 1) := by
      rw [hsplit, List.length_append, List.length_cons]
    obtain ⟨b1, -, b3, -, -⟩ := HookFunctions_run ex setting before world HookState.initial
      (by rw [h0]; omega)
    have hle := List.length_filterMap_le id
      (Execution.HookFunctions ex setting world HookState.initial before).1
    rw [b1] at hle
    rw [h0] at b3
    obtain ⟨hT, hF, -, hsucc⟩ := HookFunction_step ex setting
      (Execution.HookFunctions ex setting world HookState.initial before).2.1
      (Execution.HookFunctions ex setting world HookState.initial before).2.2 rFuncName
    refine ⟨fun hflag => ⟨?_, (hsucc hflag).2⟩, hF⟩
    rw [hT hflag]
    exact Nat.mod_eq_of_lt (by omega)
  · obtain ⟨-, r2, r3, -, -⟩ := HookFunctions_run ex setting calls world HookState.initial
      (by rw [h0]; exact hwrap)
    rw [h0] at r2 r3
    refine ⟨?_, ?_, r3⟩
    · intro k fake hk
      rw [r2, List.getElem?_map] at hk
      cases hr : (List.range ((Execution.HookFunctions ex setting world HookState.initial
          calls).1.filterMap id).length)[k]? with
      | none => rw [hr] at hk; cases hk
      | some j =>
        rw [hr] at hk
        have hj : j = k := by
          have hlt : k < (List.range ((Execution.HookFunctions ex setting world
              HookState.initial calls).1.filterMap id).length).length := by
            by_contra hcon
            rw [List.getElem?_eq_none (by omega)] at hr
            cases hr
          rw [List.getElem?_eq_getElem hlt, List.getElem_range] at hr
          exact (Option.some.inj hr).symm
        subst hj
        exact (Option.some.inj hk).symm
    · rw [r2]
      refine List.Nodup.map ?_ (List.nodup_range _)
      intro a b hab
      simp only at hab
      omega

theorem HookFunction_counter_advances_witness :
    (Execution.HookFunctions (hookExecution 2) hookSetting ⟨[], [], 0⟩ HookState.initial
      ["puts", "nolabel", "main", "puts"]).1 = [some 0xdead7700, none, some 0xdead7704, none] ∧
    (Execution.HookFunctions (hookExecution 2) hookSetting ⟨[], [], 0⟩ HookState.initial
      ["puts", "nolabel", "main", "puts"]).2.2.s_FakeAddr =
      0xdead7700 + 4 *
        ((Execution.HookFunctions (hookExecution 2) hookSetting ⟨[], [], 0⟩ HookState.initial
          ["puts", "nolabel", "main", "puts"]).1.filterMap id).length :=
  ⟨by decide,
    (HookFunction_counter_advances (hookExecution 2) hookSetting ⟨[], [], 0⟩
      ["puts", "nolabel", "main", "puts"] (by decide)).2.2.2.2⟩

/-! ## A failing `HookFunction` -/

/-- C33 (counterexample): on the small engine whose emulator accepts no hook,
`HookFunction("puts")` returns false after the memory write at the address of
`puts` and the table entry at `0xdead7700` have been made: neither is as before
the call. -/
theorem HookFunction_failure_leaves_write_and_entry :
    (Execution.HookFunction (hookExecution 0) hookSetting ⟨[], [], 0⟩ HookState.initial
      "puts").1 = false ∧
    (Execution.HookFunction (hookExecution 0) hookSetting ⟨[], [], 0⟩ HookState.initial
      "puts").2.1 = ⟨[(4096, 0xdead7700, 4)], [], 0⟩ ∧
    (Execution.HookFunction (hookExecution 0) hookSetting ⟨[], [], 0⟩ HookState.initial
      "puts").2.2.m_HookName 0xdead7700 = some "puts" ∧
    HookState.initial.m_HookName 0xdead7700 = none := by
  decide

/-- C33 (amended): whenever `HookFunction` returns false the fake-address
counter is as before the call.  When it fails for no emulator, a label neither
Imported nor Function, no CPU information or a zero program-pointer width, the
state of the emulator and the hook table are as before too; when the memory
write fails the hook table is as before and the state is the one the failed
write left; when `AddHook` fails the memory write stays made and the table holds
the name at the counter. -/
theorem HookFunction_failure_keeps_counter {ω : Type} (ex : Execution ω) (setting : HookSetting)
    (world : ω) (hooks : HookState) (rFuncName : String) :
    ((Execution.HookFunction ex setting world hooks rFuncName).1 = false →
      (Execution.HookFunction ex setting world hooks rFuncName).2.2.s_FakeAddr =
        hooks.s_FakeAddr) ∧
    (ex.m_spEmul = none →
      Execution.HookFunction ex setting world hooks rFuncName = (false, world, hooks)) ∧
    (ex.m_rDoc.GetLabelType world (ex.m_rDoc.GetAddressFromLabelName world rFuncName) &&&
        (setting.Imported ||| setting.Function) = 0 →
      Execution.HookFunction ex setting world hooks rFuncName = (false, world, hooks)) ∧
    (setting.ArchCpuInformation = none →
      Execution.HookFunction ex setting world hooks rFuncName = (false, world, hooks)) ∧
    (∀ pCpuInfo, setting.ArchCpuInformation = some pCpuInfo →
      pCpuInfo.Info.GetSizeOfRegisterInBit (pCpuInfo.ProgramPointerRegister
        (ex.m_rDoc.GetMode world (ex.m_rDoc.GetAddressFromLabelName world rFuncName))) / 8 = 0 →
      Execution.HookFunction ex setting world hooks rFuncName = (false, world, hooks)) ∧
    (∀ emul pCpuInfo, ex.m_spEmul = some emul →
      ex.m_rDoc.GetLabelType world (ex.m_rDoc.GetAddressFromLabelName world rFuncName) &&&
        (setting.Imported ||| setting.Function) ≠ 0 →
      setting.ArchCpuInformation = some pCpuInfo →
      pCpuInfo.Info.GetSizeOfRegisterInBit (pCpuInfo.ProgramPointerRegister
        (ex.m_rDoc.GetMode world (ex.m_rDoc.GetAddressFromLabelName world rFuncName))) / 8 ≠ 0 →
      (∀ world1, emul.WriteMemory world (ex.m_rDoc.GetAddressFromLabelName world rFuncName)
          hooks.s_FakeAddr
          (pCpuInfo.Info.GetSizeOfRegisterInBit (pCpuInfo.ProgramPointerRegister
            (ex.m_rDoc.GetMode world (ex.m_rDoc.GetAddressFromLabelName world rFuncName))) / 8) =
          (false, world1) →
        Execution.HookFunction ex setting world hooks rFuncName = (false, world1, hooks)) ∧
      (∀ world1 world2, emul.WriteMemory world (ex.m_rDoc.GetAddressFromLabelName world rFuncName)
          hooks.s_FakeAddr
          (pCpuInfo.Info.GetSizeOfRegisterInBit (pCpuInfo.ProgramPointerRegister
            (ex.m_rDoc.GetMode world (ex.m_rDoc.GetAddressFromLabelName world rFuncName))) / 8) =
          (true, world1) →
        emul.AddHook world1 hooks.s_FakeAddr = (false, world2) →
        Execution.HookFunction ex setting world hooks rFuncName =
          (false, world2,
            ⟨assignHook hooks.m_HookName hooks.s_FakeAddr rFuncName, hooks.s_FakeAddr⟩))) := by
  refine ⟨(HookFunction_step ex setting world hooks rFuncName).2.1, ?_, ?_, ?_, ?_, ?_⟩
  · intro hemul
    simp only [Execution.HookFunction, hemul]
  · intro hlabel
    unfold Execution.HookFunction
    cases ex.m_spEmul with
    | none => rfl
    | some emul => simp only [hlabel, if_true]
  · intro harch
    unfold Execution.HookFunction
    cases ex.m_spEmul with
    | none => rfl
    | some emul =>
      simp only [harch]
      split_ifs <;> rfl
  · intro pCpuInfo harch hsize
    unfold Execution.HookFunction
    cases ex.m_spEmul with
    | none => rfl
    | some emul =>
      simp only [harch, hsize, if_true]
      split_ifs <;> rfl
  · intro emul pCpuInfo hemul hlabel harch hsize
    refine ⟨?_, ?_⟩
    · intro world1 hW
      simp only [Execution.HookFunction, hemul, hlabel, harch, hsize, hW, if_false]
    · intro world1 world2 hW hA
      simp only [Execution.HookFunction, hemul, hlabel, harch, hsize, hW, hA, if_false]

/-! ## The name of the hook reached -/

/-- C34: `GetHookName` never changes the hook table, and returns the name the
table stores at the value read from the program-pointer register (which has a
non-zero identifier and width), or the empty string when the table stores none
there or the register cannot be read.  After any sequence of `HookFunction`
calls from the start (short enough for the 64-bit counter not to wrap), in any
state whose program-pointer register holds the fake address of a successful
call of the sequence, it returns the name of that call. -/
theorem GetHookName_returns_hooked_name {ω : Type} (ex : Execution ω) (setting : HookSetting)
    (world : ω) (calls : List String) (hwrap : 0xdead7700 + 4 * calls.length < 2 ^ 64) :
    (∀ (w : ω) (hooks : HookState), (Execution.GetHookName ex setting w hooks).2 = hooks) ∧
    (∀ (w : ω) (hooks : HookState) (value : Nat),
      setting.ContextCpuInformation.ProgramPointerRegister (ex.GetMode w) ≠ 0 →
      setting.ContextCpuInformation.Info.GetSizeOfRegisterInBit
        (setting.ContextCpuInformation.ProgramPointerRegister (ex.GetMode w)) ≠ 0 →
      ex.m_pCpuCtxt.ReadRegister w
        (setting.ContextCpuInformation.ProgramPointerRegister (ex.GetMode w))
        (setting.ContextCpuInformation.Info.GetSizeOfRegisterInBit
          (setting.ContextCpuInformation.ProgramPointerRegister (ex.GetMode w))) = some value →
      (Execution.GetHookName ex setting w hooks).1 = (hooks.m_HookName value).getD "") ∧
    (∀ (w : ω) (hooks : HookState) (value : Nat),
      ex.m_pCpuCtxt.ReadRegister w
        (setting.ContextCpuInformation.ProgramPointerRegister (ex.GetMode w))
        (setting.ContextCpuInformation.Info.GetSizeOfRegisterInBit
          (setting.ContextCpuInformation.ProgramPointerRegister (ex.GetMode w))) = some value →
      hooks.m_HookName value = none →
      (Execution.GetHookName ex setting w hooks).1 = "") ∧
    (∀ (w : ω) (hooks : HookState),
      ex.m_pCpuCtxt.ReadRegister w
        (setting.ContextCpuInformation.ProgramPointerRegister (ex.GetMode w))
        (setting.ContextCpuInformation.Info.GetSizeOfRegisterInBit
          (setting.ContextCpuInformation.ProgramPointerRegister (ex.GetMode w))) = none →
      (Execution.GetHookName ex setting w hooks).1 = "") ∧
    (∀ (w : ω) (i : Nat) (rFuncName : String) (fake : Nat),
      calls[i]? = some rFuncName →
      (Execution.HookFunctions ex setting world HookState.initial calls).1[i]? =
        some (some fake) →
      setting.ContextCpuInformation.ProgramPointerRegister (ex.GetMode w) ≠ 0 →
      setting.ContextCpuInformation.Info.GetSizeOfRegisterInBit
        (setting.ContextCpuInformation.ProgramPointerRegister (ex.GetMode w)) ≠ 0 →
      ex.m_pCpuCtxt.ReadRegister w
        (setting.ContextCpuInformation.ProgramPointerRegister (ex.GetMode w))
        (setting.ContextCpuInformation.Info.GetSizeOfRegisterInBit
          (setting.ContextCpuInformation.ProgramPointerRegister (ex.GetMode w))) = some fake →
      Execution.GetHookName ex setting w
        (Execution.HookFunctions ex setting world HookState.initial calls).2.2 =
        (rFuncName, (Execution.HookFunctions ex setting world HookState.initial calls).2.2)) := by
  have hlookup : ∀ (w : ω) (hooks : HookState) (value : Nat),
      setting.ContextCpuInformation.ProgramPointerRegister (ex.GetMode w) ≠ 0 →
      setting.ContextCpuInformation.Info.GetSizeOfRegisterInBit
        (setting.ContextCpuInformation.ProgramPointerRegister (ex.GetMode w)) ≠ 0 →
      ex.m_pCpuCtxt.ReadRegister w
        (setting.ContextCpuInformation.ProgramPointerRegister (ex.GetMode w))
        (setting.ContextCpuInformation.Info.GetSizeOfRegisterInBit
          (setting.ContextCpuInformation.ProgramPointerRegister (ex.GetMode w))) = some value →
      Execution.GetHookName ex setting w hooks = ((hooks.m_HookName value).getD "", hooks) := by
    intro w hooks value hreg hsize hread
    simp only [Execution.GetHookName, hreg, hsize, hread, if_false]
    cases hooks.m_HookName value <;> rfl
  refine ⟨?_, ?_, ?_, ?_, ?_⟩
  · intro w hooks
    unfold Execution.GetHookName
    simp only
    split_ifs
    · rfl
    · rfl
    · cases ex.m_pCpuCtxt.ReadRegister w
        (setting.ContextCpuInformation.ProgramPointerRegister (ex.GetMode w))
        (setting.ContextCpuInformation.Info.GetSizeOfRegisterInBit
          (setting.ContextCpuInformation.ProgramPointerRegister (ex.GetMode w))) with
      | none => rfl
      | some value =>
        simp only
        cases hooks.m_HookName value <;> rfl
  · intro w hooks value hreg hsize hread
    rw [hlookup w hooks value hreg hsize hread]
  · intro w hooks value hread hnone
    unfold Execution.GetHookName
    simp only [hread, hnone]
    split_ifs <;> rfl
  · intro w hooks hread
    unfold Execution.GetHookName
    simp only [hread]
    split_ifs <;> rfl
  · intro w i rFuncName fake hcall hlog hreg hsize hread
    obtain ⟨-, -, -, -, r5⟩ := HookFunctions_run ex setting calls world HookState.initial hwrap
    rw [hlookup w _ fake hreg hsize hread, r5 i rFuncName fake hcall hlog]
    rfl

theorem GetHookName_returns_hooked_name_witness :
    (Execution.HookFunctions (hookExecution 2) hookSetting ⟨[], [], 0⟩ HookState.initial
      ["puts", "nolabel", "main", "puts"]).1[2]? = some (some 0xdead7704) ∧
    Execution.GetHookName (hookExecution 2) hookSetting ⟨[], [], 0xdead7704⟩
      (Execution.HookFunctions (hookExecution 2) hookSetting ⟨[], [], 0⟩ HookState.initial
        ["puts", "nolabel", "main", "puts"]).2.2 =
      ("main", (Execution.HookFunctions (hookExecution 2) hookSetting ⟨[], [], 0⟩
        HookState.initial ["puts", "nolabel", "main", "puts"]).2.2) :=
  ⟨by decide,
    (GetHookName_returns_hooked_name (hookExecution 2) hookSetting ⟨[], [], 0⟩
      ["puts", "nolabel", "main", "puts"] (by decide)).2.2.2.2 ⟨[], [], 0xdead7704⟩ 2 "main"
      0xdead7704 (by decide) (by decide) (by decide) (by decide) (by decide)⟩


end Medusa
